import Mathlib

/-!
Verification of the SimpleSAT solver core (solver.c) and its DIMACS reader
(format.c), via a shallow embedding in Lean.

Modelling conventions:
* `Literal` (C `unsigned int`) is `Nat`; the indices involved stay far below
  `2^32` on the inputs considered, so no wraparound modelling is needed.
* C arrays with an explicit length counter become Lean `List`s; the two
  push/pop stacks (`unit_stack`/`n_units` and `assigned`/`n_assigned`) are
  lists with the top of the stack at the head, and the counter is the length.
* Occurrence lists (`ClauseState **cont_clauses`) store clause *indices* into
  `Solver.clauses` instead of pointers.
* The mutually recursive search (`search_assignments`/`try_assignment`) and
  the unit-propagation `while` loop receive an explicit fuel argument and
  return `none` when the fuel is exhausted; all recursion is structural on
  the fuel so that terms evaluate by kernel reduction.
* `n_lits`/`c_lits` and `c_cont_clauses` capacity bookkeeping of the growable
  arrays is dropped (`n_lits` is the length of the list).
* `clock_t` timestamps are not modelled.
-/

namespace SimpleSAT

/-- C: `return lit ^ 1;` (flip the least significant bit). -/
def negate (lit : Nat) : Nat := lit ^^^ 1

/-- C `lit_from_int`: positive `repr` maps to the even code `(repr-1)<<1`,
negative `repr` to the odd code `((-repr-1)<<1)|1`. -/
def lit_from_int (repr : Int) : Nat :=
  if repr > 0 then ((repr - 1).toNat) <<< 1
  else (((-repr) - 1).toNat <<< 1) ||| 1

/-- C `int_from_lit`: odd codes map to `-((lit>>1)+1)`, even codes to
`(lit>>1)+1`. -/
def int_from_lit (lit : Nat) : Int :=
  if lit % 2 = 1 then -(((lit >>> 1) : Nat) + 1 : Int)
  else (((lit >>> 1) : Nat) + 1 : Int)

/-- Per-clause state: the literal list and the three aggregate counters. -/
structure ClauseState where
  lits : List Nat
  n_assigned_true : Nat
  n_assigned_false : Nat
  n_free_lits : Nat
deriving DecidableEq, Repr, Inhabited

/-- Per-literal state: assignment flags, heuristic score, occurrence list
(clause indices). -/
structure LitState where
  fixed : Bool
  assigned : Bool
  score : Nat
  cont_clauses : List Nat
deriving DecidableEq, Repr, Inhabited

/-- The `Solution` verdict enum. -/
inductive Solution where
  | SOLUTION_UNKNOWN
  | SOLUTION_SATISFIABLE
  | SOLUTION_UNSATISFIABLE
deriving DecidableEq, Repr, Inhabited

export Solution (SOLUTION_UNKNOWN SOLUTION_SATISFIABLE SOLUTION_UNSATISFIABLE)

/-- The solver state.  `n_units` is `unit_stack.length` and `n_assigned` is
`assigned.length`; both stacks keep their top element at the head. -/
structure Solver where
  n_vars : Nat
  n_clauses : Nat
  lits : List LitState
  clauses : List ClauseState
  n_sat_clauses : Nat
  n_unsat_clauses : Nat
  unit_stack : List Nat
  assigned : List Nat
  solution : Solution
  t_branches : Nat
  t_unit_props : Nat
deriving DecidableEq, Repr, Inhabited

/-- Read `solver->lits[l]`. -/
def getLit (s : Solver) (l : Nat) : LitState := s.lits.getD l default

/-- Write `solver->lits[l]`. -/
def setLit (s : Solver) (l : Nat) (v : LitState) : Solver :=
  { s with lits := s.lits.set l v }

/-- Read `solver->clauses[ci]`. -/
def getClause (s : Solver) (ci : Nat) : ClauseState := s.clauses.getD ci default

/-- Write `solver->clauses[ci]`. -/
def setClause (s : Solver) (ci : Nat) (v : ClauseState) : Solver :=
  { s with clauses := s.clauses.set ci v }

/-- C `create_clause_state`: empty literal list, all counters zero. -/
def create_clause_state : ClauseState :=
  { lits := [], n_assigned_true := 0, n_assigned_false := 0, n_free_lits := 0 }

/-- C `add_literal`: append the literal and bump `n_free_lits`. -/
def add_literal (cstate : ClauseState) (lit : Nat) : ClauseState :=
  { cstate with lits := cstate.lits ++ [lit], n_free_lits := cstate.n_free_lits + 1 }

/-- C `create_lit_state`. -/
def create_lit_state : LitState :=
  { fixed := false, assigned := false, score := 0, cont_clauses := [] }

/-- C `add_cont_clause`: append a clause (index) to the occurrence list. -/
def add_cont_clause (lstate : LitState) (ci : Nat) : LitState :=
  { lstate with cont_clauses := lstate.cont_clauses ++ [ci] }

/-- C `create_solver` (precondition `num_vars > 0`). -/
def create_solver (num_vars num_clauses : Nat) : Solver :=
  { n_vars := num_vars
    n_clauses := num_clauses
    lits := List.replicate (num_vars <<< 1) create_lit_state
    clauses := List.replicate num_clauses create_clause_state
    n_sat_clauses := 0
    n_unsat_clauses := 0
    unit_stack := []
    assigned := []
    solution := SOLUTION_UNKNOWN
    t_branches := 0
    t_unit_props := 0 }

/-- C `add_literal_to_clause`: skip duplicates, otherwise add the literal to
the clause and the clause to the literal's occurrence list. -/
def add_literal_to_clause (s : Solver) (ci : Nat) (lit : Nat) : Solver :=
  if lit ∈ (getClause s ci).lits then s
  else
    let s1 := setClause s ci (add_literal (getClause s ci) lit)
    setLit s1 lit (add_cont_clause (getLit s1 lit) ci)

/-- The weight a single clause contributes in `update_scores`: satisfied
clauses contribute 0; otherwise `n_free_lits = 2` gives 4, `= 3` gives 2 and
every other value falls into the `default:` branch giving 1. -/
def clause_weight (c : ClauseState) : Nat :=
  if c.n_assigned_true ≠ 0 then 0
  else
    match c.n_free_lits with
    | 2 => 4
    | 3 => 2
    | _ => 1

/-- C `update_scores`: zero every score, then for each non-fixed literal sum
the weights of the clauses on its occurrence list. -/
def update_scores (s : Solver) : Solver :=
  let s0 := (List.range (s.n_vars <<< 1)).foldl
    (fun t l => setLit t l { getLit t l with score := 0 }) s
  (List.range (s0.n_vars <<< 1)).foldl
    (fun t l =>
      let lstate := getLit t l
      if lstate.fixed then t
      else
        setLit t l
          { lstate with
            score := lstate.cont_clauses.foldl
              (fun sc ci => sc + clause_weight (getClause t ci)) lstate.score })
    s0

/-- C `choose_branch`.  Returns the solver (whose scores were refreshed by
`update_scores`) together with the chosen literal.  The fold implements the
`for (lit = 0; lit < n_vars << 1; lit += 2)` loop carrying
`(best_lit, best_score)`, initially `(0, 0)`. -/
def choose_branch (s : Solver) : Solver × Nat :=
  let t := update_scores s
  let best := ((List.range t.n_vars).map (fun v => 2 * v)).foldl
    (fun (acc : Nat × Nat) lit =>
      if (getLit t lit).fixed then acc
      else
        let a := (getLit t lit).score
        let b := (getLit t (negate lit)).score
        let score := (a + 1) * (b + 1)
        if score > acc.2 then
          (if a ≥ b then lit else negate lit, score)
        else acc)
    (0, 0)
  (t, best.1)

/-- C `add_true_assignment` (precondition `n_free_lits > 0`). -/
def add_true_assignment (s : Solver) (ci : Nat) : Solver :=
  let c := getClause s ci
  let s1 := if c.n_assigned_true = 0
    then { s with n_sat_clauses := s.n_sat_clauses + 1 } else s
  setClause s1 ci
    { c with n_assigned_true := c.n_assigned_true + 1, n_free_lits := c.n_free_lits - 1 }

/-- C `get_unit` (preconditions `n_free_lits == 1`, `n_assigned_true == 0`):
linear scan for the first literal whose variable is not fixed.  The
unreachable fallthrough `return -1` is `(unsigned int)(-1) = 4294967295`. -/
def get_unit (s : Solver) (ci : Nat) : Nat :=
  match (getClause s ci).lits.find? (fun lit => ! (getLit s lit).fixed) with
  | some lit => lit
  | none => 4294967295

/-- C `add_false_assignment` (precondition `n_free_lits > 0`): count a new
contradiction before the decrement, decrement, then push the unit literal if
the clause just became unit. -/
def add_false_assignment (s : Solver) (ci : Nat) : Solver :=
  let c := getClause s ci
  let s1 := if c.n_assigned_true = 0 ∧ c.n_free_lits = 1
    then { s with n_unsat_clauses := s.n_unsat_clauses + 1 } else s
  let c2 : ClauseState :=
    { c with n_assigned_false := c.n_assigned_false + 1, n_free_lits := c.n_free_lits - 1 }
  let s2 := setClause s1 ci c2
  if c2.n_assigned_true = 0 ∧ c2.n_free_lits = 1 then
    let unit := get_unit s2 ci
    { s2 with unit_stack := unit :: s2.unit_stack }
  else s2

/-- C `undo_true_assignment`. -/
def undo_true_assignment (s : Solver) (ci : Nat) : Solver :=
  let c := getClause s ci
  let c2 : ClauseState :=
    { c with n_assigned_true := c.n_assigned_true - 1, n_free_lits := c.n_free_lits + 1 }
  let s2 := setClause s ci c2
  if c2.n_assigned_true = 0
  then { s2 with n_sat_clauses := s2.n_sat_clauses - 1 } else s2

/-- C `undo_false_assignment`. -/
def undo_false_assignment (s : Solver) (ci : Nat) : Solver :=
  let c := getClause s ci
  let c2 : ClauseState :=
    { c with n_assigned_false := c.n_assigned_false - 1, n_free_lits := c.n_free_lits + 1 }
  let s2 := setClause s ci c2
  if c2.n_assigned_true = 0 ∧ c2.n_free_lits = 1
  then { s2 with n_unsat_clauses := s2.n_unsat_clauses - 1 } else s2

/-- C `make_assignment` (preconditions: neither `lit` nor `negate lit` is
fixed): set the four flags first, then walk the two occurrence lists. -/
def make_assignment (s : Solver) (lit : Nat) : Solver :=
  let s1 := setLit s lit { getLit s lit with fixed := true, assigned := true }
  let s2 := setLit s1 (negate lit)
    { getLit s1 (negate lit) with fixed := true, assigned := false }
  let s3 := (getLit s2 lit).cont_clauses.foldl add_true_assignment s2
  (getLit s3 (negate lit)).cont_clauses.foldl add_false_assignment s3

/-- C `undo_assignment`: undo the true assignments, then the false ones, then
clear both `fixed` flags (the stale `assigned` bits are left in place, as in
the source). -/
def undo_assignment (s : Solver) (lit : Nat) : Solver :=
  let s1 := (getLit s lit).cont_clauses.foldl undo_true_assignment s
  let s2 := (getLit s1 (negate lit)).cont_clauses.foldl undo_false_assignment s1
  let s3 := setLit s2 lit { getLit s2 lit with fixed := false }
  setLit s3 (negate lit) { getLit s3 (negate lit) with fixed := false }

/-- C `all_satisfied`. -/
def all_satisfied (s : Solver) : Bool := s.n_sat_clauses = s.n_clauses

/-- C `any_contradiction`. -/
def any_contradiction (s : Solver) : Bool := s.n_unsat_clauses > 0

/-- The `while (solver->n_units > 0)` unit-propagation loop of
`try_assignment`, with fuel.  Returns the updated solver and `true` when a
false unit was derived (the `goto backtrack` conflict path, which also clears
the unit stack). -/
def prop_loop : Nat → Solver → Option (Solver × Bool)
  | 0, _ => none
  | fuel + 1, s =>
    match s.unit_stack with
    | [] => some (s, false)
    | unit :: rest =>
      let s1 := { s with unit_stack := rest }
      if (getLit s1 unit).fixed = false then
        let s2 := { s1 with
          t_unit_props := s1.t_unit_props + 1
          assigned := unit :: s1.assigned }
        prop_loop fuel (make_assignment s2 unit)
      else if (getLit s1 unit).assigned = false then
        some ({ s1 with unit_stack := [] }, true)
      else
        prop_loop fuel s1

/-- The `while (solver->n_assigned > prev_n_assigned)` backtrack loop: pop
`n` literals off the trail, undoing each assignment. -/
def popUndo : Nat → Solver → Solver
  | 0, s => s
  | n + 1, s =>
    match s.assigned with
    | [] => s
    | lit :: rest => popUndo n (undo_assignment { s with assigned := rest } lit)

/-- Body of C `try_assignment`, parametrised by the recursive call to
`search_assignments` (so that the combined recursion is structural on the
fuel).  `fuel` here only feeds the propagation loop. -/
def try_assignment_gen (rec : Solver → Option (Solution × Solver)) (fuel : Nat)
    (s : Solver) (branch : Nat) : Option (Solution × Solver) :=
  let prev_n_assigned := s.assigned.length
  let s1 := { s with
    t_branches := s.t_branches + 1
    assigned := branch :: s.assigned }
  let s2 := make_assignment s1 branch
  match prop_loop fuel s2 with
  | none => none
  | some (s3, true) =>
    some (SOLUTION_UNSATISFIABLE, popUndo (s3.assigned.length - prev_n_assigned) s3)
  | some (s3, false) =>
    match rec s3 with
    | none => none
    | some (sol, s4) =>
      if sol = SOLUTION_UNSATISFIABLE then
        some (SOLUTION_UNSATISFIABLE, popUndo (s4.assigned.length - prev_n_assigned) s4)
      else some (sol, s4)

/-- C `search_assignments`, with fuel (`none` = fuel exhausted). -/
def search_assignments : Nat → Solver → Option (Solution × Solver)
  | 0, _ => none
  | fuel + 1, s =>
    if any_contradiction s then some (SOLUTION_UNSATISFIABLE, s)
    else if all_satisfied s then some (SOLUTION_SATISFIABLE, s)
    else
      let tb := choose_branch s
      match try_assignment_gen (search_assignments fuel) fuel tb.1 tb.2 with
      | none => none
      | some (sol, s1) =>
        if sol ≠ SOLUTION_UNSATISFIABLE then some (sol, s1)
        else
          match try_assignment_gen (search_assignments fuel) fuel s1 (negate tb.2) with
          | none => none
          | some (sol2, s2) =>
            if sol2 ≠ SOLUTION_UNSATISFIABLE then some (sol2, s2)
            else some (SOLUTION_UNSATISFIABLE, s2)

/-- C `try_assignment`: the body above with `rec = search_assignments fuel`. -/
def try_assignment (fuel : Nat) (s : Solver) (branch : Nat) :
    Option (Solution × Solver) :=
  try_assignment_gen (search_assignments fuel) fuel s branch

/-- Build the solver exactly the way `read_problem` does: `create_solver`
followed by `add_literal_to_clause (lit_from_int repr)` for every literal of
every clause, in order. -/
def loadSolver (nv : Nat) (cls : List (List Int)) : Solver :=
  (cls.enum).foldl
    (fun s p => p.2.foldl (fun t r => add_literal_to_clause t p.1 (lit_from_int r)) s)
    (create_solver nv cls.length)

/-! ## Basic arithmetic and state-access lemmas -/

theorem shiftLeft_one_eq (k : Nat) : k <<< 1 = 2 * k := by
  simp [Nat.shiftLeft_eq, Nat.mul_comm]

theorem shiftRight_one_eq (k : Nat) : k >>> 1 = k / 2 := by
  simp [Nat.shiftRight_eq_div_pow]

theorem two_mul_or_one (k : Nat) : (2 * k) ||| 1 = 2 * k + 1 := by
  have h1 : (2 * k) = Nat.bit false k := by simp [Nat.bit_val]
  have h2 : (1 : Nat) = Nat.bit true 0 := by simp [Nat.bit_val]
  rw [h1, h2, Nat.lor_bit]
  simp [Nat.bit_val]

theorem two_mul_xor_one (k : Nat) : (2 * k) ^^^ 1 = 2 * k + 1 := by
  have h1 : (2 * k) = Nat.bit false k := by simp [Nat.bit_val]
  have h2 : (1 : Nat) = Nat.bit true 0 := by simp [Nat.bit_val]
  rw [h1, h2, Nat.xor_bit]
  simp [Nat.bit_val]

theorem two_mul_add_one_xor_one (k : Nat) : (2 * k + 1) ^^^ 1 = 2 * k := by
  have h1 : (2 * k + 1) = Nat.bit true k := by simp [Nat.bit_val]
  have h2 : (1 : Nat) = Nat.bit true 0 := by simp [Nat.bit_val]
  rw [h1, h2, Nat.xor_bit]
  simp [Nat.bit_val]

theorem negate_even (v : Nat) : negate (2 * v) = 2 * v + 1 :=
  two_mul_xor_one v

theorem negate_odd (v : Nat) : negate (2 * v + 1) = 2 * v :=
  two_mul_add_one_xor_one v

/-- Every literal is `2*v` or `2*v+1` for its variable `v = l / 2`. -/
theorem lit_split (l : Nat) : l = 2 * (l / 2) ∨ l = 2 * (l / 2) + 1 := by omega

theorem negate_negate (l : Nat) : negate (negate l) = l := by
  rcases lit_split l with h | h
  · rw [h, negate_even, negate_odd]
  · rw [h, negate_odd, negate_even]

/-- Arithmetic characterisation of the bit flip. -/
theorem negate_eq (l : Nat) : negate l = if l % 2 = 0 then l + 1 else l - 1 := by
  rcases Nat.mod_two_eq_zero_or_one l with hm | hm
  · obtain ⟨k, rfl⟩ : ∃ k, l = 2 * k := ⟨l / 2, by omega⟩
    have hc : (2 * k) % 2 = 0 := by omega
    rw [negate_even, if_pos hc]
  · obtain ⟨k, rfl⟩ : ∃ k, l = 2 * k + 1 := ⟨l / 2, by omega⟩
    have hc : ¬ ((2 * k + 1) % 2 = 0) := by omega
    rw [negate_odd, if_neg hc]
    omega

theorem negate_div_two (l : Nat) : negate l / 2 = l / 2 := by
  rw [negate_eq]; split <;> omega

theorem negate_ne (l : Nat) : negate l ≠ l := by
  rw [negate_eq]; split <;> omega

theorem negate_lt (l n : Nat) (h : l < 2 * n) : negate l < 2 * n := by
  rw [negate_eq]; split <;> omega

theorem getClause_setClause_self (s : Solver) (ci : Nat) (v : ClauseState)
    (h : ci < s.clauses.length) : getClause (setClause s ci v) ci = v := by
  simp [getClause, setClause, List.getD_eq_getElem?_getD, List.getElem?_set_self, h]

theorem getClause_setClause_ne (s : Solver) (ci cj : Nat) (v : ClauseState)
    (h : ci ≠ cj) : getClause (setClause s ci v) cj = getClause s cj := by
  simp [getClause, setClause, List.getD_eq_getElem?_getD, List.getElem?_set_ne h]

theorem getLit_setLit_self (s : Solver) (l : Nat) (v : LitState)
    (h : l < s.lits.length) : getLit (setLit s l v) l = v := by
  simp [getLit, setLit, List.getD_eq_getElem?_getD, List.getElem?_set_self, h]

theorem getLit_setLit_ne (s : Solver) (l j : Nat) (v : LitState)
    (h : l ≠ j) : getLit (setLit s l v) j = getLit s j := by
  simp [getLit, setLit, List.getD_eq_getElem?_getD, List.getElem?_set_ne h]

/-- `get_unit` only looks at the clause's literal list and the fixed flags. -/
theorem get_unit_congr (s t : Solver) (ci : Nat)
    (hl : (getClause s ci).lits = (getClause t ci).lits)
    (hf : ∀ l, (getLit s l).fixed = (getLit t l).fixed) :
    get_unit s ci = get_unit t ci := by
  unfold get_unit
  rw [hl]
  have : (fun lit => ! (getLit s lit).fixed) = (fun lit => ! (getLit t lit).fixed) := by
    funext l
    rw [hf l]
  rw [this]

/-! ## C9: the literal encoding round-trips with the signed representation -/

/-- C9: for nonzero `n`, `int_from_lit (lit_from_int n) = n`; moreover
positive `n` maps to the even code `(n-1) <<< 1` and negative `n` to the odd
code `((-n-1) <<< 1) ||| 1`. -/
theorem lit_int_roundtrip (n : Int) (h : n ≠ 0) :
    int_from_lit (lit_from_int n) = n ∧
    (0 < n → lit_from_int n = ((n - 1).toNat) <<< 1) ∧
    (n < 0 → lit_from_int n = ((((-n) - 1).toNat) <<< 1) ||| 1) := by
  rcases lt_trichotomy n 0 with hneg | rfl | hpos
  · have hng : ¬ (n > 0) := by omega
    have hform : lit_from_int n = ((((-n) - 1).toNat) <<< 1) ||| 1 := by
      simp [lit_from_int, hng]
    refine ⟨?_, by intro; omega, fun _ => hform⟩
    rw [hform, shiftLeft_one_eq, two_mul_or_one]
    have hmod : (2 * ((-n) - 1).toNat + 1) % 2 = 1 := by omega
    have hshift : (2 * ((-n) - 1).toNat + 1) >>> 1 = ((-n) - 1).toNat := by
      rw [shiftRight_one_eq]
      omega
    simp only [int_from_lit, hmod, if_pos, hshift]
    omega
  · exact absurd rfl h
  · have hform : lit_from_int n = ((n - 1).toNat) <<< 1 := by
      simp [lit_from_int, hpos]
    refine ⟨?_, fun _ => hform, by intro; omega⟩
    rw [hform, shiftLeft_one_eq]
    have hmod : ¬ ((2 * (n - 1).toNat) % 2 = 1) := by omega
    have hshift : (2 * (n - 1).toNat) >>> 1 = (n - 1).toNat := by
      rw [shiftRight_one_eq]
      omega
    simp only [int_from_lit, hmod, if_false, hshift]
    omega

/-- Witness for C9 at `n = -3`. -/
theorem lit_int_roundtrip_witness :
    int_from_lit (lit_from_int (-3)) = -3 ∧
    ((-3 : Int) < 0 → lit_from_int (-3) = ((((-(-3 : Int)) - 1).toNat) <<< 1) ||| 1) :=
  ⟨(lit_int_roundtrip (-3) (by decide)).1, (lit_int_roundtrip (-3) (by decide)).2.2⟩

/-! ## C5: the `add_false_assignment` transition -/

/-- A concrete solver (two variables, one clause `x1 ∨ x2`) used to witness
the `add_false_assignment` transition. -/
def addFalseWitnessSolver : Solver := loadSolver 2 [[1, 2]]

/-- C5: under the precondition `n_free_lits > 0`, `add_false_assignment`
increments `n_unsat_clauses` exactly when the clause had
`n_assigned_true = 0 ∧ n_free_lits = 1` before the call; it increments
`n_assigned_false` and decrements `n_free_lits`; and it pushes the clause's
unit literal onto `unit_stack` (incrementing `n_units`) exactly when the
clause after the decrement has `n_assigned_true = 0 ∧ n_free_lits = 1`. -/
theorem add_false_assignment_spec (s : Solver) (ci : Nat)
    (hci : ci < s.clauses.length) (_hfree : 0 < (getClause s ci).n_free_lits) :
    (add_false_assignment s ci).n_unsat_clauses
        = s.n_unsat_clauses
          + (if (getClause s ci).n_assigned_true = 0 ∧ (getClause s ci).n_free_lits = 1
             then 1 else 0) ∧
    (getClause (add_false_assignment s ci) ci).n_assigned_false
        = (getClause s ci).n_assigned_false + 1 ∧
    (getClause (add_false_assignment s ci) ci).n_free_lits
        = (getClause s ci).n_free_lits - 1 ∧
    ((getClause s ci).n_assigned_true = 0 ∧ (getClause s ci).n_free_lits - 1 = 1 →
        (add_false_assignment s ci).unit_stack = get_unit s ci :: s.unit_stack) ∧
    (¬ ((getClause s ci).n_assigned_true = 0 ∧ (getClause s ci).n_free_lits - 1 = 1) →
        (add_false_assignment s ci).unit_stack = s.unit_stack) := by
  refine ⟨?_, ?_, ?_, ?_, ?_⟩
  · simp only [add_false_assignment]
    split <;> split <;> simp [setClause]
  · simp only [add_false_assignment]
    split <;> split <;>
      simp [getClause, setClause, List.getD_eq_getElem?_getD, List.getElem?_set_self, hci]
  · simp only [add_false_assignment]
    split <;> split <;>
      simp [getClause, setClause, List.getD_eq_getElem?_getD, List.getElem?_set_self, hci]
  · intro hc
    have hg : ∀ (t : Solver), t.lits = s.lits → t.clauses = s.clauses.set ci
        ⟨(getClause s ci).lits, (getClause s ci).n_assigned_true,
          (getClause s ci).n_assigned_false + 1, (getClause s ci).n_free_lits - 1⟩ →
        get_unit t ci = get_unit s ci := by
      intro t hl hcl
      apply get_unit_congr
      · simp [getClause, hcl, List.getD_eq_getElem?_getD, List.getElem?_set_self, hci]
      · intro l
        simp [getLit, hl]
    simp only [add_false_assignment]
    split
    · next h2 =>
      split <;> simp_all [setClause, hg]
    · next h2 =>
      exfalso
      exact h2 (by simpa using hc)
  · intro hc
    simp only [add_false_assignment]
    split
    · next h2 =>
      exfalso
      exact hc (by simpa using h2)
    · split <;> simp [setClause]

/-- Witness for C5 on a concrete two-literal clause: the clause becomes unit
and its unit literal is pushed. -/
theorem add_false_assignment_spec_witness :
    (0 < (getClause addFalseWitnessSolver 0).n_free_lits) ∧
    (add_false_assignment addFalseWitnessSolver 0).unit_stack
      = get_unit addFalseWitnessSolver 0 :: addFalseWitnessSolver.unit_stack :=
  ⟨by decide,
   (add_false_assignment_spec addFalseWitnessSolver 0 (by decide) (by decide)).2.2.2.1
     (by decide)⟩

/-! ## Frame lemmas: which solver fields each operation preserves -/

theorem foldl_preserves {α β : Type} (g : Solver → β) (f : Solver → α → Solver)
    (hf : ∀ t a, g (f t a) = g t) :
    ∀ (L : List α) (s : Solver), g (L.foldl f s) = g s := by
  intro L
  induction L with
  | nil => intro s; rfl
  | cons a L ih => intro s; rw [List.foldl_cons, ih, hf]

theorem addT_lits (s : Solver) (ci : Nat) :
    (add_true_assignment s ci).lits = s.lits := by
  simp only [add_true_assignment, setClause]; split <;> rfl

theorem addT_assigned (s : Solver) (ci : Nat) :
    (add_true_assignment s ci).assigned = s.assigned := by
  simp only [add_true_assignment, setClause]; split <;> rfl

theorem addT_unit_stack (s : Solver) (ci : Nat) :
    (add_true_assignment s ci).unit_stack = s.unit_stack := by
  simp only [add_true_assignment, setClause]; split <;> rfl

theorem addT_n_unsat (s : Solver) (ci : Nat) :
    (add_true_assignment s ci).n_unsat_clauses = s.n_unsat_clauses := by
  simp only [add_true_assignment, setClause]; split <;> rfl

theorem addT_n_vars (s : Solver) (ci : Nat) :
    (add_true_assignment s ci).n_vars = s.n_vars := by
  simp only [add_true_assignment, setClause]; split <;> rfl

theorem addT_n_clauses (s : Solver) (ci : Nat) :
    (add_true_assignment s ci).n_clauses = s.n_clauses := by
  simp only [add_true_assignment, setClause]; split <;> rfl

theorem addT_clauses_len (s : Solver) (ci : Nat) :
    (add_true_assignment s ci).clauses.length = s.clauses.length := by
  simp only [add_true_assignment, setClause]; split <;> simp

theorem addF_lits (s : Solver) (ci : Nat) :
    (add_false_assignment s ci).lits = s.lits := by
  simp only [add_false_assignment, setClause]; split <;> split <;> rfl

theorem addF_assigned (s : Solver) (ci : Nat) :
    (add_false_assignment s ci).assigned = s.assigned := by
  simp only [add_false_assignment, setClause]; split <;> split <;> rfl

theorem addF_n_sat (s : Solver) (ci : Nat) :
    (add_false_assignment s ci).n_sat_clauses = s.n_sat_clauses := by
  simp only [add_false_assignment, setClause]; split <;> split <;> rfl

theorem addF_n_vars (s : Solver) (ci : Nat) :
    (add_false_assignment s ci).n_vars = s.n_vars := by
  simp only [add_false_assignment, setClause]; split <;> split <;> rfl

theorem addF_n_clauses (s : Solver) (ci : Nat) :
    (add_false_assignment s ci).n_clauses = s.n_clauses := by
  simp only [add_false_assignment, setClause]; split <;> split <;> rfl

theorem addF_clauses_len (s : Solver) (ci : Nat) :
    (add_false_assignment s ci).clauses.length = s.clauses.length := by
  simp only [add_false_assignment, setClause]; split <;> split <;> simp

theorem undoT_lits (s : Solver) (ci : Nat) :
    (undo_true_assignment s ci).lits = s.lits := by
  simp only [undo_true_assignment, setClause]; split <;> rfl

theorem undoT_assigned (s : Solver) (ci : Nat) :
    (undo_true_assignment s ci).assigned = s.assigned := by
  simp only [undo_true_assignment, setClause]; split <;> rfl

theorem undoT_unit_stack (s : Solver) (ci : Nat) :
    (undo_true_assignment s ci).unit_stack = s.unit_stack := by
  simp only [undo_true_assignment, setClause]; split <;> rfl

theorem undoT_n_unsat (s : Solver) (ci : Nat) :
    (undo_true_assignment s ci).n_unsat_clauses = s.n_unsat_clauses := by
  simp only [undo_true_assignment, setClause]; split <;> rfl

theorem undoT_n_vars (s : Solver) (ci : Nat) :
    (undo_true_assignment s ci).n_vars = s.n_vars := by
  simp only [undo_true_assignment, setClause]; split <;> rfl

theorem undoT_n_clauses (s : Solver) (ci : Nat) :
    (undo_true_assignment s ci).n_clauses = s.n_clauses := by
  simp only [undo_true_assignment, setClause]; split <;> rfl

theorem undoT_clauses_len (s : Solver) (ci : Nat) :
    (undo_true_assignment s ci).clauses.length = s.clauses.length := by
  simp only [undo_true_assignment, setClause]; split <;> simp

theorem undoF_lits (s : Solver) (ci : Nat) :
    (undo_false_assignment s ci).lits = s.lits := by
  simp only [undo_false_assignment, setClause]; split <;> rfl

theorem undoF_assigned (s : Solver) (ci : Nat) :
    (undo_false_assignment s ci).assigned = s.assigned := by
  simp only [undo_false_assignment, setClause]; split <;> rfl

theorem undoF_unit_stack (s : Solver) (ci : Nat) :
    (undo_false_assignment s ci).unit_stack = s.unit_stack := by
  simp only [undo_false_assignment, setClause]; split <;> rfl

theorem undoF_n_sat (s : Solver) (ci : Nat) :
    (undo_false_assignment s ci).n_sat_clauses = s.n_sat_clauses := by
  simp only [undo_false_assignment, setClause]; split <;> rfl

theorem undoF_n_vars (s : Solver) (ci : Nat) :
    (undo_false_assignment s ci).n_vars = s.n_vars := by
  simp only [undo_false_assignment, setClause]; split <;> rfl

theorem undoF_n_clauses (s : Solver) (ci : Nat) :
    (undo_false_assignment s ci).n_clauses = s.n_clauses := by
  simp only [undo_false_assignment, setClause]; split <;> rfl

theorem undoF_clauses_len (s : Solver) (ci : Nat) :
    (undo_false_assignment s ci).clauses.length = s.clauses.length := by
  simp only [undo_false_assignment, setClause]; split <;> simp

theorem make_assigned (s : Solver) (lit : Nat) :
    (make_assignment s lit).assigned = s.assigned := by
  simp only [make_assignment]
  rw [foldl_preserves (fun t => t.assigned) add_false_assignment addF_assigned,
      foldl_preserves (fun t => t.assigned) add_true_assignment addT_assigned]
  rfl

theorem make_n_vars (s : Solver) (lit : Nat) :
    (make_assignment s lit).n_vars = s.n_vars := by
  simp only [make_assignment]
  rw [foldl_preserves (fun t => t.n_vars) add_false_assignment addF_n_vars,
      foldl_preserves (fun t => t.n_vars) add_true_assignment addT_n_vars]
  rfl

theorem make_n_clauses (s : Solver) (lit : Nat) :
    (make_assignment s lit).n_clauses = s.n_clauses := by
  simp only [make_assignment]
  rw [foldl_preserves (fun t => t.n_clauses) add_false_assignment addF_n_clauses,
      foldl_preserves (fun t => t.n_clauses) add_true_assignment addT_n_clauses]
  rfl

theorem make_lits_len (s : Solver) (lit : Nat) :
    (make_assignment s lit).lits.length = s.lits.length := by
  simp only [make_assignment]
  rw [foldl_preserves (fun t => t.lits.length) add_false_assignment
        (fun t a => congrArg List.length (addF_lits t a)),
      foldl_preserves (fun t => t.lits.length) add_true_assignment
        (fun t a => congrArg List.length (addT_lits t a))]
  simp [setLit]

theorem make_clauses_len (s : Solver) (lit : Nat) :
    (make_assignment s lit).clauses.length = s.clauses.length := by
  simp only [make_assignment]
  rw [foldl_preserves (fun t => t.clauses.length) add_false_assignment addF_clauses_len,
      foldl_preserves (fun t => t.clauses.length) add_true_assignment addT_clauses_len]
  rfl

theorem undoA_unit_stack (s : Solver) (lit : Nat) :
    (undo_assignment s lit).unit_stack = s.unit_stack := by
  simp only [undo_assignment, setLit]
  rw [foldl_preserves (fun t => t.unit_stack) undo_false_assignment undoF_unit_stack,
      foldl_preserves (fun t => t.unit_stack) undo_true_assignment undoT_unit_stack]

theorem undoA_assigned (s : Solver) (lit : Nat) :
    (undo_assignment s lit).assigned = s.assigned := by
  simp only [undo_assignment, setLit]
  rw [foldl_preserves (fun t => t.assigned) undo_false_assignment undoF_assigned,
      foldl_preserves (fun t => t.assigned) undo_true_assignment undoT_assigned]

theorem undoA_n_vars (s : Solver) (lit : Nat) :
    (undo_assignment s lit).n_vars = s.n_vars := by
  simp only [undo_assignment, setLit]
  rw [foldl_preserves (fun t => t.n_vars) undo_false_assignment undoF_n_vars,
      foldl_preserves (fun t => t.n_vars) undo_true_assignment undoT_n_vars]

theorem undoA_n_clauses (s : Solver) (lit : Nat) :
    (undo_assignment s lit).n_clauses = s.n_clauses := by
  simp only [undo_assignment, setLit]
  rw [foldl_preserves (fun t => t.n_clauses) undo_false_assignment undoF_n_clauses,
      foldl_preserves (fun t => t.n_clauses) undo_true_assignment undoT_n_clauses]

theorem undoA_lits_len (s : Solver) (lit : Nat) :
    (undo_assignment s lit).lits.length = s.lits.length := by
  simp only [undo_assignment, setLit, List.length_set]
  rw [foldl_preserves (fun t => t.lits.length) undo_false_assignment
        (fun t a => congrArg List.length (undoF_lits t a)),
      foldl_preserves (fun t => t.lits.length) undo_true_assignment
        (fun t a => congrArg List.length (undoT_lits t a))]

theorem undoA_clauses_len (s : Solver) (lit : Nat) :
    (undo_assignment s lit).clauses.length = s.clauses.length := by
  simp only [undo_assignment, setLit]
  rw [foldl_preserves (fun t => t.clauses.length) undo_false_assignment undoF_clauses_len,
      foldl_preserves (fun t => t.clauses.length) undo_true_assignment undoT_clauses_len]

theorem popUndo_unit_stack : ∀ (n : Nat) (s : Solver),
    (popUndo n s).unit_stack = s.unit_stack := by
  intro n
  induction n with
  | zero => intro s; rfl
  | succ n ih =>
    intro s
    simp only [popUndo]
    split
    · rfl
    · rw [ih, undoA_unit_stack]

/-! ## C7: the unit stack is empty at search boundaries -/

theorem prop_loop_exit_stack : ∀ (pf : Nat) (s s2 : Solver) (c : Bool),
    prop_loop pf s = some (s2, c) → s2.unit_stack = [] := by
  intro pf
  induction pf with
  | zero => intro s s2 c h; exact absurd h (by simp [prop_loop])
  | succ pf ih =>
    intro s s2 c h
    rw [prop_loop] at h
    split at h
    · next heq =>
      rcases Option.some.inj h with ⟨rfl, rfl⟩
      exact heq
    · next u rest heq =>
      simp only [] at h
      split at h
      · exact ih _ _ _ h
      · split at h
        · rcases Option.some.inj h with ⟨rfl, rfl⟩
          rfl
        · exact ih _ _ _ h

theorem try_gen_exit_stack (rec : Solver → Option (Solution × Solver)) (fuel : Nat)
    (s : Solver) (b : Nat) (r : Solution) (s2 : Solver)
    (hrec : ∀ s3 r' s4, s3.unit_stack = [] → rec s3 = some (r', s4) → s4.unit_stack = [])
    (h : try_assignment_gen rec fuel s b = some (r, s2)) : s2.unit_stack = [] := by
  simp only [try_assignment_gen] at h
  split at h
  · exact absurd h (by simp)
  · next s3 heq =>
    rcases Option.some.inj h with ⟨rfl, rfl⟩
    rw [popUndo_unit_stack]
    exact prop_loop_exit_stack _ _ _ _ heq
  · next s3 heq =>
    split at h
    · exact absurd h (by simp)
    · next sol s4 heq2 =>
      have hs3 : s3.unit_stack = [] := prop_loop_exit_stack _ _ _ _ heq
      have hs4 : s4.unit_stack = [] := hrec s3 sol s4 hs3 heq2
      split at h
      · rcases Option.some.inj h with ⟨rfl, rfl⟩
        rw [popUndo_unit_stack]
        exact hs4
      · rcases Option.some.inj h with ⟨rfl, rfl⟩
        exact hs4

theorem search_exit_stack : ∀ (fuel : Nat) (s : Solver) (r : Solution) (s2 : Solver),
    s.unit_stack = [] → search_assignments fuel s = some (r, s2) → s2.unit_stack = [] := by
  intro fuel
  induction fuel with
  | zero => intro s r s2 hs h; exact absurd h (by simp [search_assignments])
  | succ fuel ih =>
    intro s r s2 hs h
    rw [search_assignments] at h
    split at h
    · rcases Option.some.inj h with ⟨rfl, rfl⟩
      exact hs
    · split at h
      · rcases Option.some.inj h with ⟨rfl, rfl⟩
        exact hs
      · simp only [] at h
        split at h
        · exact absurd h (by simp)
        · next sol s1 heq =>
          have h1 : s1.unit_stack = [] :=
            try_gen_exit_stack _ _ _ _ _ _ (fun s3 r' s4 h3 h4 => ih s3 r' s4 h3 h4) heq
          split at h
          · rcases Option.some.inj h with ⟨rfl, rfl⟩
            exact h1
          · split at h
            · exact absurd h (by simp)
            · next sol2 s22 heq2 =>
              have h2 : s22.unit_stack = [] :=
                try_gen_exit_stack _ _ _ _ _ _ (fun s3 r' s4 h3 h4 => ih s3 r' s4 h3 h4) heq2
              split at h
              · rcases Option.some.inj h with ⟨rfl, rfl⟩
                exact h2
              · rcases Option.some.inj h with ⟨rfl, rfl⟩
                exact h2

/-- C7: the unit queue is drained at every top-level search transition: the
propagation loop only exits with `n_units = 0`, and a `search_assignments`
call entered with an empty unit stack returns with an empty unit stack. -/
theorem unit_stack_empty_at_search_boundaries :
    (∀ (pf : Nat) (s s2 : Solver) (c : Bool),
        prop_loop pf s = some (s2, c) → s2.unit_stack = []) ∧
    (∀ (fuel : Nat) (s : Solver) (r : Solution) (s2 : Solver),
        s.unit_stack = [] → search_assignments fuel s = some (r, s2) →
          s2.unit_stack = []) :=
  ⟨prop_loop_exit_stack, search_exit_stack⟩

/-- Witness for C7 on a concrete run. -/
theorem unit_stack_empty_at_search_boundaries_witness :
    (loadSolver 1 [[1]]).unit_stack = [] ∧
    ∃ p, search_assignments 3 (loadSolver 1 [[1]]) = some p ∧ p.2.unit_stack = [] := by
  have hx : search_assignments 3 (loadSolver 1 [[1]]) = some (SOLUTION_SATISFIABLE,
      { n_vars := 1
        n_clauses := 1
        lits := [{ fixed := true, assigned := true, score := 1, cont_clauses := [0] },
                 { fixed := true, assigned := false, score := 0, cont_clauses := [] }]
        clauses := [{ lits := [0], n_assigned_true := 1, n_assigned_false := 0, n_free_lits := 0 }]
        n_sat_clauses := 1
        n_unsat_clauses := 0
        unit_stack := []
        assigned := [0]
        solution := SOLUTION_UNKNOWN
        t_branches := 1
        t_unit_props := 0 }) := by decide
  exact ⟨rfl, _, hx,
    unit_stack_empty_at_search_boundaries.2 3 (loadSolver 1 [[1]]) _ _ rfl hx⟩

/-! ## Semantic layer: truth flags, counters as ground truth, well-formedness -/

/-- Literal `l` is currently assigned true. -/
def litTrue (s : Solver) (l : Nat) : Bool := (getLit s l).fixed && (getLit s l).assigned

/-- Literal `l` is currently assigned false. -/
def litFalse (s : Solver) (l : Nat) : Bool := (getLit s l).fixed && ! (getLit s l).assigned

/-- Literal `l`'s variable is currently unassigned. -/
def litFree (s : Solver) (l : Nat) : Bool := ! (getLit s l).fixed

/-- The three clause counters agree with a full scan of the literal list
(invariant C0/C2 of the specification, as ground truth). -/
def clauseCountersOk (s : Solver) (c : ClauseState) : Prop :=
  c.n_assigned_true = c.lits.countP (litTrue s) ∧
  c.n_assigned_false = c.lits.countP (litFalse s) ∧
  c.n_free_lits = c.lits.countP (litFree s)

instance (s : Solver) (c : ClauseState) : Decidable (clauseCountersOk s c) := by
  unfold clauseCountersOk
  infer_instance

/-- A clause is satisfied iff its true-count is nonzero (C2). -/
def clauseSatisfied (c : ClauseState) : Bool := c.n_assigned_true != 0

/-- A clause is contradicted iff it has no true and no free literal (C2). -/
def clauseContradicted (c : ClauseState) : Bool :=
  c.n_assigned_true == 0 && c.n_free_lits == 0

/-- Well-formedness of a solver state: array lengths, exact counters (S1, S2,
C0), duplicate-free clauses (C1), sound and complete occurrence lists (L2),
consistent variable pairs (L1) and a trail of true literals (S3). -/
structure WF (s : Solver) : Prop where
  lits_len : s.lits.length = 2 * s.n_vars
  clauses_len : s.clauses.length = s.n_clauses
  lits_range : ∀ ci < s.n_clauses, ∀ l ∈ (getClause s ci).lits, l < 2 * s.n_vars
  lits_nodup : ∀ ci < s.n_clauses, (getClause s ci).lits.Nodup
  counters : ∀ ci < s.n_clauses, clauseCountersOk s (getClause s ci)
  sat_count : s.n_sat_clauses = s.clauses.countP clauseSatisfied
  unsat_count : s.n_unsat_clauses = s.clauses.countP clauseContradicted
  occ_sound : ∀ l < 2 * s.n_vars, ∀ ci ∈ (getLit s l).cont_clauses,
      ci < s.n_clauses ∧ l ∈ (getClause s ci).lits
  occ_complete : ∀ l < 2 * s.n_vars, ∀ ci < s.n_clauses,
      l ∈ (getClause s ci).lits → ci ∈ (getLit s l).cont_clauses
  occ_nodup : ∀ l < 2 * s.n_vars, (getLit s l).cont_clauses.Nodup
  pair_fixed : ∀ l < 2 * s.n_vars, (getLit s l).fixed = (getLit s (negate l)).fixed
  pair_assigned : ∀ l < 2 * s.n_vars, (getLit s l).fixed = true →
      (getLit s l).assigned = ! (getLit s (negate l)).assigned
  trail_true : ∀ l ∈ s.assigned, l < 2 * s.n_vars ∧ litTrue s l = true

/-- A state (one variable, clauses `x1` and `¬x1`, nothing assigned) with a
stale `assigned` bit on the unfixed literal 0, exactly as the search leaves
it after branching on `x1 = true` and backtracking. -/
def atomicityCexSolver : Solver :=
  { n_vars := 1
    n_clauses := 2
    lits := [{ fixed := false, assigned := true, score := 0, cont_clauses := [0] },
             { fixed := false, assigned := false, score := 0, cont_clauses := [1] }]
    clauses := [{ lits := [0], n_assigned_true := 0, n_assigned_false := 0, n_free_lits := 1 },
                { lits := [1], n_assigned_true := 0, n_assigned_false := 0, n_free_lits := 1 }]
    n_sat_clauses := 0
    n_unsat_clauses := 0
    unit_stack := []
    assigned := []
    solution := SOLUTION_UNKNOWN
    t_branches := 0
    t_unit_props := 0 }

/-- The state `try_assignment` returns on the state above. -/
def atomicityCexResult : Solver :=
  { n_vars := 1
    n_clauses := 2
    lits := [{ fixed := false, assigned := false, score := 0, cont_clauses := [0] },
             { fixed := false, assigned := true, score := 0, cont_clauses := [1] }]
    clauses := [{ lits := [0], n_assigned_true := 0, n_assigned_false := 0, n_free_lits := 1 },
                { lits := [1], n_assigned_true := 0, n_assigned_false := 0, n_free_lits := 1 }]
    n_sat_clauses := 0
    n_unsat_clauses := 0
    unit_stack := []
    assigned := []
    solution := SOLUTION_UNKNOWN
    t_branches := 1
    t_unit_props := 0 }

/-- C6 (counterexample): a `try_assignment` call that returns
`UNSATISFIABLE` from a state satisfying the solver invariants, yet flips the
`assigned` flag of the (unfixed) literal 0 from `true` to `false`: the raw
`LitState` flags are not all restored on failure. -/
theorem try_assignment_not_atomic_cex :
    WF atomicityCexSolver ∧
    atomicityCexSolver.unit_stack = [] ∧
    try_assignment 5 atomicityCexSolver 1 = some (SOLUTION_UNSATISFIABLE, atomicityCexResult) ∧
    (getLit atomicityCexSolver 0).assigned = true ∧
    (getLit atomicityCexResult 0).assigned = false := by
  refine ⟨?_, rfl, by decide, rfl, rfl⟩
  constructor <;> decide

/-! ## Score refresh and branch choice (C10) -/

/-- Writing a `LitState` that keeps `fixed`, `assigned` and `cont_clauses`
leaves every literal's flags unchanged. -/
theorem getLit_flags_setLit (t : Solver) (l0 : Nat) (v : LitState)
    (hfx : v.fixed = (getLit t l0).fixed) (has : v.assigned = (getLit t l0).assigned)
    (hcc : v.cont_clauses = (getLit t l0).cont_clauses) (l : Nat) :
    (getLit (setLit t l0 v) l).fixed = (getLit t l).fixed ∧
    (getLit (setLit t l0 v) l).assigned = (getLit t l).assigned ∧
    (getLit (setLit t l0 v) l).cont_clauses = (getLit t l).cont_clauses := by
  by_cases h : l0 = l
  · subst h
    by_cases hl : l0 < t.lits.length
    · rw [getLit_setLit_self _ _ _ hl]
      exact ⟨hfx, has, hcc⟩
    · have hset : t.lits.set l0 v = t.lits :=
        List.set_eq_of_length_le (Nat.le_of_not_lt hl)
      have : setLit t l0 v = t := by
        simp [setLit, hset]
      rw [this]
      exact ⟨rfl, rfl, rfl⟩
  · rw [getLit_setLit_ne _ _ _ _ h]
    exact ⟨rfl, rfl, rfl⟩

/-- Flag preservation through a fold whose steps preserve flags. -/
theorem getLit_flags_foldl {α : Type} (f : Solver → α → Solver)
    (hf : ∀ t a l, (getLit (f t a) l).fixed = (getLit t l).fixed ∧
        (getLit (f t a) l).assigned = (getLit t l).assigned ∧
        (getLit (f t a) l).cont_clauses = (getLit t l).cont_clauses) :
    ∀ (L : List α) (s : Solver) (l : Nat),
      (getLit (L.foldl f s) l).fixed = (getLit s l).fixed ∧
      (getLit (L.foldl f s) l).assigned = (getLit s l).assigned ∧
      (getLit (L.foldl f s) l).cont_clauses = (getLit s l).cont_clauses := by
  intro L
  induction L with
  | nil => exact fun s l => ⟨rfl, rfl, rfl⟩
  | cons a L ih =>
    intro s l
    rw [List.foldl_cons]
    exact ⟨(ih (f s a) l).1.trans (hf s a l).1,
      (ih (f s a) l).2.1.trans (hf s a l).2.1,
      (ih (f s a) l).2.2.trans (hf s a l).2.2⟩

/-- `update_scores` changes only scores: every other solver field and every
literal's flags and occurrence list are unchanged. -/
theorem update_scores_flags (s : Solver) (l : Nat) :
    (getLit (update_scores s) l).fixed = (getLit s l).fixed ∧
    (getLit (update_scores s) l).assigned = (getLit s l).assigned ∧
    (getLit (update_scores s) l).cont_clauses = (getLit s l).cont_clauses := by
  simp only [update_scores]
  have h1 : ∀ (t : Solver) (a : Nat) (l : Nat),
      (getLit (setLit t a { getLit t a with score := 0 }) l).fixed = (getLit t l).fixed ∧
      (getLit (setLit t a { getLit t a with score := 0 }) l).assigned = (getLit t l).assigned ∧
      (getLit (setLit t a { getLit t a with score := 0 }) l).cont_clauses
        = (getLit t l).cont_clauses :=
    fun t a l => getLit_flags_setLit t a { getLit t a with score := 0 } rfl rfl rfl l
  have h2 : ∀ (t : Solver) (a : Nat) (l : Nat),
      (getLit ((fun t a =>
        let lstate := getLit t a
        if lstate.fixed then t
        else
          setLit t a
            { lstate with
              score := lstate.cont_clauses.foldl
                (fun sc ci => sc + clause_weight (getClause t ci)) lstate.score }) t a) l).fixed
          = (getLit t l).fixed ∧
      (getLit ((fun t a =>
        let lstate := getLit t a
        if lstate.fixed then t
        else
          setLit t a
            { lstate with
              score := lstate.cont_clauses.foldl
                (fun sc ci => sc + clause_weight (getClause t ci)) lstate.score }) t a) l).assigned
          = (getLit t l).assigned ∧
      (getLit ((fun t a =>
        let lstate := getLit t a
        if lstate.fixed then t
        else
          setLit t a
            { lstate with
              score := lstate.cont_clauses.foldl
                (fun sc ci => sc + clause_weight (getClause t ci)) lstate.score }) t a) l).cont_clauses
          = (getLit t l).cont_clauses := by
    intro t a l
    simp only []
    split
    · exact ⟨rfl, rfl, rfl⟩
    · exact getLit_flags_setLit t a
        { getLit t a with
          score := (getLit t a).cont_clauses.foldl
            (fun sc ci => sc + clause_weight (getClause t ci)) (getLit t a).score }
        rfl rfl rfl l
  exact ⟨(getLit_flags_foldl _ h2 _ _ l).1.trans (getLit_flags_foldl _ h1 _ _ l).1,
    (getLit_flags_foldl _ h2 _ _ l).2.1.trans (getLit_flags_foldl _ h1 _ _ l).2.1,
    (getLit_flags_foldl _ h2 _ _ l).2.2.trans (getLit_flags_foldl _ h1 _ _ l).2.2⟩

/-- Equality of all solver fields except the contents of `lits` (the length
of `lits` is still required to match). -/
def NonLitsEq (a b : Solver) : Prop :=
  a.n_vars = b.n_vars ∧
  a.n_clauses = b.n_clauses ∧
  a.clauses = b.clauses ∧
  a.n_sat_clauses = b.n_sat_clauses ∧
  a.n_unsat_clauses = b.n_unsat_clauses ∧
  a.unit_stack = b.unit_stack ∧
  a.assigned = b.assigned ∧
  a.solution = b.solution ∧
  a.t_branches = b.t_branches ∧
  a.t_unit_props = b.t_unit_props ∧
  a.lits.length = b.lits.length

theorem nonLitsEq_trans {a b c : Solver} (h1 : NonLitsEq a b) (h2 : NonLitsEq b c) :
    NonLitsEq a c := by
  obtain ⟨x1, x2, x3, x4, x5, x6, x7, x8, x9, x10, x11⟩ := h1
  obtain ⟨y1, y2, y3, y4, y5, y6, y7, y8, y9, y10, y11⟩ := h2
  exact ⟨x1.trans y1, x2.trans y2, x3.trans y3, x4.trans y4, x5.trans y5, x6.trans y6,
    x7.trans y7, x8.trans y8, x9.trans y9, x10.trans y10, x11.trans y11⟩

theorem nonLitsEq_setLit (t : Solver) (l : Nat) (v : LitState) :
    NonLitsEq (setLit t l v) t :=
  ⟨rfl, rfl, rfl, rfl, rfl, rfl, rfl, rfl, rfl, rfl, by simp [setLit]⟩

theorem nonLitsEq_foldl {α : Type} (f : Solver → α → Solver)
    (hf : ∀ t a, NonLitsEq (f t a) t) :
    ∀ (L : List α) (s : Solver), NonLitsEq (L.foldl f s) s := by
  intro L
  induction L with
  | nil => exact fun s => ⟨rfl, rfl, rfl, rfl, rfl, rfl, rfl, rfl, rfl, rfl, rfl⟩
  | cons a L ih => exact fun s => nonLitsEq_trans (ih (f s a)) (hf s a)

/-- `update_scores` leaves every non-`lits` field (and the `lits` length)
unchanged. -/
theorem update_scores_nonLits (s : Solver) : NonLitsEq (update_scores s) s := by
  simp only [update_scores]
  refine nonLitsEq_trans (nonLitsEq_foldl _ ?_ _ _)
    (nonLitsEq_foldl _ (fun t a => nonLitsEq_setLit t a _) _ _)
  intro t a
  dsimp only
  split
  · exact ⟨rfl, rfl, rfl, rfl, rfl, rfl, rfl, rfl, rfl, rfl, rfl⟩
  · exact nonLitsEq_setLit t a _

/-- The `choose_branch` scan: starting from a valid accumulator, if some
literal in the remaining (even, in-range) list is unfixed or the current
best score is positive, the final best literal has positive score and an
unfixed variable in range. -/
theorem choose_branch_fold (t : Solver) :
    ∀ (L : List Nat) (acc : Nat × Nat),
      (∀ l ∈ L, l % 2 = 0 ∧ l < 2 * t.n_vars) →
      (0 < acc.2 → (getLit t (2 * (acc.1 / 2))).fixed = false ∧ acc.1 < 2 * t.n_vars) →
      ((∃ l ∈ L, (getLit t l).fixed = false) ∨ 0 < acc.2) →
      0 < (L.foldl
          (fun (acc : Nat × Nat) lit =>
            if (getLit t lit).fixed then acc
            else
              let a := (getLit t lit).score
              let b := (getLit t (negate lit)).score
              let score := (a + 1) * (b + 1)
              if score > acc.2 then
                (if a ≥ b then lit else negate lit, score)
              else acc) acc).2 ∧
      (getLit t (2 * ((L.foldl
          (fun (acc : Nat × Nat) lit =>
            if (getLit t lit).fixed then acc
            else
              let a := (getLit t lit).score
              let b := (getLit t (negate lit)).score
              let score := (a + 1) * (b + 1)
              if score > acc.2 then
                (if a ≥ b then lit else negate lit, score)
              else acc) acc).1 / 2))).fixed = false ∧
      (L.foldl
          (fun (acc : Nat × Nat) lit =>
            if (getLit t lit).fixed then acc
            else
              let a := (getLit t lit).score
              let b := (getLit t (negate lit)).score
              let score := (a + 1) * (b + 1)
              if score > acc.2 then
                (if a ≥ b then lit else negate lit, score)
              else acc) acc).1 < 2 * t.n_vars := by
  intro L
  induction L with
  | nil =>
    intro acc _ hval hex
    rcases hex with ⟨l, hl, _⟩ | hpos
    · exact absurd hl (List.not_mem_nil l)
    · exact ⟨hpos, (hval hpos).1, (hval hpos).2⟩
  | cons l L ih =>
    intro acc hrange hval hex
    rw [List.foldl_cons]
    have hlr := hrange l (List.mem_cons_self l L)
    have hleven : 2 * (l / 2) = l := by omega
    refine ih _ (fun x hx => hrange x (List.mem_cons_of_mem _ hx)) ?_ ?_
    · dsimp only
      split
      · exact hval
      · next hnf =>
        have hlf : (getLit t l).fixed = false := by
          revert hnf
          cases (getLit t l).fixed <;> simp
        split
        · intro _
          constructor
          · split
            · rw [hleven]
              exact hlf
            · rw [negate_div_two, hleven]
              exact hlf
          · split
            · exact hlr.2
            · exact negate_lt l t.n_vars hlr.2
        · exact hval
    · rcases hex with ⟨x, hx, hxf⟩ | hpos
      · rcases List.mem_cons.mp hx with rfl | hxL
        · right
          dsimp only
          rw [if_neg (by rw [hxf]; exact Bool.false_ne_true)]
          split
          · exact Nat.mul_pos (Nat.succ_pos _) (Nat.succ_pos _)
          · next hle =>
            have : 0 < ((getLit t x).score + 1) * ((getLit t (negate x)).score + 1) :=
              Nat.mul_pos (Nat.succ_pos _) (Nat.succ_pos _)
            omega
        · exact Or.inl ⟨x, hxL, hxf⟩
      · right
        dsimp only
        split
        · exact hpos
        · split
          · exact Nat.mul_pos (Nat.succ_pos _) (Nat.succ_pos _)
          · exact hpos

/-- C10: whenever at least one variable is unassigned, `choose_branch`
returns a literal whose variable is unassigned: the placeholder
`best_lit = 0` is always overwritten because every unassigned pair scores
`(a+1)*(b+1) ≥ 1 > 0 = best_score`. -/
theorem choose_branch_unassigned (s : Solver)
    (hex : ∃ v, v < s.n_vars ∧ (getLit s (2 * v)).fixed = false) :
    (getLit s (2 * ((choose_branch s).2 / 2))).fixed = false ∧
    (choose_branch s).2 < 2 * s.n_vars := by
  obtain ⟨v, hv, hvf⟩ := hex
  have hflags : ∀ l, (getLit (update_scores s) l).fixed = (getLit s l).fixed :=
    fun l => (update_scores_flags s l).1
  have hnv : (update_scores s).n_vars = s.n_vars := (update_scores_nonLits s).1
  have h := choose_branch_fold (update_scores s)
    ((List.range (update_scores s).n_vars).map (fun v => 2 * v)) (0, 0)
    (by
      intro l hl
      obtain ⟨a, ha, rfl⟩ := List.mem_map.mp hl
      have := List.mem_range.mp ha
      omega)
    (by intro h0; exact absurd h0 (by omega))
    (Or.inl ⟨2 * v, List.mem_map.mpr ⟨v, List.mem_range.mpr (by omega), rfl⟩,
      (hflags (2 * v)).trans hvf⟩)
  simp only [choose_branch]
  exact ⟨(hflags _).symm.trans h.2.1, hnv ▸ h.2.2⟩

/-- Witness for C10 at a concrete solver with an unassigned variable. -/
theorem choose_branch_unassigned_witness :
    (getLit (loadSolver 2 [[1, 2]])
        (2 * ((choose_branch (loadSolver 2 [[1, 2]])).2 / 2))).fixed = false ∧
    (choose_branch (loadSolver 2 [[1, 2]])).2 < 2 * (loadSolver 2 [[1, 2]]).n_vars :=
  choose_branch_unassigned (loadSolver 2 [[1, 2]]) ⟨0, by decide⟩

end SimpleSAT

/-! ## The DIMACS reader (format.c) and C4 -/

namespace SimpleSAT

/-- The `Error` enum of error.h. -/
inductive Error where
  | ERROR_OK
  | ERROR_INVALID_USAGE
  | ERROR_INVALID_FORMAT
  | ERROR_FILE_ACCESS
deriving DecidableEq, Repr, Inhabited

export Error (ERROR_OK ERROR_INVALID_USAGE ERROR_INVALID_FORMAT ERROR_FILE_ACCESS)

/-- C `isspace` in the default locale. -/
def c_isspace (c : Char) : Bool :=
  c = ' ' || c = '\t' || c = '\n' || c = '\x0b' || c = '\x0c' || c = '\r'

/-- Helper for `fgets`: take up to `n` characters, stopping after a newline. -/
def fgetsAux : Nat → List Char → (List Char × List Char)
  | 0, cs => ([], cs)
  | _ + 1, [] => ([], [])
  | n + 1, c :: cs =>
    if c = '\n' then ([c], cs)
    else
      let p := fgetsAux n cs
      (c :: p.1, p.2)

/-- `fgets(buffer, 255, stream)`: up to 254 characters ending at a newline;
`none` (NULL) at end of input. -/
def fgets255 (cs : List Char) : Option (List Char × List Char) :=
  match cs with
  | [] => none
  | _ => some (fgetsAux 254 cs)

/-- Skip a (possibly empty) run of whitespace. -/
def skipSpaces : List Char → List Char
  | c :: cs => if c_isspace c then skipSpaces cs else c :: cs
  | [] => []

/-- Read a maximal nonempty digit run as a number (accumulator form). -/
def scanDigits : List Char → Nat → (Nat × List Char)
  | c :: cs, acc =>
    if c.isDigit then scanDigits cs (acc * 10 + (c.toNat - 48))
    else (acc, c :: cs)
  | [], acc => (acc, [])

/-- The `%d` conversion of `scanf`: skip whitespace, optional sign, at least
one digit.  (Machine-integer overflow of `%d` is not modelled.) -/
def scanInt (cs : List Char) : Option (Int × List Char) :=
  match skipSpaces cs with
  | '-' :: cs2 =>
    match cs2 with
    | c :: _ =>
      if c.isDigit then
        let p := scanDigits cs2 0
        some (-(p.1 : Int), p.2)
      else none
    | [] => none
  | '+' :: cs2 =>
    match cs2 with
    | c :: _ =>
      if c.isDigit then
        let p := scanDigits cs2 0
        some ((p.1 : Int), p.2)
      else none
    | [] => none
  | c :: cs2 =>
    if c.isDigit then
      let p := scanDigits (c :: cs2) 0
      some ((p.1 : Int), p.2)
    else none
  | [] => none

/-- `sscanf(buffer, "p cnf %d %d%n", ...)`: literal `p`, whitespace, literal
`cnf`, two integers.  Returns the two values and the unconsumed tail of the
buffer (C inspects `buffer[pos]` onward, which is exactly this tail). -/
def parseProblemLine (buf : List Char) : Option (Int × Int × List Char) :=
  match buf with
  | 'p' :: r1 =>
    match skipSpaces r1 with
    | 'c' :: 'n' :: 'f' :: r3 =>
      match scanInt r3 with
      | none => none
      | some (nv, r4) =>
        match scanInt r4 with
        | none => none
        | some (nc, r5) => some (nv, nc, r5)
    | _ => none
  | _ => none

/-- The comment-skipping `do { fgets } while (buffer[0] == 'c')` loop.
`none` models `fgets` returning NULL (end of input).  The fuel is
`cs.length + 1` at the call site, which suffices because every line consumes
at least one character. -/
def skipComments : Nat → List Char → Option (List Char × List Char)
  | 0, _ => none
  | fuel + 1, cs =>
    match fgets255 cs with
    | none => none
    | some (buf, rest) =>
      if buf.head? = some 'c' then skipComments fuel rest
      else some (buf, rest)

/-- The inner `for (;;)` literal loop of one clause: `fscanf(" %d")` until a
`0` terminator.  `none` models the "Expected more clauses" parse failure.
Fuel as above. -/
def read_one_clause : Nat → Solver → Nat → List Char → Option (Solver × List Char)
  | 0, _, _, _ => none
  | fuel + 1, s, ci, cs =>
    match scanInt cs with
    | none => none
    | some (r, rest) =>
      if r = 0 then some (s, rest)
      else read_one_clause fuel (add_literal_to_clause s ci (lit_from_int r)) ci rest

/-- The outer `for (i = 0; i < n_clauses; ++i)` loop. -/
def read_clauses : Solver → Nat → Nat → List Char → Option (Solver × List Char)
  | s, _, 0, cs => some (s, cs)
  | s, i, n + 1, cs =>
    match read_one_clause (cs.length + 1) s i cs with
    | none => none
    | some (s', rest) => read_clauses s' (i + 1) n rest

/-- Observable outcome of `read_problem`: returned error code, constructed
solver (when it survives), and the diagnostics printed to stderr. -/
structure ReadResult where
  err : Error
  solver : Option Solver
  stderr : List String
deriving DecidableEq, Repr

/-- C `read_problem` over a character stream.  Mirrors format.c line by
line; in particular the final end-of-input loop prints "Expected end of
input" for every non-whitespace character and sets the local `err`, but the
function still falls through to `return ERROR_OK`. -/
def read_problem (cs : List Char) : ReadResult :=
  match skipComments (cs.length + 1) cs with
  | none => ⟨ERROR_INVALID_FORMAT, none, ["Expected problem line"]⟩
  | some (buf, rest) =>
    if buf.head? ≠ some 'p' then ⟨ERROR_INVALID_FORMAT, none, ["Expected problem line"]⟩
    else
      match parseProblemLine buf with
      | none => ⟨ERROR_INVALID_FORMAT, none, ["Invalid problem line"]⟩
      | some (nv, nc, trailing) =>
        if ¬ trailing.all c_isspace then
          ⟨ERROR_INVALID_FORMAT, none, ["Invalid problem line"]⟩
        else if nv ≤ 0 then
          ⟨ERROR_INVALID_FORMAT, none, ["Number of variables must be positive"]⟩
        else if nc ≤ 0 then
          ⟨ERROR_INVALID_FORMAT, none, ["Number of clauses must be positive"]⟩
        else
          match read_clauses (create_solver nv.toNat nc.toNat) 0 nc.toNat rest with
          | none => ⟨ERROR_INVALID_FORMAT, none, ["Expected more clauses"]⟩
          | some (s, rest2) =>
            ⟨ERROR_OK, some s,
              (rest2.filter (fun c => ! c_isspace c)).map
                (fun _ => "Expected end of input")⟩

/-- C4 (code bug): on an input that parses correctly up to and including the
final clause terminator but contains junk afterwards, `read_problem` prints
the "Expected end of input" diagnostic and sets its local `err` to
`ERROR_INVALID_FORMAT`, yet falls through to `return ERROR_OK`: the error is
never returned to the caller. -/
theorem read_problem_junk_returns_ok :
    (read_problem ("p cnf 1 1\n1 0 x".toList)).stderr = ["Expected end of input"] ∧
    (read_problem ("p cnf 1 1\n1 0 x".toList)).err = ERROR_OK := by decide

end SimpleSAT

/-! ## C3: behaviour on an empty clause -/

namespace SimpleSAT

/-- Pointwise description of `setLit`. -/
theorem getLit_setLit (t : Solver) (l0 : Nat) (v : LitState) (l : Nat) :
    getLit (setLit t l0 v) l = if l0 = l ∧ l0 < t.lits.length then v else getLit t l := by
  by_cases h : l0 = l
  · subst h
    by_cases hl : l0 < t.lits.length
    · rw [getLit_setLit_self _ _ _ hl, if_pos ⟨rfl, hl⟩]
    · rw [if_neg (fun hcon => hl hcon.2)]
      simp [getLit, setLit, List.set_eq_of_length_le (Nat.le_of_not_lt hl)]
  · rw [getLit_setLit_ne _ _ _ _ h, if_neg (fun hcon => h hcon.1)]

/-- Pointwise description of `setClause`. -/
theorem getClause_setClause (t : Solver) (c0 : Nat) (v : ClauseState) (ci : Nat) :
    getClause (setClause t c0 v) ci
      = if c0 = ci ∧ c0 < t.clauses.length then v else getClause t ci := by
  by_cases h : c0 = ci
  · subst h
    by_cases hl : c0 < t.clauses.length
    · rw [getClause_setClause_self _ _ _ hl, if_pos ⟨rfl, hl⟩]
    · rw [if_neg (fun hcon => hl hcon.2)]
      simp [getClause, setClause, List.set_eq_of_length_le (Nat.le_of_not_lt hl)]
  · rw [getClause_setClause_ne _ _ _ _ h, if_neg (fun hcon => h hcon.1)]

/-- When neither the literal nor its negation occurs in any clause,
`make_assignment` only flips the two flag records. -/
theorem make_assignment_no_occ (s : Solver) (b : Nat)
    (h1 : (getLit s b).cont_clauses = [])
    (h2 : (getLit s (negate b)).cont_clauses = []) :
    (make_assignment s b).clauses = s.clauses ∧
    (make_assignment s b).n_sat_clauses = s.n_sat_clauses ∧
    (make_assignment s b).n_unsat_clauses = s.n_unsat_clauses ∧
    (make_assignment s b).unit_stack = s.unit_stack ∧
    (∀ x, (getLit (make_assignment s b) x).cont_clauses = (getLit s x).cont_clauses) := by
  have hne : ¬ (negate b = b) := negate_ne b
  have hne' : ¬ (b = negate b) := fun hcon => hne hcon.symm
  simp only [make_assignment]
  have ec1 : ∀ x, (getLit (setLit s b
      { getLit s b with fixed := true, assigned := true }) x).cont_clauses
      = (getLit s x).cont_clauses := by
    intro x
    rw [getLit_setLit]
    split
    · next hp => rw [← hp.1]
    · rfl
  have ec2 : ∀ (v2 : LitState), v2.cont_clauses = (getLit s (negate b)).cont_clauses →
      ∀ x, (getLit (setLit (setLit s b { getLit s b with fixed := true, assigned := true })
        (negate b) v2) x).cont_clauses = (getLit s x).cont_clauses := by
    intro v2 hv2 x
    rw [getLit_setLit]
    split
    · next hp => rw [hv2, ← hp.1]
    · exact ec1 x
  have hlist1 : (getLit (setLit (setLit s b
        { getLit s b with fixed := true, assigned := true }) (negate b)
        { getLit (setLit s b { getLit s b with fixed := true, assigned := true })
            (negate b) with fixed := true, assigned := false }) b).cont_clauses = [] :=
    (ec2 { getLit (setLit s b { getLit s b with fixed := true, assigned := true })
            (negate b) with fixed := true, assigned := false } (ec1 (negate b)) b).trans h1
  rw [hlist1, List.foldl_nil]
  have hlist2 : (getLit (setLit (setLit s b
        { getLit s b with fixed := true, assigned := true }) (negate b)
        { getLit (setLit s b { getLit s b with fixed := true, assigned := true })
            (negate b) with fixed := true, assigned := false }) (negate b)).cont_clauses = [] :=
    (ec2 { getLit (setLit s b { getLit s b with fixed := true, assigned := true })
            (negate b) with fixed := true, assigned := false } (ec1 (negate b)) (negate b)).trans h2
  rw [hlist2, List.foldl_nil]
  exact ⟨rfl, rfl, rfl, rfl, ec2 { getLit (setLit s b { getLit s b with fixed := true, assigned := true })
            (negate b) with fixed := true, assigned := false } (ec1 (negate b))⟩

/-- The states the search runs through on a formula whose only clause is
empty: one clause, never satisfied, never counted as a contradiction, empty
unit stack, and no occurrence list mentions it. -/
def StuckState (s : Solver) : Prop :=
  s.n_clauses = 1 ∧ s.n_sat_clauses = 0 ∧ s.n_unsat_clauses = 0 ∧
  s.unit_stack = [] ∧ ∀ l, (getLit s l).cont_clauses = []

theorem stuckState_make (s : Solver) (b : Nat) (h : StuckState s) :
    StuckState (make_assignment s b) := by
  obtain ⟨h1, h2, h3, h4, h5⟩ := h
  obtain ⟨e1, e2, e3, e4, e5⟩ := make_assignment_no_occ s b (h5 b) (h5 (negate b))
  exact ⟨(make_n_clauses s b).trans h1, e2.trans h2, e3.trans h3, e4.trans h4,
    fun l => (e5 l).trans (h5 l)⟩

theorem stuckState_update_scores (s : Solver) (h : StuckState s) :
    StuckState (update_scores s) := by
  obtain ⟨h1, h2, h3, h4, h5⟩ := h
  obtain ⟨_, e2, _, e4, e5, e6, _⟩ := update_scores_nonLits s
  exact ⟨e2.trans h1, e4.trans h2, e5.trans h3, e6.trans h4,
    fun l => ((update_scores_flags s l).2.2).trans (h5 l)⟩

/-- On a `StuckState` the search can never return a verdict: both terminal
tests fail at every level, forever, so every finite fuel is exhausted. -/
theorem search_stuck : ∀ (fuel : Nat) (s : Solver), StuckState s →
    search_assignments fuel s = none := by
  intro fuel
  induction fuel with
  | zero => intro s _; rfl
  | succ fuel ih =>
    intro s hP
    have hP1 : StuckState (update_scores s) := stuckState_update_scores s hP
    obtain ⟨h1, h2, h3, h4, h5⟩ := hP
    rw [search_assignments]
    rw [if_neg (by simp [any_contradiction, h3]), if_neg (by simp [all_satisfied, h2, h1])]
    have htry : ∀ (b : Nat), try_assignment_gen (search_assignments fuel) fuel
        (update_scores s) b = none := by
      intro b
      simp only [try_assignment_gen]
      have hP2 : StuckState (make_assignment
          { update_scores s with
            t_branches := (update_scores s).t_branches + 1
            assigned := b :: (update_scores s).assigned } b) := by
        apply stuckState_make
        exact ⟨hP1.1, hP1.2.1, hP1.2.2.1, hP1.2.2.2.1, hP1.2.2.2.2⟩
      cases fuel with
      | zero => rfl
      | succ pf =>
        have hprop : prop_loop (pf + 1) (make_assignment
            { update_scores s with
              t_branches := (update_scores s).t_branches + 1
              assigned := b :: (update_scores s).assigned } b)
            = some (make_assignment
            { update_scores s with
              t_branches := (update_scores s).t_branches + 1
              assigned := b :: (update_scores s).assigned } b, false) := by
          rw [prop_loop]
          split
          · rfl
          · next u rest heq =>
            rw [hP2.2.2.2.1] at heq
            exact absurd heq (by simp)
        rw [hprop]
        dsimp only
        rw [ih _ hP2]
    dsimp only
    have hcb : (choose_branch s).1 = update_scores s := rfl
    rw [hcb, htry]

/-- C3 (code bug): on the one-variable formula whose single clause is empty,
`any_contradiction` is false on the fresh solver (the empty clause is never
counted in `n_unsat_clauses`), the search never returns a verdict at any
fuel, and after the first branch it re-enters `search_assignments` in a
state where all variables are assigned but neither terminal test holds, so
`choose_branch` is called with `n_assigned = n_vars`, violating its
`assert(solver->n_assigned != solver->n_vars)`. -/
theorem empty_clause_not_refuted :
    any_contradiction (loadSolver 1 [[]]) = false ∧
    (∀ fuel, search_assignments fuel (loadSolver 1 [[]]) = none) ∧
    (let t := (choose_branch (loadSolver 1 [[]])).1
     let b := (choose_branch (loadSolver 1 [[]])).2
     let s1 := make_assignment
       { t with t_branches := t.t_branches + 1, assigned := b :: t.assigned } b
     any_contradiction s1 = false ∧ all_satisfied s1 = false ∧
     s1.assigned.length = s1.n_vars) := by
  refine ⟨rfl, fun fuel => search_stuck fuel _ ⟨rfl, rfl, rfl, rfl, ?_⟩, by decide⟩
  intro l
  match l with
  | 0 => rfl
  | 1 => rfl
  | n + 2 => rfl

end SimpleSAT
namespace SimpleSAT

theorem getLit_congr {a b : Solver} (h : a.lits = b.lits) (l : Nat) :
    getLit a l = getLit b l := by
  simp [getLit, h]

theorem getClause_congr {a b : Solver} (h : a.clauses = b.clauses) (ci : Nat) :
    getClause a ci = getClause b ci := by
  simp [getClause, h]

/-- Canonical form of `make_assignment`: flag writes first, then the
occurrence-list folds, with both fold lists read in the original state
(the flag writes do not change any occurrence list). -/
theorem make_assignment_eq (s : Solver) (b : Nat) :
    make_assignment s b =
      ((getLit s (negate b)).cont_clauses).foldl add_false_assignment
        (((getLit s b).cont_clauses).foldl add_true_assignment
          (setLit (setLit s b { getLit s b with fixed := true, assigned := true })
            (negate b)
            { getLit (setLit s b { getLit s b with fixed := true, assigned := true })
                (negate b) with fixed := true, assigned := false })) := by
  have ec1 : ∀ x, (getLit (setLit s b
      { getLit s b with fixed := true, assigned := true }) x).cont_clauses
      = (getLit s x).cont_clauses := by
    intro x
    rw [getLit_setLit]
    split
    · next hp => rw [← hp.1]
    · rfl
  have ec2 : ∀ x, (getLit (setLit (setLit s b
      { getLit s b with fixed := true, assigned := true }) (negate b)
      { getLit (setLit s b { getLit s b with fixed := true, assigned := true })
          (negate b) with fixed := true, assigned := false }) x).cont_clauses
      = (getLit s x).cont_clauses := by
    intro x
    rw [getLit_setLit]
    split
    · next hp => rw [← hp.1]; exact ec1 (negate b)
    · exact ec1 x
  simp only [make_assignment]
  rw [ec2 b]
  have hlits3 : ∀ (L : List Nat) (t : Solver),
      (L.foldl add_true_assignment t).lits = t.lits :=
    fun L t => foldl_preserves (fun u => u.lits) add_true_assignment addT_lits L t
  rw [getLit_congr (hlits3 _ _) (negate b), ec2 (negate b)]

/-- Canonical form of `undo_assignment`. -/
theorem undo_assignment_eq (s : Solver) (b : Nat) :
    undo_assignment s b =
      (setLit
        (setLit
          (((getLit s (negate b)).cont_clauses).foldl undo_false_assignment
            (((getLit s b).cont_clauses).foldl undo_true_assignment s))
          b
          { getLit (((getLit s (negate b)).cont_clauses).foldl undo_false_assignment
              (((getLit s b).cont_clauses).foldl undo_true_assignment s)) b
            with fixed := false })
        (negate b)
        { getLit (setLit
            (((getLit s (negate b)).cont_clauses).foldl undo_false_assignment
              (((getLit s b).cont_clauses).foldl undo_true_assignment s))
            b
            { getLit (((getLit s (negate b)).cont_clauses).foldl undo_false_assignment
                (((getLit s b).cont_clauses).foldl undo_true_assignment s)) b
              with fixed := false })
            (negate b)
          with fixed := false }) := by
  have hlits1 : ∀ (L : List Nat) (t : Solver),
      (L.foldl undo_true_assignment t).lits = t.lits :=
    fun L t => foldl_preserves (fun u => u.lits) undo_true_assignment undoT_lits L t
  have hlits2 : ∀ (L : List Nat) (t : Solver),
      (L.foldl undo_false_assignment t).lits = t.lits :=
    fun L t => foldl_preserves (fun u => u.lits) undo_false_assignment undoF_lits L t
  simp only [undo_assignment]
  rw [getLit_congr (hlits1 _ _) (negate b)]

/-- Single-step description of `add_true_assignment` on other clauses. -/
theorem addT_getClause_other (s : Solver) (a ci : Nat) (hne : ci ≠ a) :
    getClause (add_true_assignment s a) ci = getClause s ci := by
  simp only [add_true_assignment]
  rw [getClause_setClause, if_neg (fun hc => hne hc.1.symm)]
  split <;> rfl

/-- Single-step description of `add_true_assignment` on the touched clause. -/
theorem addT_getClause_self (s : Solver) (a : Nat) (ha : a < s.clauses.length) :
    getClause (add_true_assignment s a) a =
      { getClause s a with
        n_assigned_true := (getClause s a).n_assigned_true + 1
        n_free_lits := (getClause s a).n_free_lits - 1 } := by
  simp only [add_true_assignment]
  rw [getClause_setClause, if_pos]
  refine ⟨rfl, ?_⟩
  split <;> exact ha

theorem addT_n_sat (s : Solver) (a : Nat) :
    (add_true_assignment s a).n_sat_clauses
      = if (getClause s a).n_assigned_true = 0
        then s.n_sat_clauses + 1 else s.n_sat_clauses := by
  simp only [add_true_assignment, setClause]
  split <;> simp_all

/-- Effect of folding `add_true_assignment` over a duplicate-free list of
in-range clause indices. -/
theorem foldl_addT_spec (L : List Nat) (s : Solver)
    (hnd : L.Nodup) (hlt : ∀ ci ∈ L, ci < s.clauses.length) :
    (∀ ci, ci ∉ L → getClause (L.foldl add_true_assignment s) ci = getClause s ci) ∧
    (∀ ci ∈ L, getClause (L.foldl add_true_assignment s) ci =
      { getClause s ci with
        n_assigned_true := (getClause s ci).n_assigned_true + 1
        n_free_lits := (getClause s ci).n_free_lits - 1 }) ∧
    (L.foldl add_true_assignment s).n_sat_clauses
      = s.n_sat_clauses + L.countP (fun ci => (getClause s ci).n_assigned_true == 0) := by
  induction L generalizing s with
  | nil => exact ⟨fun ci _ => rfl, fun ci h => absurd h (List.not_mem_nil ci), by simp⟩
  | cons a L ih =>
    have haL : a ∉ L := (List.nodup_cons.mp hnd).1
    have hndL : L.Nodup := (List.nodup_cons.mp hnd).2
    have ha : a < s.clauses.length := hlt a (List.mem_cons_self a L)
    have hlen : (add_true_assignment s a).clauses.length = s.clauses.length :=
      addT_clauses_len s a
    have hltL : ∀ ci ∈ L, ci < (add_true_assignment s a).clauses.length := by
      intro ci hci
      rw [hlen]
      exact hlt ci (List.mem_cons_of_mem _ hci)
    obtain ⟨ih1, ih2, ih3⟩ := ih (add_true_assignment s a) hndL hltL
    rw [List.foldl_cons]
    refine ⟨?_, ?_, ?_⟩
    · intro ci hci
      have h1 : ci ∉ L := fun hc => hci (List.mem_cons_of_mem _ hc)
      have h2 : ci ≠ a := fun hc => hci (hc ▸ List.mem_cons_self a L)
      rw [ih1 ci h1, addT_getClause_other s a ci h2]
    · intro ci hci
      rcases List.mem_cons.mp hci with rfl | hciL
      · rw [ih1 ci haL, addT_getClause_self s ci ha]
      · have hne : ci ≠ a := fun hc => haL (hc ▸ hciL)
        rw [ih2 ci hciL, addT_getClause_other s a ci hne]
    · have hcount : List.countP
          (fun ci => (getClause (add_true_assignment s a) ci).n_assigned_true == 0) L
          = List.countP (fun ci => (getClause s ci).n_assigned_true == 0) L :=
        List.countP_congr (fun ci hci => by
          rw [addT_getClause_other s a ci (fun hc => haL (hc ▸ hci))])
      rw [ih3, hcount, addT_n_sat, List.countP_cons]
      by_cases hz : (getClause s a).n_assigned_true = 0
      · rw [if_pos hz]
        have hb : ((getClause s a).n_assigned_true == 0) = true := by
          rw [beq_iff_eq]
          exact hz
        rw [hb, if_pos rfl]
        omega
      · rw [if_neg hz]
        have hb : ((getClause s a).n_assigned_true == 0) = false := by
          rw [beq_eq_false_iff_ne]
          exact hz
        rw [hb, if_neg Bool.false_ne_true]
        omega

theorem addF_clauses (s : Solver) (a : Nat) :
    (add_false_assignment s a).clauses
      = (setClause s a { getClause s a with
          n_assigned_false := (getClause s a).n_assigned_false + 1
          n_free_lits := (getClause s a).n_free_lits - 1 }).clauses := by
  simp only [add_false_assignment, setClause]
  split <;> split <;> rfl

theorem addF_getClause_other (s : Solver) (a ci : Nat) (hne : ci ≠ a) :
    getClause (add_false_assignment s a) ci = getClause s ci := by
  rw [getClause_congr (addF_clauses s a) ci, getClause_setClause]
  exact if_neg (fun hc => hne hc.1.symm)

theorem addF_getClause_self (s : Solver) (a : Nat) (ha : a < s.clauses.length) :
    getClause (add_false_assignment s a) a =
      { getClause s a with
        n_assigned_false := (getClause s a).n_assigned_false + 1
        n_free_lits := (getClause s a).n_free_lits - 1 } := by
  rw [getClause_congr (addF_clauses s a) a, getClause_setClause]
  exact if_pos ⟨rfl, ha⟩

theorem addF_lits_clause (s : Solver) (a x : Nat) (ha : a < s.clauses.length) :
    (getClause (add_false_assignment s a) x).lits = (getClause s x).lits := by
  by_cases hx : x = a
  · subst hx
    rw [addF_getClause_self s x ha]
  · rw [addF_getClause_other s a x hx]

theorem addF_n_unsat (s : Solver) (a : Nat) :
    (add_false_assignment s a).n_unsat_clauses
      = if (getClause s a).n_assigned_true = 0 ∧ (getClause s a).n_free_lits = 1
        then s.n_unsat_clauses + 1 else s.n_unsat_clauses := by
  simp only [add_false_assignment, setClause]
  split <;> split <;> simp_all

theorem addF_unit_stack_raw (s : Solver) (a : Nat) :
    (add_false_assignment s a).unit_stack
      = if (getClause s a).n_assigned_true = 0 ∧ (getClause s a).n_free_lits - 1 = 1
        then get_unit (setClause s a { getClause s a with
            n_assigned_false := (getClause s a).n_assigned_false + 1
            n_free_lits := (getClause s a).n_free_lits - 1 }) a :: s.unit_stack
        else s.unit_stack := by
  simp only [add_false_assignment]
  by_cases h1 : (getClause s a).n_assigned_true = 0 ∧ (getClause s a).n_free_lits = 1
  · rw [if_pos h1]
    split <;> rfl
  · rw [if_neg h1]
    split <;> rfl

theorem addF_get_unit_inner (s : Solver) (a : Nat) (ha : a < s.clauses.length) :
    get_unit (setClause s a { getClause s a with
        n_assigned_false := (getClause s a).n_assigned_false + 1
        n_free_lits := (getClause s a).n_free_lits - 1 }) a = get_unit s a := by
  apply get_unit_congr
  · rw [getClause_setClause, if_pos ⟨rfl, ha⟩]
  · intro l
    rfl

theorem addF_unit_stack_eq (s : Solver) (a : Nat) (ha : a < s.clauses.length) :
    (add_false_assignment s a).unit_stack
      = if (getClause s a).n_assigned_true = 0 ∧ (getClause s a).n_free_lits = 2
        then get_unit s a :: s.unit_stack else s.unit_stack := by
  rw [addF_unit_stack_raw, addF_get_unit_inner s a ha]
  by_cases h : (getClause s a).n_assigned_true = 0 ∧ (getClause s a).n_free_lits - 1 = 1
  · rw [if_pos h, if_pos ⟨h.1, by omega⟩]
  · rw [if_neg h, if_neg (fun hc => h ⟨hc.1, by omega⟩)]

theorem addF_get_unit_all (s : Solver) (a : Nat) (ha : a < s.clauses.length) (ci : Nat) :
    get_unit (add_false_assignment s a) ci = get_unit s ci := by
  apply get_unit_congr
  · exact addF_lits_clause s a ci ha
  · intro l
    rw [getLit_congr (addF_lits s a) l]

theorem foldl_addF_spec (L : List Nat) (s : Solver)
    (hnd : L.Nodup) (hlt : ∀ ci ∈ L, ci < s.clauses.length) :
    (∀ ci, ci ∉ L → getClause (L.foldl add_false_assignment s) ci = getClause s ci) ∧
    (∀ ci ∈ L, getClause (L.foldl add_false_assignment s) ci =
      { getClause s ci with
        n_assigned_false := (getClause s ci).n_assigned_false + 1
        n_free_lits := (getClause s ci).n_free_lits - 1 }) ∧
    (L.foldl add_false_assignment s).n_unsat_clauses
      = s.n_unsat_clauses + L.countP (fun ci =>
          (getClause s ci).n_assigned_true == 0 && (getClause s ci).n_free_lits == 1) ∧
    (L.foldl add_false_assignment s).unit_stack
      = ((L.filter (fun ci => (getClause s ci).n_assigned_true == 0
            && (getClause s ci).n_free_lits == 2)).reverse.map (fun ci => get_unit s ci))
        ++ s.unit_stack := by
  induction L generalizing s with
  | nil => exact ⟨fun ci _ => rfl, fun ci h => absurd h (List.not_mem_nil ci), by simp, by simp⟩
  | cons a L ih =>
    have haL : a ∉ L := (List.nodup_cons.mp hnd).1
    have hndL : L.Nodup := (List.nodup_cons.mp hnd).2
    have ha : a < s.clauses.length := hlt a (List.mem_cons_self a L)
    have hlen : (add_false_assignment s a).clauses.length = s.clauses.length :=
      addF_clauses_len s a
    have hltL : ∀ ci ∈ L, ci < (add_false_assignment s a).clauses.length := by
      intro ci hci
      rw [hlen]
      exact hlt ci (List.mem_cons_of_mem _ hci)
    obtain ⟨ih1, ih2, ih3, ih4⟩ := ih (add_false_assignment s a) hndL hltL
    have hother : ∀ ci ∈ L, getClause (add_false_assignment s a) ci = getClause s ci :=
      fun ci hci => addF_getClause_other s a ci (fun hc => haL (hc ▸ hci))
    rw [List.foldl_cons]
    refine ⟨?_, ?_, ?_, ?_⟩
    · intro ci hci
      have h1 : ci ∉ L := fun hc => hci (List.mem_cons_of_mem _ hc)
      have h2 : ci ≠ a := fun hc => hci (hc ▸ List.mem_cons_self a L)
      rw [ih1 ci h1, addF_getClause_other s a ci h2]
    · intro ci hci
      rcases List.mem_cons.mp hci with rfl | hciL
      · rw [ih1 ci haL, addF_getClause_self s ci ha]
      · rw [ih2 ci hciL, hother ci hciL]
    · have hcount : List.countP
          (fun ci => (getClause (add_false_assignment s a) ci).n_assigned_true == 0
            && (getClause (add_false_assignment s a) ci).n_free_lits == 1) L
          = List.countP (fun ci => (getClause s ci).n_assigned_true == 0
            && (getClause s ci).n_free_lits == 1) L :=
        List.countP_congr (fun ci hci => by rw [hother ci hci])
    
      rw [ih3, hcount, addF_n_unsat, List.countP_cons]
      by_cases hz : (getClause s a).n_assigned_true = 0 ∧ (getClause s a).n_free_lits = 1
      · rw [if_pos hz]
        have hb : ((getClause s a).n_assigned_true == 0
            && ((getClause s a).n_free_lits == 1)) = true := by
          rw [Bool.and_eq_true, beq_iff_eq, beq_iff_eq]
          exact hz
        rw [hb, if_pos rfl]
        omega
      · rw [if_neg hz]
        have hb : ((getClause s a).n_assigned_true == 0
            && ((getClause s a).n_free_lits == 1)) = false := by
          rw [Bool.and_eq_false_iff]
          rcases Decidable.not_and_iff_or_not.mp hz with h | h
          · exact Or.inl (by rw [beq_eq_false_iff_ne]; exact h)
          · exact Or.inr (by rw [beq_eq_false_iff_ne]; exact h)
        rw [hb, if_neg Bool.false_ne_true]
        omega
    · have hfilter : List.filter
          (fun ci => (getClause (add_false_assignment s a) ci).n_assigned_true == 0
            && (getClause (add_false_assignment s a) ci).n_free_lits == 2) L
          = List.filter (fun ci => (getClause s ci).n_assigned_true == 0
            && (getClause s ci).n_free_lits == 2) L :=
        List.filter_congr (fun ci hci => by rw [hother ci hci])
      have hmap : List.map (fun ci => get_unit (add_false_assignment s a) ci)
            (List.filter (fun ci => (getClause s ci).n_assigned_true == 0
              && (getClause s ci).n_free_lits == 2) L).reverse
          = List.map (fun ci => get_unit s ci)
            (List.filter (fun ci => (getClause s ci).n_assigned_true == 0
              && (getClause s ci).n_free_lits == 2) L).reverse :=
        List.map_congr_left (fun ci _ => addF_get_unit_all s a ha ci)
      rw [ih4, hfilter, hmap, addF_unit_stack_eq s a ha, List.filter_cons]
      by_cases hz : (getClause s a).n_assigned_true = 0 ∧ (getClause s a).n_free_lits = 2
      · have hb : ((getClause s a).n_assigned_true == 0
            && ((getClause s a).n_free_lits == 2)) = true := by
          rw [Bool.and_eq_true, beq_iff_eq, beq_iff_eq]
          exact hz
        rw [if_pos hz, hb, if_pos rfl, List.reverse_cons, List.map_append]
        simp
      · have hb : ((getClause s a).n_assigned_true == 0
            && ((getClause s a).n_free_lits == 2)) = false := by
          rw [Bool.and_eq_false_iff]
          rcases Decidable.not_and_iff_or_not.mp hz with h | h
          · exact Or.inl (by rw [beq_eq_false_iff_ne]; exact h)
          · exact Or.inr (by rw [beq_eq_false_iff_ne]; exact h)
        rw [if_neg hz, hb, if_neg Bool.false_ne_true]

theorem addT_lits_clause (s : Solver) (a x : Nat) (ha : a < s.clauses.length) :
    (getClause (add_true_assignment s a) x).lits = (getClause s x).lits := by
  by_cases hx : x = a
  · subst hx
    rw [addT_getClause_self s x ha]
  · rw [addT_getClause_other s a x hx]

theorem undoT_clauses (s : Solver) (a : Nat) :
    (undo_true_assignment s a).clauses
      = (setClause s a { getClause s a with
          n_assigned_true := (getClause s a).n_assigned_true - 1
          n_free_lits := (getClause s a).n_free_lits + 1 }).clauses := by
  simp only [undo_true_assignment, setClause]
  split <;> rfl

theorem undoT_getClause_other (s : Solver) (a ci : Nat) (hne : ci ≠ a) :
    getClause (undo_true_assignment s a) ci = getClause s ci := by
  rw [getClause_congr (undoT_clauses s a) ci, getClause_setClause]
  exact if_neg (fun hc => hne hc.1.symm)

theorem undoT_getClause_self (s : Solver) (a : Nat) (ha : a < s.clauses.length) :
    getClause (undo_true_assignment s a) a =
      { getClause s a with
        n_assigned_true := (getClause s a).n_assigned_true - 1
        n_free_lits := (getClause s a).n_free_lits + 1 } := by
  rw [getClause_congr (undoT_clauses s a) a, getClause_setClause]
  exact if_pos ⟨rfl, ha⟩

theorem undoT_n_sat_eq (s : Solver) (a : Nat) :
    (undo_true_assignment s a).n_sat_clauses
      = if (getClause s a).n_assigned_true - 1 = 0
        then s.n_sat_clauses - 1 else s.n_sat_clauses := by
  simp only [undo_true_assignment, setClause]
  split <;> simp_all

theorem undoF_clauses (s : Solver) (a : Nat) :
    (undo_false_assignment s a).clauses
      = (setClause s a { getClause s a with
          n_assigned_false := (getClause s a).n_assigned_false - 1
          n_free_lits := (getClause s a).n_free_lits + 1 }).clauses := by
  simp only [undo_false_assignment, setClause]
  split <;> rfl

theorem undoF_getClause_other (s : Solver) (a ci : Nat) (hne : ci ≠ a) :
    getClause (undo_false_assignment s a) ci = getClause s ci := by
  rw [getClause_congr (undoF_clauses s a) ci, getClause_setClause]
  exact if_neg (fun hc => hne hc.1.symm)

theorem undoF_getClause_self (s : Solver) (a : Nat) (ha : a < s.clauses.length) :
    getClause (undo_false_assignment s a) a =
      { getClause s a with
        n_assigned_false := (getClause s a).n_assigned_false - 1
        n_free_lits := (getClause s a).n_free_lits + 1 } := by
  rw [getClause_congr (undoF_clauses s a) a, getClause_setClause]
  exact if_pos ⟨rfl, ha⟩

theorem undoF_n_unsat_eq (s : Solver) (a : Nat) :
    (undo_false_assignment s a).n_unsat_clauses
      = if (getClause s a).n_assigned_true = 0 ∧ (getClause s a).n_free_lits + 1 = 1
        then s.n_unsat_clauses - 1 else s.n_unsat_clauses := by
  simp only [undo_false_assignment, setClause]
  split <;> simp_all

theorem foldl_undoT_spec (L : List Nat) (s : Solver)
    (hnd : L.Nodup) (hlt : ∀ ci ∈ L, ci < s.clauses.length) :
    (∀ ci, ci ∉ L → getClause (L.foldl undo_true_assignment s) ci = getClause s ci) ∧
    (∀ ci ∈ L, getClause (L.foldl undo_true_assignment s) ci =
      { getClause s ci with
        n_assigned_true := (getClause s ci).n_assigned_true - 1
        n_free_lits := (getClause s ci).n_free_lits + 1 }) ∧
    (L.foldl undo_true_assignment s).n_sat_clauses
      = s.n_sat_clauses - L.countP (fun ci =>
          (getClause s ci).n_assigned_true - 1 == 0) := by
  induction L generalizing s with
  | nil => exact ⟨fun ci _ => rfl, fun ci h => absurd h (List.not_mem_nil ci), by simp⟩
  | cons a L ih =>
    have haL : a ∉ L := (List.nodup_cons.mp hnd).1
    have hndL : L.Nodup := (List.nodup_cons.mp hnd).2
    have ha : a < s.clauses.length := hlt a (List.mem_cons_self a L)
    have hlen : (undo_true_assignment s a).clauses.length = s.clauses.length := by
      rw [undoT_clauses]
      simp [setClause]
    have hltL : ∀ ci ∈ L, ci < (undo_true_assignment s a).clauses.length := by
      intro ci hci
      rw [hlen]
      exact hlt ci (List.mem_cons_of_mem _ hci)
    obtain ⟨ih1, ih2, ih3⟩ := ih (undo_true_assignment s a) hndL hltL
    have hother : ∀ ci ∈ L, getClause (undo_true_assignment s a) ci = getClause s ci :=
      fun ci hci => undoT_getClause_other s a ci (fun hc => haL (hc ▸ hci))
    rw [List.foldl_cons]
    refine ⟨?_, ?_, ?_⟩
    · intro ci hci
      have h1 : ci ∉ L := fun hc => hci (List.mem_cons_of_mem _ hc)
      have h2 : ci ≠ a := fun hc => hci (hc ▸ List.mem_cons_self a L)
      rw [ih1 ci h1, undoT_getClause_other s a ci h2]
    · intro ci hci
      rcases List.mem_cons.mp hci with rfl | hciL
      · rw [ih1 ci haL, undoT_getClause_self s ci ha]
      · rw [ih2 ci hciL, hother ci hciL]
    · have hcount : List.countP
          (fun ci => (getClause (undo_true_assignment s a) ci).n_assigned_true - 1 == 0) L
          = List.countP (fun ci => (getClause s ci).n_assigned_true - 1 == 0) L :=
        List.countP_congr (fun ci hci => by rw [hother ci hci])
      rw [ih3, hcount, undoT_n_sat_eq, List.countP_cons]
      by_cases hz : (getClause s a).n_assigned_true - 1 = 0
      · have hb : ((getClause s a).n_assigned_true - 1 == 0) = true := by
          rw [beq_iff_eq]
          exact hz
        rw [if_pos hz, hb, if_pos rfl]
        omega
      · have hb : ((getClause s a).n_assigned_true - 1 == 0) = false := by
          rw [beq_eq_false_iff_ne]
          exact hz
        rw [if_neg hz, hb, if_neg Bool.false_ne_true]
        omega

theorem foldl_undoF_spec (L : List Nat) (s : Solver)
    (hnd : L.Nodup) (hlt : ∀ ci ∈ L, ci < s.clauses.length) :
    (∀ ci, ci ∉ L → getClause (L.foldl undo_false_assignment s) ci = getClause s ci) ∧
    (∀ ci ∈ L, getClause (L.foldl undo_false_assignment s) ci =
      { getClause s ci with
        n_assigned_false := (getClause s ci).n_assigned_false - 1
        n_free_lits := (getClause s ci).n_free_lits + 1 }) ∧
    (L.foldl undo_false_assignment s).n_unsat_clauses
      = s.n_unsat_clauses - L.countP (fun ci =>
          (getClause s ci).n_assigned_true == 0
            && (getClause s ci).n_free_lits + 1 == 1) := by
  induction L generalizing s with
  | nil => exact ⟨fun ci _ => rfl, fun ci h => absurd h (List.not_mem_nil ci), by simp⟩
  | cons a L ih =>
    have haL : a ∉ L := (List.nodup_cons.mp hnd).1
    have hndL : L.Nodup := (List.nodup_cons.mp hnd).2
    have ha : a < s.clauses.length := hlt a (List.mem_cons_self a L)
    have hlen : (undo_false_assignment s a).clauses.length = s.clauses.length := by
      rw [undoF_clauses]
      simp [setClause]
    have hltL : ∀ ci ∈ L, ci < (undo_false_assignment s a).clauses.length := by
      intro ci hci
      rw [hlen]
      exact hlt ci (List.mem_cons_of_mem _ hci)
    obtain ⟨ih1, ih2, ih3⟩ := ih (undo_false_assignment s a) hndL hltL
    have hother : ∀ ci ∈ L, getClause (undo_false_assignment s a) ci = getClause s ci :=
      fun ci hci => undoF_getClause_other s a ci (fun hc => haL (hc ▸ hci))
    rw [List.foldl_cons]
    refine ⟨?_, ?_, ?_⟩
    · intro ci hci
      have h1 : ci ∉ L := fun hc => hci (List.mem_cons_of_mem _ hc)
      have h2 : ci ≠ a := fun hc => hci (hc ▸ List.mem_cons_self a L)
      rw [ih1 ci h1, undoF_getClause_other s a ci h2]
    · intro ci hci
      rcases List.mem_cons.mp hci with rfl | hciL
      · rw [ih1 ci haL, undoF_getClause_self s ci ha]
      · rw [ih2 ci hciL, hother ci hciL]
    · have hcount : List.countP
          (fun ci => (getClause (undo_false_assignment s a) ci).n_assigned_true == 0
            && (getClause (undo_false_assignment s a) ci).n_free_lits + 1 == 1) L
          = List.countP (fun ci => (getClause s ci).n_assigned_true == 0
            && (getClause s ci).n_free_lits + 1 == 1) L :=
        List.countP_congr (fun ci hci => by rw [hother ci hci])
      rw [ih3, hcount, undoF_n_unsat_eq, List.countP_cons]
      by_cases hz : (getClause s a).n_assigned_true = 0 ∧ (getClause s a).n_free_lits + 1 = 1
      · have hb : ((getClause s a).n_assigned_true == 0
            && ((getClause s a).n_free_lits + 1 == 1)) = true := by
          rw [Bool.and_eq_true, beq_iff_eq, beq_iff_eq]
          exact hz
        rw [if_pos hz, hb, if_pos rfl]
        omega
      · have hb : ((getClause s a).n_assigned_true == 0
            && ((getClause s a).n_free_lits + 1 == 1)) = false := by
          rw [Bool.and_eq_false_iff]
          rcases Decidable.not_and_iff_or_not.mp hz with h | h
          · exact Or.inl (by rw [beq_eq_false_iff_ne]; exact h)
          · exact Or.inr (by rw [beq_eq_false_iff_ne]; exact h)
        rw [if_neg hz, hb, if_neg Bool.false_ne_true]
        omega


/-- State equivalence up to execution junk: equal structure, counters and
trail-relevant literal data, ignoring scores, statistics, the unit stack and
the stale `assigned` bits of unfixed literals. -/
def EqU (s t : Solver) : Prop :=
  t.n_vars = s.n_vars ∧ t.n_clauses = s.n_clauses ∧ t.clauses = s.clauses ∧
  t.n_sat_clauses = s.n_sat_clauses ∧ t.n_unsat_clauses = s.n_unsat_clauses ∧
  t.lits.length = s.lits.length ∧
  ∀ l, (getLit t l).fixed = (getLit s l).fixed ∧
       (getLit t l).cont_clauses = (getLit s l).cont_clauses ∧
       ((getLit s l).fixed = true → (getLit t l).assigned = (getLit s l).assigned)

theorem EqU_refl (s : Solver) : EqU s s :=
  ⟨rfl, rfl, rfl, rfl, rfl, rfl, fun _ => ⟨rfl, rfl, fun _ => rfl⟩⟩

theorem EqU_trans {a b c : Solver} (h1 : EqU a b) (h2 : EqU b c) : EqU a c := by
  obtain ⟨v1, c1, l1, s1, u1, n1, p1⟩ := h1
  obtain ⟨v2, c2, l2, s2, u2, n2, p2⟩ := h2
  refine ⟨v2.trans v1, c2.trans c1, l2.trans l1, s2.trans s1, u2.trans u1,
    n2.trans n1, fun l => ?_⟩
  obtain ⟨f1, cc1, a1⟩ := p1 l
  obtain ⟨f2, cc2, a2⟩ := p2 l
  refine ⟨f2.trans f1, cc2.trans cc1, fun hf => ?_⟩
  have hfb : (getLit b l).fixed = true := f1.trans hf
  exact (a2 hfb).trans (a1 hf)

theorem EqU_set_trail {a b : Solver} (h : EqU a b) (X : List Nat) :
    EqU a { b with assigned := X } := h

theorem litTrue_congr {s t : Solver} (h : EqU s t) (l : Nat) :
    litTrue t l = litTrue s l := by
  obtain ⟨-, -, -, -, -, -, hp⟩ := h
  obtain ⟨hf, -, ha⟩ := hp l
  unfold litTrue
  by_cases hfix : (getLit s l).fixed = true
  · rw [hf, hfix, ha hfix]
  · rw [hf]
    rw [Bool.not_eq_true] at hfix
    rw [hfix]
    rfl

theorem litFalse_congr {s t : Solver} (h : EqU s t) (l : Nat) :
    litFalse t l = litFalse s l := by
  obtain ⟨-, -, -, -, -, -, hp⟩ := h
  obtain ⟨hf, -, ha⟩ := hp l
  unfold litFalse
  by_cases hfix : (getLit s l).fixed = true
  · rw [hf, hfix, ha hfix]
  · rw [hf]
    rw [Bool.not_eq_true] at hfix
    rw [hfix]
    rfl

theorem litFree_congr {s t : Solver} (h : EqU s t) (l : Nat) :
    litFree t l = litFree s l := by
  obtain ⟨-, -, -, -, -, -, hp⟩ := h
  unfold litFree
  rw [(hp l).1]

theorem WF_of_EqU {s t : Solver} (hWF : WF s) (h : EqU s t)
    (htr : t.assigned = s.assigned) : WF t := by
  obtain ⟨hv, hc, hcl, hs, hu, hl, hp⟩ := h
  have hgc : ∀ ci, getClause t ci = getClause s ci := getClause_congr hcl
  have hT := litTrue_congr ⟨hv, hc, hcl, hs, hu, hl, hp⟩
  have hF := litFalse_congr ⟨hv, hc, hcl, hs, hu, hl, hp⟩
  have hR := litFree_congr ⟨hv, hc, hcl, hs, hu, hl, hp⟩
  constructor
  · rw [hl, hWF.lits_len, hv]
  · rw [hcl, hc]
    exact hWF.clauses_len
  · intro ci hci l hml
    rw [hv]
    rw [hgc ci] at hml
    exact hWF.lits_range ci (hc ▸ hci) l hml
  · intro ci hci
    rw [hgc ci]
    exact hWF.lits_nodup ci (hc ▸ hci)
  · intro ci hci
    rw [hgc ci]
    obtain ⟨h1, h2, h3⟩ := hWF.counters ci (hc ▸ hci)
    refine ⟨?_, ?_, ?_⟩
    · rw [h1]
      exact (List.countP_congr (fun l _ => by rw [hT l])).symm
    · rw [h2]
      exact (List.countP_congr (fun l _ => by rw [hF l])).symm
    · rw [h3]
      exact (List.countP_congr (fun l _ => by rw [hR l])).symm
  · rw [hs, hcl]
    exact hWF.sat_count
  · rw [hu, hcl]
    exact hWF.unsat_count
  · intro l hlv ci hci
    rw [(hp l).2.1] at hci
    obtain ⟨h1, h2⟩ := hWF.occ_sound l (hv ▸ hlv) ci hci
    exact ⟨hc ▸ h1, (hgc ci) ▸ h2⟩
  · intro l hlv ci hci hml
    rw [(hp l).2.1]
    rw [hgc ci] at hml
    exact hWF.occ_complete l (hv ▸ hlv) ci (hc ▸ hci) hml
  · intro l hlv
    rw [(hp l).2.1]
    exact hWF.occ_nodup l (hv ▸ hlv)
  · intro l hlv
    rw [(hp l).1, (hp (negate l)).1]
    exact hWF.pair_fixed l (hv ▸ hlv)
  · intro l hlv hf
    have hfs : (getLit s l).fixed = true := (hp l).1 ▸ hf
    have hfn : (getLit s (negate l)).fixed = true :=
      (hWF.pair_fixed l (hv ▸ hlv)) ▸ hfs
    rw [(hp l).2.2 hfs, (hp (negate l)).2.2 hfn]
    exact hWF.pair_assigned l (hv ▸ hlv) hfs
  · intro l hml
    rw [htr] at hml
    obtain ⟨h1, h2⟩ := hWF.trail_true l hml
    exact ⟨hv ▸ h1, (hT l).trans h2⟩

theorem addT_clauses (s : Solver) (a : Nat) :
    (add_true_assignment s a).clauses
      = s.clauses.set a { getClause s a with
          n_assigned_true := (getClause s a).n_assigned_true + 1
          n_free_lits := (getClause s a).n_free_lits - 1 } := by
  simp only [add_true_assignment, setClause]
  split <;> rfl

theorem setLit_lits_len (s : Solver) (l : Nat) (v : LitState) :
    (setLit s l v).lits.length = s.lits.length := by
  simp [setLit]

/-- Generic transfer of `EqU` across one counter-bookkeeping step, given a
field-level characterisation of the step. -/
theorem EqU_step {a b : Solver} (f : Solver → Nat → Solver) (ci : Nat)
    (F : ClauseState → ClauseState)
    (G1 : ClauseState → Nat → Nat) (G2 : ClauseState → Nat → Nat)
    (hab : EqU a b)
    (hlits : ∀ x, (f x ci).lits = x.lits)
    (hv : ∀ x, (f x ci).n_vars = x.n_vars)
    (hc : ∀ x, (f x ci).n_clauses = x.n_clauses)
    (hcl : ∀ x, (f x ci).clauses = x.clauses.set ci (F (getClause x ci)))
    (hns : ∀ x, (f x ci).n_sat_clauses = G1 (getClause x ci) x.n_sat_clauses)
    (hnu : ∀ x, (f x ci).n_unsat_clauses = G2 (getClause x ci) x.n_unsat_clauses) :
    EqU (f a ci) (f b ci) := by
  obtain ⟨hv', hc', hcl', hs', hu', hl', hp'⟩ := hab
  have hg : getClause b ci = getClause a ci := getClause_congr hcl' ci
  refine ⟨?_, ?_, ?_, ?_, ?_, ?_, ?_⟩
  · rw [hv b, hv a, hv']
  · rw [hc b, hc a, hc']
  · rw [hcl b, hcl a, hcl', hg]
  · rw [hns b, hns a, hs', hg]
  · rw [hnu b, hnu a, hu', hg]
  · rw [congrArg List.length (hlits b), congrArg List.length (hlits a), hl']
  · intro l
    rw [getLit_congr (hlits b) l, getLit_congr (hlits a) l]
    exact hp' l

theorem EqU_foldl {a b : Solver} (f : Solver → Nat → Solver)
    (F : ClauseState → ClauseState)
    (G1 : ClauseState → Nat → Nat) (G2 : ClauseState → Nat → Nat)
    (hlits : ∀ x ci, (f x ci).lits = x.lits)
    (hv : ∀ x ci, (f x ci).n_vars = x.n_vars)
    (hc : ∀ x ci, (f x ci).n_clauses = x.n_clauses)
    (hcl : ∀ x ci, (f x ci).clauses = x.clauses.set ci (F (getClause x ci)))
    (hns : ∀ x ci, (f x ci).n_sat_clauses = G1 (getClause x ci) x.n_sat_clauses)
    (hnu : ∀ x ci, (f x ci).n_unsat_clauses = G2 (getClause x ci) x.n_unsat_clauses)
    (L : List Nat) (hab : EqU a b) :
    EqU (L.foldl f a) (L.foldl f b) := by
  induction L generalizing a b with
  | nil => exact hab
  | cons c L ih =>
    rw [List.foldl_cons, List.foldl_cons]
    exact ih (EqU_step f c F G1 G2 hab (fun x => hlits x c) (fun x => hv x c)
      (fun x => hc x c) (fun x => hcl x c) (fun x => hns x c) (fun x => hnu x c))

theorem foldl_addT_EqU {a b : Solver} (L : List Nat) (hab : EqU a b) :
    EqU (L.foldl add_true_assignment a) (L.foldl add_true_assignment b) :=
  EqU_foldl add_true_assignment
    (fun c => { c with n_assigned_true := c.n_assigned_true + 1
                       n_free_lits := c.n_free_lits - 1 })
    (fun c n => if c.n_assigned_true = 0 then n + 1 else n) (fun _ n => n)
    (fun x ci => addT_lits x ci) (fun x ci => addT_n_vars x ci)
    (fun x ci => addT_n_clauses x ci) (fun x ci => addT_clauses x ci)
    (fun x ci => addT_n_sat x ci) (fun x ci => addT_n_unsat x ci) L hab

theorem foldl_addF_EqU {a b : Solver} (L : List Nat) (hab : EqU a b) :
    EqU (L.foldl add_false_assignment a) (L.foldl add_false_assignment b) :=
  EqU_foldl add_false_assignment
    (fun c => { c with n_assigned_false := c.n_assigned_false + 1
                       n_free_lits := c.n_free_lits - 1 })
    (fun _ n => n)
    (fun c n => if c.n_assigned_true = 0 ∧ c.n_free_lits = 1 then n + 1 else n)
    (fun x ci => addF_lits x ci) (fun x ci => addF_n_vars x ci)
    (fun x ci => addF_n_clauses x ci) (fun x ci => addF_clauses x ci)
    (fun x ci => addF_n_sat x ci) (fun x ci => addF_n_unsat x ci) L hab

theorem foldl_undoT_EqU {a b : Solver} (L : List Nat) (hab : EqU a b) :
    EqU (L.foldl undo_true_assignment a) (L.foldl undo_true_assignment b) :=
  EqU_foldl undo_true_assignment
    (fun c => { c with n_assigned_true := c.n_assigned_true - 1
                       n_free_lits := c.n_free_lits + 1 })
    (fun c n => if c.n_assigned_true - 1 = 0 then n - 1 else n) (fun _ n => n)
    (fun x ci => undoT_lits x ci) (fun x ci => undoT_n_vars x ci)
    (fun x ci => undoT_n_clauses x ci) (fun x ci => undoT_clauses x ci)
    (fun x ci => undoT_n_sat_eq x ci) (fun x ci => undoT_n_unsat x ci) L hab

theorem foldl_undoF_EqU {a b : Solver} (L : List Nat) (hab : EqU a b) :
    EqU (L.foldl undo_false_assignment a) (L.foldl undo_false_assignment b) :=
  EqU_foldl undo_false_assignment
    (fun c => { c with n_assigned_false := c.n_assigned_false - 1
                       n_free_lits := c.n_free_lits + 1 })
    (fun _ n => n)
    (fun c n => if c.n_assigned_true = 0 ∧ c.n_free_lits + 1 = 1 then n - 1 else n)
    (fun x ci => undoF_lits x ci) (fun x ci => undoF_n_vars x ci)
    (fun x ci => undoF_n_clauses x ci) (fun x ci => undoF_clauses x ci)
    (fun x ci => undoF_n_sat x ci) (fun x ci => undoF_n_unsat_eq x ci) L hab

theorem make_EqU {a b : Solver} (hab : EqU a b) (u : Nat) :
    EqU (make_assignment a u) (make_assignment b u) := by
  obtain ⟨hv, hc, hcl, hs, hu', hl, hp⟩ := hab
  rw [make_assignment_eq a u, make_assignment_eq b u, (hp u).2.1, (hp (negate u)).2.1]
  refine foldl_addF_EqU _ (foldl_addT_EqU _ ?_)
  refine ⟨hv, hc, hcl, hs, hu', ?_, ?_⟩
  · rw [setLit_lits_len, setLit_lits_len, setLit_lits_len, setLit_lits_len, hl]
  · intro l
    have hne : ¬ (u = negate u ∧ u < a.lits.length) :=
      fun hcon => (negate_ne u) hcon.1.symm
    have hne' : ¬ (u = negate u ∧ u < b.lits.length) :=
      fun hcon => (negate_ne u) hcon.1.symm
    simp only [getLit_setLit, setLit_lits_len, hl, if_neg hne, if_neg hne']
    by_cases h1 : negate u = l ∧ negate u < a.lits.length
    · rw [if_pos h1, if_pos h1]
      exact ⟨rfl, (hp (negate u)).2.1, fun _ => rfl⟩
    · rw [if_neg h1, if_neg h1]
      by_cases h2 : u = l ∧ u < a.lits.length
      · rw [if_pos h2, if_pos h2]
        exact ⟨rfl, (hp u).2.1, fun _ => rfl⟩
      · rw [if_neg h2, if_neg h2]
        exact hp l

theorem undo_EqU {a b : Solver} (hab : EqU a b) (u : Nat) :
    EqU (undo_assignment a u) (undo_assignment b u) := by
  have hfold : EqU (((getLit a (negate u)).cont_clauses).foldl undo_false_assignment
      (((getLit a u).cont_clauses).foldl undo_true_assignment a))
      (((getLit b (negate u)).cont_clauses).foldl undo_false_assignment
      (((getLit b u).cont_clauses).foldl undo_true_assignment b)) := by
    rw [(hab.2.2.2.2.2.2 u).2.1, (hab.2.2.2.2.2.2 (negate u)).2.1]
    exact foldl_undoF_EqU _ (foldl_undoT_EqU _ hab)
  rw [undo_assignment_eq a u, undo_assignment_eq b u]
  revert hfold
  generalize (((getLit a (negate u)).cont_clauses).foldl undo_false_assignment
      (((getLit a u).cont_clauses).foldl undo_true_assignment a)) = Ea
  generalize (((getLit b (negate u)).cont_clauses).foldl undo_false_assignment
      (((getLit b u).cont_clauses).foldl undo_true_assignment b)) = Eb
  intro hfold
  obtain ⟨hv, hc, hcl, hs, hu', hl, hp⟩ := hfold
  refine ⟨hv, hc, hcl, hs, hu', ?_, ?_⟩
  · rw [setLit_lits_len, setLit_lits_len, setLit_lits_len, setLit_lits_len, hl]
  · intro l
    have hne : ¬ (u = negate u ∧ u < Ea.lits.length) :=
      fun hcon => (negate_ne u) hcon.1.symm
    simp only [getLit_setLit, setLit_lits_len, hl, if_neg hne]
    by_cases h1 : negate u = l ∧ negate u < Ea.lits.length
    · rw [if_pos h1, if_pos h1]
      refine ⟨rfl, (hp (negate u)).2.1, fun hfix => absurd hfix (by simp)⟩
    · rw [if_neg h1, if_neg h1]
      by_cases h2 : u = l ∧ u < Ea.lits.length
      · rw [if_pos h2, if_pos h2]
        refine ⟨rfl, (hp u).2.1, fun hfix => absurd hfix (by simp)⟩
      · rw [if_neg h2, if_neg h2]
        exact hp l

/-- The flag-writing prefix of `make_assignment`. -/
def mkW (s : Solver) (u : Nat) : Solver :=
  setLit (setLit s u { getLit s u with fixed := true, assigned := true })
    (negate u) { getLit (setLit s u { getLit s u with fixed := true, assigned := true })
      (negate u) with fixed := true, assigned := false }

/-- The flag-clearing suffix of `undo_assignment`. -/
def unW (E : Solver) (u : Nat) : Solver :=
  setLit (setLit E u { getLit E u with fixed := false })
    (negate u) { getLit (setLit E u { getLit E u with fixed := false })
      (negate u) with fixed := false }

theorem make_assignment_eq2 (s : Solver) (u : Nat) :
    make_assignment s u
      = ((getLit s (negate u)).cont_clauses).foldl add_false_assignment
          (((getLit s u).cont_clauses).foldl add_true_assignment (mkW s u)) :=
  make_assignment_eq s u

theorem undo_assignment_eq2 (s : Solver) (u : Nat) :
    undo_assignment s u
      = unW (((getLit s (negate u)).cont_clauses).foldl undo_false_assignment
          (((getLit s u).cont_clauses).foldl undo_true_assignment s)) u :=
  undo_assignment_eq s u

theorem mkW_getLit (s : Solver) (u l : Nat) (hlen : u < s.lits.length)
    (hnlen : negate u < s.lits.length) :
    getLit (mkW s u) l
      = if negate u = l then { getLit s (negate u) with fixed := true, assigned := false }
        else if u = l then { getLit s u with fixed := true, assigned := true }
        else getLit s l := by
  have hne : ¬ (u = negate u ∧ u < s.lits.length) := fun hc => (negate_ne u) hc.1.symm
  unfold mkW
  simp only [getLit_setLit, setLit_lits_len, if_neg hne]
  by_cases h1 : negate u = l
  · rw [if_pos ⟨h1, hnlen⟩, if_pos h1]
  · rw [if_neg (fun hc => h1 hc.1), if_neg h1]
    by_cases h2 : u = l
    · rw [if_pos ⟨h2, hlen⟩, if_pos h2]
    · rw [if_neg (fun hc => h2 hc.1), if_neg h2]

theorem unW_getLit (E : Solver) (u l : Nat) (hlen : u < E.lits.length)
    (hnlen : negate u < E.lits.length) :
    getLit (unW E u) l
      = if negate u = l then { getLit E (negate u) with fixed := false }
        else if u = l then { getLit E u with fixed := false }
        else getLit E l := by
  have hne : ¬ (u = negate u ∧ u < E.lits.length) := fun hc => (negate_ne u) hc.1.symm
  unfold unW
  simp only [getLit_setLit, setLit_lits_len, if_neg hne]
  by_cases h1 : negate u = l
  · rw [if_pos ⟨h1, hnlen⟩, if_pos h1]
  · rw [if_neg (fun hc => h1 hc.1), if_neg h1]
    by_cases h2 : u = l
    · rw [if_pos ⟨h2, hlen⟩, if_pos h2]
    · rw [if_neg (fun hc => h2 hc.1), if_neg h2]

theorem clauseState_ext {c d : ClauseState} (h1 : c.lits = d.lits)
    (h2 : c.n_assigned_true = d.n_assigned_true)
    (h3 : c.n_assigned_false = d.n_assigned_false)
    (h4 : c.n_free_lits = d.n_free_lits) : c = d := by
  cases c
  cases d
  simp_all

theorem countP_ge_two : ∀ (l : List Nat) (p : Nat → Bool) (x y : Nat),
    x ∈ l → y ∈ l → x ≠ y → p x = true → p y = true → 2 ≤ l.countP p := by
  intro l p x y
  induction l with
  | nil => intro hx; cases hx
  | cons h t ih =>
    intro hx hy hxy hpx hpy
    rw [List.countP_cons]
    rcases List.mem_cons.mp hx with rfl | hxt
    · rcases List.mem_cons.mp hy with rfl | hyt
      · exact absurd rfl hxy
      · have h1 : 0 < t.countP p := List.countP_pos_iff.mpr ⟨y, hyt, hpy⟩
        rw [hpx, if_pos rfl]
        omega
    · rcases List.mem_cons.mp hy with rfl | hyt
      · have h1 : 0 < t.countP p := List.countP_pos_iff.mpr ⟨x, hxt, hpx⟩
        rw [hpy, if_pos rfl]
        omega
    
      · have := ih hxt hyt hxy hpx hpy
        omega

theorem foldl_addF_get_unit : ∀ (L : List Nat) (t : Solver), (∀ a ∈ L, a < t.clauses.length) →
    ∀ ci, get_unit (L.foldl add_false_assignment t) ci = get_unit t ci := by
  intro L
  induction L with
  | nil => intro t _ ci; rfl
  | cons a L ih =>
    intro t hlt ci
    rw [List.foldl_cons]
    have ha : a < t.clauses.length := hlt a (List.mem_cons_self a L)
    have hlt' : ∀ b ∈ L, b < (add_false_assignment t a).clauses.length := by
      intro b hb
      rw [addF_clauses_len]
      exact hlt b (List.mem_cons_of_mem _ hb)
    rw [ih (add_false_assignment t a) hlt' ci, addF_get_unit_all t a ha ci]

theorem clauses_ext {x y : Solver} (hlen : x.clauses.length = y.clauses.length)
    (h : ∀ ci, getClause x ci = getClause y ci) : x.clauses = y.clauses := by
  apply List.ext_getElem hlen
  intro i h1 h2
  have hx : x.clauses.getD i default = x.clauses[i] := List.getD_eq_getElem x.clauses default h1
  have hy : y.clauses.getD i default = y.clauses[i] := List.getD_eq_getElem y.clauses default h2
  rw [← hx, ← hy]
  exact h i

/-- Complete characterisation of `make_assignment s u` relative to `s`. -/
structure MakeEffect (s : Solver) (u : Nat) (M : Solver) : Prop where
  nv : M.n_vars = s.n_vars
  nc : M.n_clauses = s.n_clauses
  tr : M.assigned = s.assigned
  ll : M.lits.length = s.lits.length
  cl : M.clauses.length = s.clauses.length
  lit_other : ∀ l, l ≠ u → l ≠ negate u → getLit M l = getLit s l
  lit_u : getLit M u = { getLit s u with fixed := true, assigned := true }
  lit_nu : getLit M (negate u) = { getLit s (negate u) with fixed := true, assigned := false }
  c_out : ∀ ci, ci ∉ (getLit s u).cont_clauses → ci ∉ (getLit s (negate u)).cont_clauses →
    getClause M ci = getClause s ci
  c_p : ∀ ci ∈ (getLit s u).cont_clauses, ci ∉ (getLit s (negate u)).cont_clauses →
    getClause M ci = { getClause s ci with
      n_assigned_true := (getClause s ci).n_assigned_true + 1
      n_free_lits := (getClause s ci).n_free_lits - 1 }
  c_n : ∀ ci ∈ (getLit s (negate u)).cont_clauses, ci ∉ (getLit s u).cont_clauses →
    getClause M ci = { getClause s ci with
      n_assigned_false := (getClause s ci).n_assigned_false + 1
      n_free_lits := (getClause s ci).n_free_lits - 1 }
  c_b : ∀ ci ∈ (getLit s u).cont_clauses, ci ∈ (getLit s (negate u)).cont_clauses →
    getClause M ci = { getClause s ci with
      n_assigned_true := (getClause s ci).n_assigned_true + 1
      n_assigned_false := (getClause s ci).n_assigned_false + 1
      n_free_lits := (getClause s ci).n_free_lits - 2 }
  sat : M.n_sat_clauses = s.n_sat_clauses + (getLit s u).cont_clauses.countP
    (fun ci => (getClause s ci).n_assigned_true == 0)
  unsat : M.n_unsat_clauses = s.n_unsat_clauses + (getLit s (negate u)).cont_clauses.countP
    (fun ci => if ci ∈ (getLit s u).cont_clauses then false
      else ((getClause s ci).n_assigned_true == 0 && (getClause s ci).n_free_lits == 1))
  stack : M.unit_stack = ((getLit s (negate u)).cont_clauses.filter
      (fun ci => if ci ∈ (getLit s u).cont_clauses then false
        else ((getClause s ci).n_assigned_true == 0 && (getClause s ci).n_free_lits == 2))).reverse.map
      (fun ci => get_unit M ci) ++ s.unit_stack

theorem make_effect (s : Solver) (u : Nat)
    (hlen : u < s.lits.length) (hnlen : negate u < s.lits.length)
    (hndP : (getLit s u).cont_clauses.Nodup)
    (hndN : (getLit s (negate u)).cont_clauses.Nodup)
    (hltP : ∀ ci ∈ (getLit s u).cont_clauses, ci < s.clauses.length)
    (hltN : ∀ ci ∈ (getLit s (negate u)).cont_clauses, ci < s.clauses.length) :
    MakeEffect s u (make_assignment s u) := by
  have hM := make_assignment_eq2 s u
  have hWgc : ∀ ci, getClause (mkW s u) ci = getClause s ci := fun ci => rfl
  obtain ⟨A1, A2, A3⟩ :=
    foldl_addT_spec (getLit s u).cont_clauses (mkW s u) hndP hltP
  have hAcl : ((getLit s u).cont_clauses.foldl add_true_assignment (mkW s u)).clauses.length
      = s.clauses.length :=
    foldl_preserves (fun t => t.clauses.length) add_true_assignment addT_clauses_len _ _
  have hltNA : ∀ ci ∈ (getLit s (negate u)).cont_clauses,
      ci < ((getLit s u).cont_clauses.foldl add_true_assignment (mkW s u)).clauses.length := by
    intro ci hci
    rw [hAcl]
    exact hltN ci hci
  obtain ⟨B1, B2, B3, B4⟩ :=
    foldl_addF_spec (getLit s (negate u)).cont_clauses _ hndN hltNA
  have hAmem : ∀ ci ∈ (getLit s u).cont_clauses,
      getClause ((getLit s u).cont_clauses.foldl add_true_assignment (mkW s u)) ci
        = { getClause s ci with
            n_assigned_true := (getClause s ci).n_assigned_true + 1
            n_free_lits := (getClause s ci).n_free_lits - 1 } := by
    intro ci hci
    rw [A2 ci hci, hWgc ci]
  have hAout : ∀ ci, ci ∉ (getLit s u).cont_clauses →
      getClause ((getLit s u).cont_clauses.foldl add_true_assignment (mkW s u)) ci
        = getClause s ci := by
    intro ci hci
    rw [A1 ci hci, hWgc ci]
  have hMlits : (make_assignment s u).lits = (mkW s u).lits := by
    rw [hM, foldl_preserves (fun t => t.lits) add_false_assignment addF_lits _ _,
      foldl_preserves (fun t => t.lits) add_true_assignment addT_lits _ _]
  have hcondB : ∀ ci ∈ (getLit s (negate u)).cont_clauses,
      ((getClause ((getLit s u).cont_clauses.foldl add_true_assignment (mkW s u)) ci).n_assigned_true == 0
        && (getClause ((getLit s u).cont_clauses.foldl add_true_assignment (mkW s u)) ci).n_free_lits == 1)
      = (if ci ∈ (getLit s u).cont_clauses then false
          else ((getClause s ci).n_assigned_true == 0 && (getClause s ci).n_free_lits == 1)) := by
    intro ci _
    by_cases hp : ci ∈ (getLit s u).cont_clauses
    · rw [if_pos hp, hAmem ci hp]
      simp
    · rw [if_neg hp, hAout ci hp]
  have hcond2B : ∀ ci ∈ (getLit s (negate u)).cont_clauses,
      ((getClause ((getLit s u).cont_clauses.foldl add_true_assignment (mkW s u)) ci).n_assigned_true == 0
        && (getClause ((getLit s u).cont_clauses.foldl add_true_assignment (mkW s u)) ci).n_free_lits == 2)
      = (if ci ∈ (getLit s u).cont_clauses then false
          else ((getClause s ci).n_assigned_true == 0 && (getClause s ci).n_free_lits == 2)) := by
    intro ci _
    by_cases hp : ci ∈ (getLit s u).cont_clauses
    · rw [if_pos hp, hAmem ci hp]
      simp
    · rw [if_neg hp, hAout ci hp]
  refine ⟨?_, ?_, ?_, ?_, ?_, ?_, ?_, ?_, ?_, ?_, ?_, ?_, ?_, ?_, ?_⟩
  · rw [hM, foldl_preserves (fun t => t.n_vars) add_false_assignment addF_n_vars _ _,
      foldl_preserves (fun t => t.n_vars) add_true_assignment addT_n_vars _ _]
    rfl
  · rw [hM, foldl_preserves (fun t => t.n_clauses) add_false_assignment addF_n_clauses _ _,
      foldl_preserves (fun t => t.n_clauses) add_true_assignment addT_n_clauses _ _]
    rfl
  · rw [hM, foldl_preserves (fun t => t.assigned) add_false_assignment addF_assigned _ _,
      foldl_preserves (fun t => t.assigned) add_true_assignment addT_assigned _ _]
    rfl
  · rw [congrArg List.length hMlits]
    unfold mkW
    rw [setLit_lits_len, setLit_lits_len]
  · rw [hM, foldl_preserves (fun t => t.clauses.length) add_false_assignment addF_clauses_len _ _,
      hAcl]
  · intro l hlu hlnu
    rw [getLit_congr hMlits l, mkW_getLit s u l hlen hnlen,
      if_neg (fun hc => hlnu hc.symm), if_neg (fun hc => hlu hc.symm)]
  · rw [getLit_congr hMlits u, mkW_getLit s u u hlen hnlen,
      if_neg (fun hc => (negate_ne u) hc), if_pos rfl]
  · rw [getLit_congr hMlits (negate u), mkW_getLit s u (negate u) hlen hnlen, if_pos rfl]
  · intro ci hpi hni
    rw [hM, B1 ci hni, hAout ci hpi]
  · intro ci hpi hni
    rw [hM, B1 ci hni, hAmem ci hpi]
  · intro ci hni hpi
    rw [hM, B2 ci hni, hAout ci hpi]
  · intro ci hpi hni
    rw [hM, B2 ci hni, hAmem ci hpi]
    refine clauseState_ext ?_ ?_ ?_ ?_ <;> simp <;> omega
  · rw [hM, foldl_preserves (fun t => t.n_sat_clauses) add_false_assignment addF_n_sat _ _, A3]
    have hcount : (getLit s u).cont_clauses.countP
        (fun ci => (getClause (mkW s u) ci).n_assigned_true == 0)
        = (getLit s u).cont_clauses.countP
        (fun ci => (getClause s ci).n_assigned_true == 0) :=
      List.countP_congr (fun ci _ => by rw [hWgc ci])
    rw [hcount]
    rfl
  · rw [hM, B3]
    have hcount : (getLit s (negate u)).cont_clauses.countP
        (fun ci => (getClause ((getLit s u).cont_clauses.foldl add_true_assignment (mkW s u)) ci).n_assigned_true == 0
          && (getClause ((getLit s u).cont_clauses.foldl add_true_assignment (mkW s u)) ci).n_free_lits == 1)
        = (getLit s (negate u)).cont_clauses.countP
        (fun ci => if ci ∈ (getLit s u).cont_clauses then false
          else ((getClause s ci).n_assigned_true == 0 && (getClause s ci).n_free_lits == 1)) :=
      List.countP_congr (fun ci hci => by rw [hcondB ci hci])
    rw [hcount,
      foldl_preserves (fun t => t.n_unsat_clauses) add_true_assignment addT_n_unsat _ _]
    rfl
  · rw [hM, B4]
    have hfilter : (getLit s (negate u)).cont_clauses.filter
        (fun ci => (getClause ((getLit s u).cont_clauses.foldl add_true_assignment (mkW s u)) ci).n_assigned_true == 0
          && (getClause ((getLit s u).cont_clauses.foldl add_true_assignment (mkW s u)) ci).n_free_lits == 2)
        = (getLit s (negate u)).cont_clauses.filter
        (fun ci => if ci ∈ (getLit s u).cont_clauses then false
          else ((getClause s ci).n_assigned_true == 0 && (getClause s ci).n_free_lits == 2)) :=
      List.filter_congr (fun ci hci => by rw [hcond2B ci hci])
    rw [hfilter,
      foldl_preserves (fun t => t.unit_stack) add_true_assignment addT_unit_stack _ _]
    refine congrArg (fun z => z ++ s.unit_stack) ?_
    refine List.map_congr_left (fun ci _ => ?_)
    exact (foldl_addF_get_unit _ _ hltNA ci).symm

/-- Complete characterisation of `undo_assignment t u` relative to `t`. -/
structure UndoEffect (t : Solver) (u : Nat) (U : Solver) : Prop where
  nv : U.n_vars = t.n_vars
  nc : U.n_clauses = t.n_clauses
  tr : U.assigned = t.assigned
  st : U.unit_stack = t.unit_stack
  ll : U.lits.length = t.lits.length
  cl : U.clauses.length = t.clauses.length
  lit_other : ∀ l, l ≠ u → l ≠ negate u → getLit U l = getLit t l
  lit_u : getLit U u = { getLit t u with fixed := false }
  lit_nu : getLit U (negate u) = { getLit t (negate u) with fixed := false }
  c_out : ∀ ci, ci ∉ (getLit t u).cont_clauses → ci ∉ (getLit t (negate u)).cont_clauses →
    getClause U ci = getClause t ci
  c_p : ∀ ci ∈ (getLit t u).cont_clauses, ci ∉ (getLit t (negate u)).cont_clauses →
    getClause U ci = { getClause t ci with
      n_assigned_true := (getClause t ci).n_assigned_true - 1
      n_free_lits := (getClause t ci).n_free_lits + 1 }
  c_n : ∀ ci ∈ (getLit t (negate u)).cont_clauses, ci ∉ (getLit t u).cont_clauses →
    getClause U ci = { getClause t ci with
      n_assigned_false := (getClause t ci).n_assigned_false - 1
      n_free_lits := (getClause t ci).n_free_lits + 1 }
  c_b : ∀ ci ∈ (getLit t u).cont_clauses, ci ∈ (getLit t (negate u)).cont_clauses →
    getClause U ci = { getClause t ci with
      n_assigned_true := (getClause t ci).n_assigned_true - 1
      n_assigned_false := (getClause t ci).n_assigned_false - 1
      n_free_lits := (getClause t ci).n_free_lits + 2 }
  sat : U.n_sat_clauses = t.n_sat_clauses - (getLit t u).cont_clauses.countP
    (fun ci => (getClause t ci).n_assigned_true - 1 == 0)
  unsat : U.n_unsat_clauses = t.n_unsat_clauses - (getLit t (negate u)).cont_clauses.countP
    (fun ci => if ci ∈ (getLit t u).cont_clauses then false
      else ((getClause t ci).n_assigned_true == 0 && (getClause t ci).n_free_lits + 1 == 1))

theorem undo_effect (t : Solver) (u : Nat)
    (hlen : u < t.lits.length) (hnlen : negate u < t.lits.length)
    (hndP : (getLit t u).cont_clauses.Nodup)
    (hndN : (getLit t (negate u)).cont_clauses.Nodup)
    (hltP : ∀ ci ∈ (getLit t u).cont_clauses, ci < t.clauses.length)
    (hltN : ∀ ci ∈ (getLit t (negate u)).cont_clauses, ci < t.clauses.length) :
    UndoEffect t u (undo_assignment t u) := by
  have hU := undo_assignment_eq2 t u
  obtain ⟨D1, D2, D3⟩ := foldl_undoT_spec (getLit t u).cont_clauses t hndP hltP
  have hDcl : ((getLit t u).cont_clauses.foldl undo_true_assignment t).clauses.length
      = t.clauses.length :=
    foldl_preserves (fun x => x.clauses.length) undo_true_assignment undoT_clauses_len _ _
  have hltND : ∀ ci ∈ (getLit t (negate u)).cont_clauses,
      ci < ((getLit t u).cont_clauses.foldl undo_true_assignment t).clauses.length := by
    intro ci hci
    rw [hDcl]
    exact hltN ci hci
  obtain ⟨E1, E2, E3⟩ :=
    foldl_undoF_spec (getLit t (negate u)).cont_clauses _ hndN hltND
  have hEgcW : ∀ ci, getClause (unW (((getLit t (negate u)).cont_clauses).foldl
      undo_false_assignment (((getLit t u).cont_clauses).foldl undo_true_assignment t)) u) ci
      = getClause (((getLit t (negate u)).cont_clauses).foldl
      undo_false_assignment (((getLit t u).cont_clauses).foldl undo_true_assignment t)) ci :=
    fun ci => rfl
  have hElits : (((getLit t (negate u)).cont_clauses).foldl undo_false_assignment
      (((getLit t u).cont_clauses).foldl undo_true_assignment t)).lits = t.lits := by
    rw [foldl_preserves (fun x => x.lits) undo_false_assignment undoF_lits _ _,
      foldl_preserves (fun x => x.lits) undo_true_assignment undoT_lits _ _]
  have hElen : (((getLit t (negate u)).cont_clauses).foldl undo_false_assignment
      (((getLit t u).cont_clauses).foldl undo_true_assignment t)).lits.length = t.lits.length :=
    congrArg List.length hElits
  refine ⟨?_, ?_, ?_, ?_, ?_, ?_, ?_, ?_, ?_, ?_, ?_, ?_, ?_, ?_, ?_⟩
  · rw [hU]
    show (((getLit t (negate u)).cont_clauses).foldl undo_false_assignment
      (((getLit t u).cont_clauses).foldl undo_true_assignment t)).n_vars = t.n_vars
    rw [foldl_preserves (fun x => x.n_vars) undo_false_assignment undoF_n_vars _ _,
      foldl_preserves (fun x => x.n_vars) undo_true_assignment undoT_n_vars _ _]
  · rw [hU]
    show (((getLit t (negate u)).cont_clauses).foldl undo_false_assignment
      (((getLit t u).cont_clauses).foldl undo_true_assignment t)).n_clauses = t.n_clauses
    rw [foldl_preserves (fun x => x.n_clauses) undo_false_assignment undoF_n_clauses _ _,
      foldl_preserves (fun x => x.n_clauses) undo_true_assignment undoT_n_clauses _ _]
  · rw [hU]
    show (((getLit t (negate u)).cont_clauses).foldl undo_false_assignment
      (((getLit t u).cont_clauses).foldl undo_true_assignment t)).assigned = t.assigned
    rw [foldl_preserves (fun x => x.assigned) undo_false_assignment undoF_assigned _ _,
      foldl_preserves (fun x => x.assigned) undo_true_assignment undoT_assigned _ _]
  · rw [hU]
    show (((getLit t (negate u)).cont_clauses).foldl undo_false_assignment
      (((getLit t u).cont_clauses).foldl undo_true_assignment t)).unit_stack = t.unit_stack
    rw [foldl_preserves (fun x => x.unit_stack) undo_false_assignment undoF_unit_stack _ _,
      foldl_preserves (fun x => x.unit_stack) undo_true_assignment undoT_unit_stack _ _]
  · rw [hU]
    unfold unW
    rw [setLit_lits_len, setLit_lits_len]
    exact hElen
  · rw [hU]
    show (((getLit t (negate u)).cont_clauses).foldl undo_false_assignment
      (((getLit t u).cont_clauses).foldl undo_true_assignment t)).clauses.length = t.clauses.length
    rw [foldl_preserves (fun x => x.clauses.length) undo_false_assignment undoF_clauses_len _ _,
      hDcl]
  · intro l hlu hlnu
    rw [hU, unW_getLit _ u l (hElen ▸ hlen) (hElen ▸ hnlen),
      if_neg (fun hc => hlnu hc.symm), if_neg (fun hc => hlu hc.symm),
      getLit_congr hElits l]
  · rw [hU, unW_getLit _ u u (hElen ▸ hlen) (hElen ▸ hnlen),
      if_neg (fun hc => (negate_ne u) hc), if_pos rfl, getLit_congr hElits u]
  · rw [hU, unW_getLit _ u (negate u) (hElen ▸ hlen) (hElen ▸ hnlen), if_pos rfl,
      getLit_congr hElits (negate u)]
  · intro ci hpi hni
    rw [hU, hEgcW ci, E1 ci hni, D1 ci hpi]
  · intro ci hpi hni
    rw [hU, hEgcW ci, E1 ci hni, D2 ci hpi]
  · intro ci hni hpi
    rw [hU, hEgcW ci, E2 ci hni, D1 ci hpi]
  · intro ci hpi hni
    rw [hU, hEgcW ci, E2 ci hni, D2 ci hpi]
  · rw [hU]
    show (((getLit t (negate u)).cont_clauses).foldl undo_false_assignment
      (((getLit t u).cont_clauses).foldl undo_true_assignment t)).n_sat_clauses
      = t.n_sat_clauses - (getLit t u).cont_clauses.countP
        (fun ci => (getClause t ci).n_assigned_true - 1 == 0)
    rw [foldl_preserves (fun x => x.n_sat_clauses) undo_false_assignment undoF_n_sat _ _, D3]
  · rw [hU]
    show (((getLit t (negate u)).cont_clauses).foldl undo_false_assignment
      (((getLit t u).cont_clauses).foldl undo_true_assignment t)).n_unsat_clauses
      = t.n_unsat_clauses - (getLit t (negate u)).cont_clauses.countP
        (fun ci => if ci ∈ (getLit t u).cont_clauses then false
          else ((getClause t ci).n_assigned_true == 0 && (getClause t ci).n_free_lits + 1 == 1))
    rw [E3, foldl_preserves (fun x => x.n_unsat_clauses) undo_true_assignment undoT_n_unsat _ _]
    have hcount : (getLit t (negate u)).cont_clauses.countP
        (fun ci => (getClause ((getLit t u).cont_clauses.foldl undo_true_assignment t) ci).n_assigned_true == 0
          && (getClause ((getLit t u).cont_clauses.foldl undo_true_assignment t) ci).n_free_lits + 1 == 1)
        = (getLit t (negate u)).cont_clauses.countP
        (fun ci => if ci ∈ (getLit t u).cont_clauses then false
          else ((getClause t ci).n_assigned_true == 0 && (getClause t ci).n_free_lits + 1 == 1)) := by
      refine List.countP_congr (fun ci _ => ?_)
      by_cases hp : ci ∈ (getLit t u).cont_clauses
      · rw [if_pos hp, D2 ci hp]
        simp
      · rw [if_neg hp, D1 ci hp]
    rw [hcount]

/-- Undoing a fresh assignment restores the state up to junk (`EqU`), and
leaves the trail where it was. -/
theorem undo_make_roundtrip (s : Solver) (u : Nat) (hWF : WF s)
    (hu : u < 2 * s.n_vars) (hfu : (getLit s u).fixed = false) :
    EqU s (undo_assignment (make_assignment s u) u) ∧
    (undo_assignment (make_assignment s u) u).assigned = s.assigned := by
  have hnu : negate u < 2 * s.n_vars := negate_lt u s.n_vars hu
  have hlen : u < s.lits.length := by rw [hWF.lits_len]; exact hu
  have hnlen : negate u < s.lits.length := by rw [hWF.lits_len]; exact hnu
  have hfn : (getLit s (negate u)).fixed = false := by
    rw [← hWF.pair_fixed u hu]
    exact hfu
  have hndP : (getLit s u).cont_clauses.Nodup := hWF.occ_nodup u hu
  have hndN : (getLit s (negate u)).cont_clauses.Nodup := hWF.occ_nodup (negate u) hnu
  have hltP : ∀ ci ∈ (getLit s u).cont_clauses, ci < s.clauses.length := by
    intro ci hci
    rw [hWF.clauses_len]
    exact (hWF.occ_sound u hu ci hci).1
  have hltN : ∀ ci ∈ (getLit s (negate u)).cont_clauses, ci < s.clauses.length := by
    intro ci hci
    rw [hWF.clauses_len]
    exact (hWF.occ_sound (negate u) hnu ci hci).1
  have hfreeP : ∀ ci ∈ (getLit s u).cont_clauses, 1 ≤ (getClause s ci).n_free_lits := by
    intro ci hci
    obtain ⟨hci1, hci2⟩ := hWF.occ_sound u hu ci hci
    have hcok := (hWF.counters ci hci1).2.2
    have hpos : 0 < (getClause s ci).lits.countP (litFree s) :=
      List.countP_pos_iff.mpr ⟨u, hci2, by unfold litFree; rw [hfu]; rfl⟩
    omega
  have hfreeN : ∀ ci ∈ (getLit s (negate u)).cont_clauses,
      1 ≤ (getClause s ci).n_free_lits := by
    intro ci hci
    obtain ⟨hci1, hci2⟩ := hWF.occ_sound (negate u) hnu ci hci
    have hcok := (hWF.counters ci hci1).2.2
    have hpos : 0 < (getClause s ci).lits.countP (litFree s) :=
      List.countP_pos_iff.mpr ⟨negate u, hci2, by unfold litFree; rw [hfn]; rfl⟩
    omega
  have hfreeB : ∀ ci ∈ (getLit s u).cont_clauses, ci ∈ (getLit s (negate u)).cont_clauses →
      2 ≤ (getClause s ci).n_free_lits := by
    intro ci hci hci'
    obtain ⟨hci1, hci2⟩ := hWF.occ_sound u hu ci hci
    obtain ⟨-, hci2'⟩ := hWF.occ_sound (negate u) hnu ci hci'
    have hcok := (hWF.counters ci hci1).2.2
    have h2 : 2 ≤ (getClause s ci).lits.countP (litFree s) :=
      countP_ge_two _ (litFree s) u (negate u) hci2 hci2'
        (fun hc => (negate_ne u) hc.symm)
        (by unfold litFree; rw [hfu]; rfl) (by unfold litFree; rw [hfn]; rfl)
    omega
  have me := make_effect s u hlen hnlen hndP hndN hltP hltN
  have hPM : (getLit (make_assignment s u) u).cont_clauses = (getLit s u).cont_clauses := by
    rw [me.lit_u]
  have hNM : (getLit (make_assignment s u) (negate u)).cont_clauses
      = (getLit s (negate u)).cont_clauses := by
    rw [me.lit_nu]
  have ue := undo_effect (make_assignment s u) u
    (by rw [me.ll]; exact hlen) (by rw [me.ll]; exact hnlen)
    (by rw [hPM]; exact hndP) (by rw [hNM]; exact hndN)
    (by rw [hPM, me.cl]; exact hltP) (by rw [hNM, me.cl]; exact hltN)
  have hgc : ∀ ci, getClause (undo_assignment (make_assignment s u) u) ci
      = getClause s ci := by
    intro ci
    by_cases hp : ci ∈ (getLit s u).cont_clauses
    · by_cases hn : ci ∈ (getLit s (negate u)).cont_clauses
      · have hf := hfreeB ci hp hn
        rw [ue.c_b ci (by rw [hPM]; exact hp) (by rw [hNM]; exact hn),
          me.c_b ci hp hn]
        refine clauseState_ext ?_ ?_ ?_ ?_ <;> simp <;> omega
      · have hf := hfreeP ci hp
        rw [ue.c_p ci (by rw [hPM]; exact hp) (by rw [hNM]; exact hn),
          me.c_p ci hp hn]
        refine clauseState_ext ?_ ?_ ?_ ?_ <;> simp <;> omega
    · by_cases hn : ci ∈ (getLit s (negate u)).cont_clauses
      · have hf := hfreeN ci hn
        rw [ue.c_n ci (by rw [hNM]; exact hn) (by rw [hPM]; exact hp),
          me.c_n ci hn hp]
        refine clauseState_ext ?_ ?_ ?_ ?_ <;> simp <;> omega
      · rw [ue.c_out ci (by rw [hPM]; exact hp) (by rw [hNM]; exact hn),
          me.c_out ci hp hn]
  refine ⟨⟨ue.nv.trans me.nv, ue.nc.trans me.nc, ?_, ?_, ?_, ue.ll.trans me.ll, ?_⟩,
    ue.tr.trans me.tr⟩
  · exact clauses_ext (ue.cl.trans me.cl) hgc
  · rw [ue.sat, hPM, me.sat]
    have hcount : (getLit s u).cont_clauses.countP
        (fun ci => (getClause (make_assignment s u) ci).n_assigned_true - 1 == 0)
        = (getLit s u).cont_clauses.countP
        (fun ci => (getClause s ci).n_assigned_true == 0) := by
      refine List.countP_congr (fun ci hci => ?_)
      by_cases hn : ci ∈ (getLit s (negate u)).cont_clauses
      · rw [me.c_b ci hci hn]
        simp
      · rw [me.c_p ci hci hn]
        simp
    rw [hcount]
    omega
  · rw [ue.unsat, hPM, hNM, me.unsat]
    have hcount : (getLit s (negate u)).cont_clauses.countP
        (fun ci => if ci ∈ (getLit s u).cont_clauses then false
          else ((getClause (make_assignment s u) ci).n_assigned_true == 0
            && (getClause (make_assignment s u) ci).n_free_lits + 1 == 1))
        = (getLit s (negate u)).cont_clauses.countP
        (fun ci => if ci ∈ (getLit s u).cont_clauses then false
          else ((getClause s ci).n_assigned_true == 0
            && (getClause s ci).n_free_lits == 1)) := by
      refine List.countP_congr (fun ci hci => ?_)
      by_cases hp : ci ∈ (getLit s u).cont_clauses
      · rw [if_pos hp, if_pos hp]
      · have hf := hfreeN ci hci
        rw [if_neg hp, if_neg hp, me.c_n ci hci hp]
        have harith : (getClause s ci).n_free_lits - 1 + 1 = (getClause s ci).n_free_lits := by
          omega
        simp only [harith]
    rw [hcount]
    omega
  · intro l
    by_cases h1 : l = u
    · subst h1
      rw [ue.lit_u, me.lit_u]
      refine ⟨?_, ?_, ?_⟩
      · rw [hfu]
      · rfl
      · intro hcon
        rw [hfu] at hcon
        cases hcon
    · by_cases h2 : l = negate u
      · subst h2
        rw [ue.lit_nu, me.lit_nu]
        refine ⟨?_, ?_, ?_⟩
        · rw [hfn]
        · rfl
        · intro hcon
          rw [hfn] at hcon
          cases hcon
      · rw [ue.lit_other l h1 h2, me.lit_other l h1 h2]
        exact ⟨rfl, rfl, fun _ => rfl⟩


theorem countP_update_up : ∀ (l : List Nat) (p q : Nat → Bool) (x : Nat),
    l.Nodup → x ∈ l → (∀ y ∈ l, y ≠ x → q y = p y) → q x = true → p x = false →
    l.countP q = l.countP p + 1 := by
  intro l p q x
  induction l with
  | nil => intro _ hx; cases hx
  | cons h t ih =>
    intro hnd hx hagree hqx hpx
    rw [List.countP_cons, List.countP_cons]
    rcases List.mem_cons.mp hx with rfl | hxt
    · have hxt : x ∉ t := (List.nodup_cons.mp hnd).1
      have htail : t.countP q = t.countP p := List.countP_congr (fun y hy => by
        rw [hagree y (List.mem_cons_of_mem _ hy) (fun hc => hxt (hc ▸ hy))])
      rw [htail, hqx, hpx, if_pos rfl, if_neg Bool.false_ne_true]
    · have hhx : h ≠ x := by
        rintro rfl
        exact (List.nodup_cons.mp hnd).1 hxt
      have hqh : q h = p h := hagree h (List.mem_cons_self _ _) hhx
      rw [hqh, ih (List.nodup_cons.mp hnd).2 hxt
        (fun y hy hyx => hagree y (List.mem_cons_of_mem _ hy) hyx) hqx hpx]
      omega

theorem countP_set : ∀ (l : List ClauseState) (i : Nat) (v : ClauseState)
    (p : ClauseState → Bool), i < l.length →
    (l.set i v).countP p + (if p (l.getD i default) then 1 else 0)
      = l.countP p + (if p v then 1 else 0) := by
  intro l
  induction l with
  | nil =>
    intro i v p h
    cases h
  | cons h t ih =>
    intro i v p hi
    cases i with
    | zero =>
      rw [List.set_cons_zero, List.countP_cons, List.countP_cons]
      have hg : (h :: t).getD 0 default = h := rfl
      rw [hg]
      omega
    | succ n =>
      have hn : n < t.length := by simpa using hi
      rw [List.set_cons_succ, List.countP_cons, List.countP_cons]
      have hg : (h :: t).getD (n + 1) default = t.getD n default := rfl
      rw [hg]
      have := ih n v p hn
      omega

theorem countP_setClause (s : Solver) (ci : Nat) (v : ClauseState)
    (p : ClauseState → Bool) (h : ci < s.clauses.length) :
    (s.clauses.set ci v).countP p + (if p (getClause s ci) then 1 else 0)
      = s.clauses.countP p + (if p v then 1 else 0) :=
  countP_set s.clauses ci v p h

theorem addF_clauses_set (s : Solver) (a : Nat) :
    (add_false_assignment s a).clauses
      = s.clauses.set a { getClause s a with
          n_assigned_false := (getClause s a).n_assigned_false + 1
          n_free_lits := (getClause s a).n_free_lits - 1 } :=
  addF_clauses s a

theorem addT_sat_inv (s : Solver) (ci : Nat) (hci : ci < s.clauses.length)
    (hsat : s.n_sat_clauses = s.clauses.countP clauseSatisfied) :
    (add_true_assignment s ci).n_sat_clauses
      = (add_true_assignment s ci).clauses.countP clauseSatisfied := by
  rw [addT_n_sat, addT_clauses]
  have hset := countP_setClause s ci ({ getClause s ci with
      n_assigned_true := (getClause s ci).n_assigned_true + 1
      n_free_lits := (getClause s ci).n_free_lits - 1 }) clauseSatisfied hci
  have hpc : clauseSatisfied { getClause s ci with
      n_assigned_true := (getClause s ci).n_assigned_true + 1
      n_free_lits := (getClause s ci).n_free_lits - 1 } = true := by
    simp [clauseSatisfied]
  rw [hpc, if_pos rfl] at hset
  by_cases ht : (getClause s ci).n_assigned_true = 0
  · have hold : clauseSatisfied (getClause s ci) = false := by
      simp [clauseSatisfied, ht]
    rw [hold, if_neg Bool.false_ne_true] at hset
    rw [if_pos ht, hsat]
    omega
  · have hold : clauseSatisfied (getClause s ci) = true := by
      simp [clauseSatisfied]
      exact ht
    rw [hold, if_pos rfl] at hset
    rw [if_neg ht, hsat]
    omega

theorem addT_unsat_inv (s : Solver) (ci : Nat) (hci : ci < s.clauses.length)
    (hfree : 1 ≤ (getClause s ci).n_free_lits)
    (hunsat : s.n_unsat_clauses = s.clauses.countP clauseContradicted) :
    (add_true_assignment s ci).n_unsat_clauses
      = (add_true_assignment s ci).clauses.countP clauseContradicted := by
  rw [addT_n_unsat, addT_clauses]
  have hset := countP_setClause s ci ({ getClause s ci with
      n_assigned_true := (getClause s ci).n_assigned_true + 1
      n_free_lits := (getClause s ci).n_free_lits - 1 }) clauseContradicted hci
  have hpc : clauseContradicted { getClause s ci with
      n_assigned_true := (getClause s ci).n_assigned_true + 1
      n_free_lits := (getClause s ci).n_free_lits - 1 } = false := by
    simp [clauseContradicted]
  have hold : clauseContradicted (getClause s ci) = false := by
    simp [clauseContradicted]
    omega
  rw [hpc, hold, if_neg Bool.false_ne_true] at hset
  rw [hunsat]
  omega

theorem addF_sat_inv (s : Solver) (ci : Nat) (hci : ci < s.clauses.length)
    (hsat : s.n_sat_clauses = s.clauses.countP clauseSatisfied) :
    (add_false_assignment s ci).n_sat_clauses
      = (add_false_assignment s ci).clauses.countP clauseSatisfied := by
  rw [addF_n_sat, addF_clauses_set]
  have hset := countP_setClause s ci ({ getClause s ci with
      n_assigned_false := (getClause s ci).n_assigned_false + 1
      n_free_lits := (getClause s ci).n_free_lits - 1 }) clauseSatisfied hci
  have hpc : clauseSatisfied { getClause s ci with
      n_assigned_false := (getClause s ci).n_assigned_false + 1
      n_free_lits := (getClause s ci).n_free_lits - 1 }
      = clauseSatisfied (getClause s ci) := by
    simp [clauseSatisfied]
  rw [hpc] at hset
  rw [hsat]
  omega

theorem addF_unsat_inv (s : Solver) (ci : Nat) (hci : ci < s.clauses.length)
    (hfree : 1 ≤ (getClause s ci).n_free_lits)
    (hunsat : s.n_unsat_clauses = s.clauses.countP clauseContradicted) :
    (add_false_assignment s ci).n_unsat_clauses
      = (add_false_assignment s ci).clauses.countP clauseContradicted := by
  rw [addF_n_unsat, addF_clauses_set]
  have hset := countP_setClause s ci ({ getClause s ci with
      n_assigned_false := (getClause s ci).n_assigned_false + 1
      n_free_lits := (getClause s ci).n_free_lits - 1 }) clauseContradicted hci
  have hold : clauseContradicted (getClause s ci) = false := by
    simp [clauseContradicted]
    omega
  rw [hold, if_neg Bool.false_ne_true] at hset
  by_cases hc : (getClause s ci).n_assigned_true = 0 ∧ (getClause s ci).n_free_lits = 1
  · have hnew : clauseContradicted { getClause s ci with
        n_assigned_false := (getClause s ci).n_assigned_false + 1
        n_free_lits := (getClause s ci).n_free_lits - 1 } = true := by
      simp [clauseContradicted, hc.1]
      omega
    rw [hnew, if_pos rfl] at hset
    rw [if_pos hc, hunsat]
    omega
  · have hnew : clauseContradicted { getClause s ci with
        n_assigned_false := (getClause s ci).n_assigned_false + 1
        n_free_lits := (getClause s ci).n_free_lits - 1 } = false := by
      simp [clauseContradicted]
      omega
    rw [hnew, if_neg Bool.false_ne_true] at hset
    rw [if_neg hc, hunsat]
    omega

theorem foldl_addT_count_inv (L : List Nat) (s : Solver) (hnd : L.Nodup)
    (h : ∀ ci ∈ L, ci < s.clauses.length ∧ 1 ≤ (getClause s ci).n_free_lits)
    (hsat : s.n_sat_clauses = s.clauses.countP clauseSatisfied)
    (hunsat : s.n_unsat_clauses = s.clauses.countP clauseContradicted) :
    (L.foldl add_true_assignment s).n_sat_clauses
      = (L.foldl add_true_assignment s).clauses.countP clauseSatisfied ∧
    (L.foldl add_true_assignment s).n_unsat_clauses
      = (L.foldl add_true_assignment s).clauses.countP clauseContradicted := by
  induction L generalizing s with
  | nil => exact ⟨hsat, hunsat⟩
  | cons a L ih =>
    obtain ⟨ha1, ha2⟩ := h a (List.mem_cons_self a L)
    have haL : a ∉ L := (List.nodup_cons.mp hnd).1
    rw [List.foldl_cons]
    refine ih (add_true_assignment s a) (List.nodup_cons.mp hnd).2 ?_
      (addT_sat_inv s a ha1 hsat) (addT_unsat_inv s a ha1 ha2 hunsat)
    intro ci hci
    obtain ⟨h1, h2⟩ := h ci (List.mem_cons_of_mem _ hci)
    refine ⟨by rw [addT_clauses_len]; exact h1, ?_⟩
    rw [addT_getClause_other s a ci (fun hc => haL (hc ▸ hci))]
    exact h2

theorem foldl_addF_count_inv (L : List Nat) (s : Solver) (hnd : L.Nodup)
    (h : ∀ ci ∈ L, ci < s.clauses.length ∧ 1 ≤ (getClause s ci).n_free_lits)
    (hsat : s.n_sat_clauses = s.clauses.countP clauseSatisfied)
    (hunsat : s.n_unsat_clauses = s.clauses.countP clauseContradicted) :
    (L.foldl add_false_assignment s).n_sat_clauses
      = (L.foldl add_false_assignment s).clauses.countP clauseSatisfied ∧
    (L.foldl add_false_assignment s).n_unsat_clauses
      = (L.foldl add_false_assignment s).clauses.countP clauseContradicted := by
  induction L generalizing s with
  | nil => exact ⟨hsat, hunsat⟩
  | cons a L ih =>
    obtain ⟨ha1, ha2⟩ := h a (List.mem_cons_self a L)
    have haL : a ∉ L := (List.nodup_cons.mp hnd).1
    rw [List.foldl_cons]
    refine ih (add_false_assignment s a) (List.nodup_cons.mp hnd).2 ?_
      (addF_sat_inv s a ha1 hsat) (addF_unsat_inv s a ha1 ha2 hunsat)
    intro ci hci
    obtain ⟨h1, h2⟩ := h ci (List.mem_cons_of_mem _ hci)
    refine ⟨by rw [addF_clauses_len]; exact h1, ?_⟩
    rw [addF_getClause_other s a ci (fun hc => haL (hc ▸ hci))]
    exact h2

theorem make_count_inv (s : Solver) (u : Nat) (hWF : WF s) (hu : u < 2 * s.n_vars)
    (hfu : (getLit s u).fixed = false) :
    (make_assignment s u).n_sat_clauses
      = (make_assignment s u).clauses.countP clauseSatisfied ∧
    (make_assignment s u).n_unsat_clauses
      = (make_assignment s u).clauses.countP clauseContradicted := by
  have hnu : negate u < 2 * s.n_vars := negate_lt u s.n_vars hu
  have hfn : (getLit s (negate u)).fixed = false := by
    rw [← hWF.pair_fixed u hu]
    exact hfu
  have hndP : (getLit s u).cont_clauses.Nodup := hWF.occ_nodup u hu
  have hndN : (getLit s (negate u)).cont_clauses.Nodup := hWF.occ_nodup (negate u) hnu
  have hltP : ∀ ci ∈ (getLit s u).cont_clauses, ci < s.clauses.length := by
    intro ci hci
    rw [hWF.clauses_len]
    exact (hWF.occ_sound u hu ci hci).1
  have hltN : ∀ ci ∈ (getLit s (negate u)).cont_clauses, ci < s.clauses.length := by
    intro ci hci
    rw [hWF.clauses_len]
    exact (hWF.occ_sound (negate u) hnu ci hci).1
  have hfreeP : ∀ ci ∈ (getLit s u).cont_clauses, 1 ≤ (getClause s ci).n_free_lits := by
    intro ci hci
    obtain ⟨hci1, hci2⟩ := hWF.occ_sound u hu ci hci
    have hcok := (hWF.counters ci hci1).2.2
    have hpos : 0 < (getClause s ci).lits.countP (litFree s) :=
      List.countP_pos_iff.mpr ⟨u, hci2, by unfold litFree; rw [hfu]; rfl⟩
    omega
  have hfreeN : ∀ ci ∈ (getLit s (negate u)).cont_clauses,
      1 ≤ (getClause s ci).n_free_lits := by
    intro ci hci
    obtain ⟨hci1, hci2⟩ := hWF.occ_sound (negate u) hnu ci hci
    have hcok := (hWF.counters ci hci1).2.2
    have hpos : 0 < (getClause s ci).lits.countP (litFree s) :=
      List.countP_pos_iff.mpr ⟨negate u, hci2, by unfold litFree; rw [hfn]; rfl⟩
    omega
  have hfreeB : ∀ ci ∈ (getLit s u).cont_clauses, ci ∈ (getLit s (negate u)).cont_clauses →
      2 ≤ (getClause s ci).n_free_lits := by
    intro ci hci hci'
    obtain ⟨hci1, hci2⟩ := hWF.occ_sound u hu ci hci
    obtain ⟨-, hci2'⟩ := hWF.occ_sound (negate u) hnu ci hci'
    have hcok := (hWF.counters ci hci1).2.2
    have h2 : 2 ≤ (getClause s ci).lits.countP (litFree s) :=
      countP_ge_two _ (litFree s) u (negate u) hci2 hci2'
        (fun hc => (negate_ne u) hc.symm)
        (by unfold litFree; rw [hfu]; rfl) (by unfold litFree; rw [hfn]; rfl)
    omega
  rw [make_assignment_eq2 s u]
  obtain ⟨A1, A2, A3⟩ := foldl_addT_spec (getLit s u).cont_clauses (mkW s u) hndP hltP
  obtain ⟨hAsat, hAunsat⟩ := foldl_addT_count_inv (getLit s u).cont_clauses (mkW s u) hndP
    (fun ci hci => ⟨hltP ci hci, hfreeP ci hci⟩) hWF.sat_count hWF.unsat_count
  have hAcl : ((getLit s u).cont_clauses.foldl add_true_assignment (mkW s u)).clauses.length
      = s.clauses.length :=
    foldl_preserves (fun t => t.clauses.length) add_true_assignment addT_clauses_len _ _
  refine foldl_addF_count_inv (getLit s (negate u)).cont_clauses _ hndN ?_ hAsat hAunsat
  intro ci hci
  refine ⟨by rw [hAcl]; exact hltN ci hci, ?_⟩
  by_cases hp : ci ∈ (getLit s u).cont_clauses
  · rw [A2 ci hp]
    have hf := hfreeB ci hp hci
    have hg : getClause (mkW s u) ci = getClause s ci := rfl
    rw [hg]
    simp
    omega
  · rw [A1 ci hp]
    have hg : getClause (mkW s u) ci = getClause s ci := rfl
    rw [hg]
    exact hfreeN ci hci

theorem make_WF (s : Solver) (u : Nat) (hWF : WF s) (hu : u < 2 * s.n_vars)
    (hfu : (getLit s u).fixed = false) : WF (make_assignment s u) := by
  have hnu : negate u < 2 * s.n_vars := negate_lt u s.n_vars hu
  have hlen : u < s.lits.length := by rw [hWF.lits_len]; exact hu
  have hnlen : negate u < s.lits.length := by rw [hWF.lits_len]; exact hnu
  have hfn : (getLit s (negate u)).fixed = false := by
    rw [← hWF.pair_fixed u hu]
    exact hfu
  have hndP : (getLit s u).cont_clauses.Nodup := hWF.occ_nodup u hu
  have hndN : (getLit s (negate u)).cont_clauses.Nodup := hWF.occ_nodup (negate u) hnu
  have hltP : ∀ ci ∈ (getLit s u).cont_clauses, ci < s.clauses.length := by
    intro ci hci
    rw [hWF.clauses_len]
    exact (hWF.occ_sound u hu ci hci).1
  have hltN : ∀ ci ∈ (getLit s (negate u)).cont_clauses, ci < s.clauses.length := by
    intro ci hci
    rw [hWF.clauses_len]
    exact (hWF.occ_sound (negate u) hnu ci hci).1
  have me := make_effect s u hlen hnlen hndP hndN hltP hltN
  have hcont : ∀ l, (getLit (make_assignment s u) l).cont_clauses
      = (getLit s l).cont_clauses := by
    intro l
    by_cases h1 : l = u
    · subst h1
      rw [me.lit_u]
    · by_cases h2 : l = negate u
      · subst h2
        rw [me.lit_nu]
      · rw [me.lit_other l h1 h2]
  have hlitsc : ∀ ci, (getClause (make_assignment s u) ci).lits
      = (getClause s ci).lits := by
    intro ci
    by_cases hp : ci ∈ (getLit s u).cont_clauses
    · by_cases hn : ci ∈ (getLit s (negate u)).cont_clauses
      · rw [me.c_b ci hp hn]
      · rw [me.c_p ci hp hn]
    · by_cases hn : ci ∈ (getLit s (negate u)).cont_clauses
      · rw [me.c_n ci hn hp]
      · rw [me.c_out ci hp hn]
  have hTother : ∀ y, y ≠ u → y ≠ negate u →
      litTrue (make_assignment s u) y = litTrue s y ∧
      litFalse (make_assignment s u) y = litFalse s y ∧
      litFree (make_assignment s u) y = litFree s y := by
    intro y h1 h2
    unfold litTrue litFalse litFree
    rw [me.lit_other y h1 h2]
    exact ⟨rfl, rfl, rfl⟩
  have hTu : litTrue (make_assignment s u) u = true := by
    simp [litTrue, me.lit_u]
  have hTnu : litTrue (make_assignment s u) (negate u) = false := by
    simp [litTrue, me.lit_nu]
  have hFu : litFalse (make_assignment s u) u = false := by
    simp [litFalse, me.lit_u]
  have hFnu : litFalse (make_assignment s u) (negate u) = true := by
    simp [litFalse, me.lit_nu]
  have hRu : litFree (make_assignment s u) u = false := by
    simp [litFree, me.lit_u]
  have hRnu : litFree (make_assignment s u) (negate u) = false := by
    simp [litFree, me.lit_nu]
  have hTsu : litTrue s u = false := by simp [litTrue, hfu]
  have hTsnu : litTrue s (negate u) = false := by simp [litTrue, hfn]
  have hFsu : litFalse s u = false := by simp [litFalse, hfu]
  have hFsnu : litFalse s (negate u) = false := by simp [litFalse, hfn]
  have hRsu : litFree s u = true := by simp [litFree, hfu]
  have hRsnu : litFree s (negate u) = true := by simp [litFree, hfn]
  have hagreeT : ∀ ci, ci < s.n_clauses → ∀ y ∈ (getClause s ci).lits, y ≠ u →
      litTrue (make_assignment s u) y = litTrue s y := by
    intro ci _ y _ hyu
    by_cases hynu : y = negate u
    · subst hynu
      rw [hTnu, hTsnu]
    · exact (hTother y hyu hynu).1
  have hagreeF : ∀ ci, ci < s.n_clauses → ∀ y ∈ (getClause s ci).lits, y ≠ negate u →
      litFalse (make_assignment s u) y = litFalse s y := by
    intro ci _ y _ hynu
    by_cases hyu : y = u
    · subst hyu
      rw [hFu, hFsu]
    · exact (hTother y hyu hynu).2.1
  have hcntT : ∀ ci, ci < s.n_clauses →
      (getClause s ci).lits.countP (litTrue (make_assignment s u))
        = (getClause s ci).lits.countP (litTrue s)
          + (if u ∈ (getClause s ci).lits then 1 else 0) := by
    intro ci hci
    by_cases hum : u ∈ (getClause s ci).lits
    · rw [if_pos hum]
      exact countP_update_up (getClause s ci).lits (litTrue s)
        (litTrue (make_assignment s u)) u (hWF.lits_nodup ci hci) hum
        (fun y hy hyu => hagreeT ci hci y hy hyu) hTu hTsu
    · rw [if_neg hum]
      exact List.countP_congr (fun y hy => by
        rw [hagreeT ci hci y hy (fun hc => hum (hc ▸ hy))])
  have hcntF : ∀ ci, ci < s.n_clauses →
      (getClause s ci).lits.countP (litFalse (make_assignment s u))
        = (getClause s ci).lits.countP (litFalse s)
          + (if negate u ∈ (getClause s ci).lits then 1 else 0) := by
    intro ci hci
    by_cases hnm : negate u ∈ (getClause s ci).lits
    · rw [if_pos hnm]
      exact countP_update_up (getClause s ci).lits (litFalse s)
        (litFalse (make_assignment s u)) (negate u) (hWF.lits_nodup ci hci) hnm
        (fun y hy hyn => hagreeF ci hci y hy hyn) hFnu hFsnu
    · rw [if_neg hnm]
      exact List.countP_congr (fun y hy => by
        rw [hagreeF ci hci y hy (fun hc => hnm (hc ▸ hy))])
  have hcntR : ∀ ci, ci < s.n_clauses →
      (getClause s ci).lits.countP (litFree (make_assignment s u))
          + ((if u ∈ (getClause s ci).lits then 1 else 0)
            + (if negate u ∈ (getClause s ci).lits then 1 else 0))
        = (getClause s ci).lits.countP (litFree s) := by
    intro ci hci
    have h1 : (getClause s ci).lits.countP (litFree s)
        = (getClause s ci).lits.countP (fun y => if y = u then false else litFree s y)
          + (if u ∈ (getClause s ci).lits then 1 else 0) := by
      by_cases hum : u ∈ (getClause s ci).lits
      · rw [if_pos hum]
        refine countP_update_up (getClause s ci).lits
          (fun y => if y = u then false else litFree s y) (litFree s) u
          (hWF.lits_nodup ci hci) hum (fun y _ hyu => ?_) hRsu ?_
        · show litFree s y = if y = u then false else litFree s y
          rw [if_neg hyu]
        · show (if u = u then false else litFree s u) = false
          rw [if_pos rfl]
      · rw [if_neg hum]
        have hc : (getClause s ci).lits.countP (fun y => if y = u then false else litFree s y)
            = (getClause s ci).lits.countP (litFree s) := by
          refine List.countP_congr (fun y hy => ?_)
          have hyu : y ≠ u := fun hcc => hum (hcc ▸ hy)
          show (if y = u then false else litFree s y) = true ↔ litFree s y = true
          rw [if_neg hyu]
        omega
    have h2 : (getClause s ci).lits.countP (fun y => if y = u then false else litFree s y)
        = (getClause s ci).lits.countP (litFree (make_assignment s u))
          + (if negate u ∈ (getClause s ci).lits then 1 else 0) := by
      by_cases hnm : negate u ∈ (getClause s ci).lits
      · rw [if_pos hnm]
        refine countP_update_up (getClause s ci).lits
          (litFree (make_assignment s u))
          (fun y => if y = u then false else litFree s y) (negate u)
          (hWF.lits_nodup ci hci) hnm (fun y _ hyn => ?_) ?_ hRnu
        · show (if y = u then false else litFree s y) = litFree (make_assignment s u) y
          by_cases hyu : y = u
          · subst hyu
            rw [if_pos rfl, hRu]
          · rw [if_neg hyu, (hTother y hyu hyn).2.2]
        · show (if negate u = u then false else litFree s (negate u)) = true
          rw [if_neg (fun hc => (negate_ne u) hc), hRsnu]
      · rw [if_neg hnm]
        have hc : (getClause s ci).lits.countP (fun y => if y = u then false else litFree s y)
            = (getClause s ci).lits.countP (litFree (make_assignment s u)) := by
          refine List.countP_congr (fun y hy => ?_)
          have hyn : y ≠ negate u := fun hcc => hnm (hcc ▸ hy)
          show (if y = u then false else litFree s y) = true
            ↔ litFree (make_assignment s u) y = true
          by_cases hyu : y = u
          · subst hyu
            rw [if_pos rfl, hRu]
          · rw [if_neg hyu, (hTother y hyu hyn).2.2]
        omega
    omega
  refine ⟨?_, ?_, ?_, ?_, ?_, ?_, ?_, ?_, ?_, ?_, ?_, ?_, ?_⟩
  · rw [me.ll, me.nv]
    exact hWF.lits_len
  · rw [me.cl, me.nc]
    exact hWF.clauses_len
  · intro ci hci l hml
    rw [me.nv]
    rw [hlitsc ci] at hml
    exact hWF.lits_range ci (me.nc ▸ hci) l hml
  · intro ci hci
    rw [hlitsc ci]
    exact hWF.lits_nodup ci (me.nc ▸ hci)
  · intro ci hci
    have hciS : ci < s.n_clauses := me.nc ▸ hci
    obtain ⟨ct, cf, cr⟩ := hWF.counters ci hciS
    have hT := hcntT ci hciS
    have hF := hcntF ci hciS
    have hR := hcntR ci hciS
    by_cases hp : ci ∈ (getLit s u).cont_clauses
    · have hum : u ∈ (getClause s ci).lits := (hWF.occ_sound u hu ci hp).2
      rw [if_pos hum] at hT hR
      by_cases hn : ci ∈ (getLit s (negate u)).cont_clauses
      · have hnm : negate u ∈ (getClause s ci).lits :=
          (hWF.occ_sound (negate u) hnu ci hn).2
        rw [if_pos hnm] at hF hR
        rw [me.c_b ci hp hn]
        refine ⟨?_, ?_, ?_⟩
        · show (getClause s ci).n_assigned_true + 1
            = (getClause s ci).lits.countP (litTrue (make_assignment s u))
          omega
        · show (getClause s ci).n_assigned_false + 1
            = (getClause s ci).lits.countP (litFalse (make_assignment s u))
          omega
        · show (getClause s ci).n_free_lits - 2
            = (getClause s ci).lits.countP (litFree (make_assignment s u))
          omega
      · have hnm : negate u ∉ (getClause s ci).lits :=
          fun hc => hn (hWF.occ_complete (negate u) hnu ci hciS hc)
        rw [if_neg hnm] at hF hR
        rw [me.c_p ci hp hn]
        refine ⟨?_, ?_, ?_⟩
        · show (getClause s ci).n_assigned_true + 1
            = (getClause s ci).lits.countP (litTrue (make_assignment s u))
          omega
        · show (getClause s ci).n_assigned_false
            = (getClause s ci).lits.countP (litFalse (make_assignment s u))
          omega
        · show (getClause s ci).n_free_lits - 1
            = (getClause s ci).lits.countP (litFree (make_assignment s u))
          omega
    · have hum : u ∉ (getClause s ci).lits :=
        fun hc => hp (hWF.occ_complete u hu ci hciS hc)
      rw [if_neg hum] at hT hR
      by_cases hn : ci ∈ (getLit s (negate u)).cont_clauses
      · have hnm : negate u ∈ (getClause s ci).lits :=
          (hWF.occ_sound (negate u) hnu ci hn).2
        rw [if_pos hnm] at hF hR
        rw [me.c_n ci hn hp]
        refine ⟨?_, ?_, ?_⟩
        · show (getClause s ci).n_assigned_true
            = (getClause s ci).lits.countP (litTrue (make_assignment s u))
          omega
        · show (getClause s ci).n_assigned_false + 1
            = (getClause s ci).lits.countP (litFalse (make_assignment s u))
          omega
        · show (getClause s ci).n_free_lits - 1
            = (getClause s ci).lits.countP (litFree (make_assignment s u))
          omega
      · have hnm : negate u ∉ (getClause s ci).lits :=
          fun hc => hn (hWF.occ_complete (negate u) hnu ci hciS hc)
        rw [if_neg hnm] at hF hR
        rw [me.c_out ci hp hn]
        exact ⟨by omega, by omega, by omega⟩
  · exact (make_count_inv s u hWF hu hfu).1
  · exact (make_count_inv s u hWF hu hfu).2
  · intro l hl ci hci
    rw [hcont l] at hci
    have hlS : l < 2 * s.n_vars := me.nv ▸ hl
    obtain ⟨h1, h2⟩ := hWF.occ_sound l hlS ci hci
    exact ⟨me.nc ▸ h1, (hlitsc ci) ▸ h2⟩
  · intro l hl ci hci hml
    rw [hcont l]
    rw [hlitsc ci] at hml
    exact hWF.occ_complete l (me.nv ▸ hl) ci (me.nc ▸ hci) hml
  · intro l hl
    rw [hcont l]
    exact hWF.occ_nodup l (me.nv ▸ hl)
  · intro l hl
    by_cases h1 : l = u
    · subst h1
      rw [me.lit_u, me.lit_nu]
    · by_cases h2 : l = negate u
      · subst h2
        rw [me.lit_nu, negate_negate, me.lit_u]
    
      · have hn1 : negate l ≠ u := fun hc => h2 (by rw [← negate_negate l, hc])
        have hn2 : negate l ≠ negate u := fun hc => h1 (by
          rw [← negate_negate l, hc, negate_negate])
        rw [me.lit_other l h1 h2, me.lit_other (negate l) hn1 hn2]
        exact hWF.pair_fixed l (me.nv ▸ hl)
  · intro l hl hfix
    by_cases h1 : l = u
    · subst h1
      rw [me.lit_u, me.lit_nu]
      rfl
    · by_cases h2 : l = negate u
      · subst h2
        rw [me.lit_nu, negate_negate, me.lit_u]
        rfl
      · have hn1 : negate l ≠ u := fun hc => h2 (by rw [← negate_negate l, hc])
        have hn2 : negate l ≠ negate u := fun hc => h1 (by
          rw [← negate_negate l, hc, negate_negate])
        rw [me.lit_other l h1 h2, me.lit_other (negate l) hn1 hn2]
        rw [me.lit_other l h1 h2] at hfix
        exact hWF.pair_assigned l (me.nv ▸ hl) hfix
  · intro l hml
    rw [me.tr] at hml
    obtain ⟨hb, ht⟩ := hWF.trail_true l hml
    have hfix : (getLit s l).fixed = true := by
      unfold litTrue at ht
      simp at ht
      exact ht.1
    have h1 : l ≠ u := fun hc => by
      rw [hc, hfu] at hfix
      cases hfix
    have h2 : l ≠ negate u := fun hc => by
      rw [hc, hfn] at hfix
      cases hfix
    refine ⟨me.nv ▸ hb, ?_⟩
    rw [(hTother l h1 h2).1]
    exact ht


theorem WF_set_trail {t : Solver} (X : List Nat) (h : WF { t with assigned := X })
    (htr : ∀ l ∈ t.assigned, l < 2 * t.n_vars ∧ litTrue t l = true) : WF t :=
  ⟨h.lits_len, h.clauses_len, h.lits_range, h.lits_nodup, h.counters, h.sat_count,
   h.unsat_count, h.occ_sound, h.occ_complete, h.occ_nodup, h.pair_fixed,
   h.pair_assigned, htr⟩

/-- `make_assignment` preserves well-formedness also when applied, as in the
code, to the state with the new literal already pushed on the trail and the
unit stack / statistics modified. -/
theorem make_WF_gen (t t' : Solver) (u : Nat) (hWF : WF t)
    (hu : u < 2 * t.n_vars) (hfu : (getLit t u).fixed = false)
    (hEq : EqU t t') (htr : t'.assigned = u :: t.assigned) :
    WF (make_assignment t' u) := by
  have h1 : WF (make_assignment t u) := make_WF t u hWF hu hfu
  have h2 : EqU (make_assignment t u) (make_assignment t' u) := make_EqU hEq u
  have h3 : (make_assignment t' u).assigned = u :: t.assigned :=
    (make_assigned t' u).trans htr
  have h4 : WF { make_assignment t' u with assigned := (make_assignment t u).assigned } :=
    WF_of_EqU h1 (EqU_set_trail h2 _) rfl
  refine WF_set_trail _ h4 ?_
  intro l hl
  rw [h3] at hl
  have hnv : (make_assignment t' u).n_vars = (make_assignment t u).n_vars := h2.1
  have hnv2 : (make_assignment t u).n_vars = t.n_vars := make_n_vars t u
  have hlen : u < t.lits.length := by rw [hWF.lits_len]; exact hu
  have hnlen : negate u < t.lits.length := by
    rw [hWF.lits_len]
    exact negate_lt u t.n_vars hu
  have me := make_effect t u hlen hnlen (hWF.occ_nodup u hu)
    (hWF.occ_nodup (negate u) (negate_lt u t.n_vars hu))
    (fun ci hci => by rw [hWF.clauses_len]; exact (hWF.occ_sound u hu ci hci).1)
    (fun ci hci => by
      rw [hWF.clauses_len]
      exact (hWF.occ_sound (negate u) (negate_lt u t.n_vars hu) ci hci).1)
  rcases List.mem_cons.mp hl with rfl | hltr
  · refine ⟨by rw [hnv, hnv2]; exact hu, ?_⟩
    rw [litTrue_congr h2 l]
    simp [litTrue, me.lit_u]
  · have hTt : litTrue (make_assignment t u) l = true := by
      refine (h1.trail_true l ?_).2
      rw [me.tr]
      exact hltr
    have hb : l < 2 * t.n_vars := by
      have := (h1.trail_true l (by rw [me.tr]; exact hltr)).1
      rw [hnv2] at this
      exact this
    refine ⟨by rw [hnv, hnv2]; exact hb, ?_⟩
    rw [litTrue_congr h2 l]
    exact hTt

/-- `Unwind s ext t`: `t` is obtained from (an `EqU`-copy of) `s` by making
the assignments listed in `ext` (most recent first), each made from a
well-formed state on an unfixed literal, with junk edits interleaved. -/
def Unwind : Solver → List Nat → Solver → Prop
  | s, [], t => EqU s t ∧ t.assigned = s.assigned
  | s, u :: ext, t => ∃ mid, Unwind s ext mid ∧ WF mid ∧ u < 2 * mid.n_vars ∧
      (getLit mid u).fixed = false ∧ EqU (make_assignment mid u) t ∧
      t.assigned = u :: mid.assigned

theorem Unwind_eqU_right {s : Solver} {ext : List Nat} {t t' : Solver}
    (h : Unwind s ext t) (h2 : EqU t t') (h3 : t'.assigned = t.assigned) :
    Unwind s ext t' := by
  cases ext with
  | nil => exact ⟨EqU_trans h.1 h2, h3.trans h.2⟩
  | cons u ext =>
    obtain ⟨mid, h1, hWF, hu, hfu, hEq, htr⟩ := h
    exact ⟨mid, h1, hWF, hu, hfu, EqU_trans hEq h2, h3.trans htr⟩

theorem Unwind_trail {s : Solver} : ∀ {ext : List Nat} {t : Solver},
    Unwind s ext t → t.assigned = ext ++ s.assigned := by
  intro ext
  induction ext with
  | nil => exact fun h => h.2
  | cons u ext ih =>
    intro t h
    obtain ⟨mid, h1, -, -, -, -, htr⟩ := h
    rw [htr, ih h1]
    rfl

theorem popUndo_step (n : Nat) (t : Solver) (u : Nat) (rest : List Nat)
    (h : t.assigned = u :: rest) :
    popUndo (n + 1) t = popUndo n (undo_assignment { t with assigned := rest } u) := by
  conv_lhs => rw [popUndo]
  rw [h]

theorem popUndo_unwind {s : Solver} : ∀ {ext : List Nat} {t : Solver},
    Unwind s ext t →
    EqU s (popUndo ext.length t) ∧ (popUndo ext.length t).assigned = s.assigned := by
  intro ext
  induction ext with
  | nil => exact fun h => h
  | cons u ext ih =>
    intro t h
    obtain ⟨mid, h1, hWFmid, hu, hfu, hEq, htr⟩ := h
    rw [List.length_cons, popUndo_step ext.length t u mid.assigned htr]
    have e1 : EqU (make_assignment mid u) { t with assigned := mid.assigned } :=
      EqU_set_trail hEq _
    have e2 : EqU (undo_assignment (make_assignment mid u) u)
        (undo_assignment { t with assigned := mid.assigned } u) := undo_EqU e1 u
    obtain ⟨r1, r2⟩ := undo_make_roundtrip mid u hWFmid hu hfu
    have e3 : EqU mid (undo_assignment { t with assigned := mid.assigned } u) :=
      EqU_trans r1 e2
    have e4 : (undo_assignment { t with assigned := mid.assigned } u).assigned
        = mid.assigned := undoA_assigned _ _
    exact ih (Unwind_eqU_right h1 e3 e4)

/-- Truth value of literal `l` under a total assignment of the variables. -/
def litSat (α : Nat → Bool) (l : Nat) : Bool :=
  if l % 2 = 0 then α (l / 2) else ! (α (l / 2))

/-- `α` agrees with every currently fixed literal of `s`. -/
def AgreesFixed (α : Nat → Bool) (s : Solver) : Prop :=
  ∀ l, l < 2 * s.n_vars → (getLit s l).fixed = true →
    litSat α l = (getLit s l).assigned

/-- `α` satisfies every clause of `s`. -/
def SatAll (α : Nat → Bool) (s : Solver) : Prop :=
  ∀ ci, ci < s.n_clauses → ∃ l ∈ (getClause s ci).lits, litSat α l = true

/-- Literal `u` is forced: every satisfying assignment that agrees with the
current fixed literals makes it true. -/
def Forced (s : Solver) (u : Nat) : Prop :=
  ∀ α, AgreesFixed α s → SatAll α s → litSat α u = true

/-- Same formula: clause literal lists and dimensions coincide. -/
def SameF (s t : Solver) : Prop :=
  t.n_vars = s.n_vars ∧ t.n_clauses = s.n_clauses ∧
  ∀ ci, (getClause t ci).lits = (getClause s ci).lits

/-- `t` extends the fixed assignment of `s`. -/
def Fixes (s t : Solver) : Prop :=
  ∀ l, (getLit s l).fixed = true →
    (getLit t l).fixed = true ∧ (getLit t l).assigned = (getLit s l).assigned

theorem SameF_refl (s : Solver) : SameF s s := ⟨rfl, rfl, fun _ => rfl⟩

theorem SameF_trans {a b c : Solver} (h1 : SameF a b) (h2 : SameF b c) : SameF a c :=
  ⟨h2.1.trans h1.1, h2.2.1.trans h1.2.1, fun ci => (h2.2.2 ci).trans (h1.2.2 ci)⟩

theorem Fixes_refl (s : Solver) : Fixes s s := fun _ h => ⟨h, rfl⟩

theorem Fixes_trans {a b c : Solver} (h1 : Fixes a b) (h2 : Fixes b c) : Fixes a c := by
  intro l h
  obtain ⟨f1, a1⟩ := h1 l h
  obtain ⟨f2, a2⟩ := h2 l f1
  exact ⟨f2, a2.trans a1⟩

theorem SameF_of_EqU {s t : Solver} (h : EqU s t) : SameF s t :=
  ⟨h.1, h.2.1, fun ci => by rw [getClause_congr h.2.2.1 ci]⟩

theorem Fixes_of_EqU {s t : Solver} (h : EqU s t) : Fixes s t := by
  intro l hf
  obtain ⟨hfix, -, ha⟩ := h.2.2.2.2.2.2 l
  exact ⟨hfix.trans hf, ha hf⟩

theorem SatAll_transport {α : Nat → Bool} {s t : Solver} (h : SameF s t)
    (hs : SatAll α s) : SatAll α t := by
  intro ci hci
  obtain ⟨l, hl, hsat⟩ := hs ci (h.2.1 ▸ hci)
  exact ⟨l, (h.2.2 ci).symm ▸ hl, hsat⟩

theorem AgreesFixed_mono {α : Nat → Bool} {s t : Solver} (hnv : t.n_vars = s.n_vars)
    (hfx : Fixes s t) (hA : AgreesFixed α t) : AgreesFixed α s := by
  intro l hl hf
  obtain ⟨f1, a1⟩ := hfx l hf
  rw [← a1]
  exact hA l (hnv ▸ hl) f1

theorem Forced_mono {s t : Solver} {u : Nat} (h : Forced s u) (hS : SameF s t)
    (hfx : Fixes s t) : Forced t u := by
  intro α hA hSat
  refine h α (AgreesFixed_mono hS.1 hfx hA) ?_
  intro ci hci
  obtain ⟨l, hl, hsat⟩ := hSat ci (hS.2.1 ▸ hci)
  exact ⟨l, (hS.2.2 ci) ▸ hl, hsat⟩

theorem litSat_negate (α : Nat → Bool) (l : Nat) :
    litSat α (negate l) = ! litSat α l := by
  unfold litSat
  rw [negate_eq]
  by_cases h : l % 2 = 0
  · rw [if_pos h, if_pos h]
    have h2 : ¬ ((l + 1) % 2 = 0) := by omega
    have h3 : (l + 1) / 2 = l / 2 := by omega
    rw [if_neg h2, h3]
  · rw [if_neg h, if_neg h]
    have h2 : (l - 1) % 2 = 0 := by omega
    have h3 : (l - 1) / 2 = l / 2 := by omega
    rw [if_pos h2, h3, Bool.not_not]

/-- All stack entries are in range and forced. -/
def StackForced (s : Solver) : Prop :=
  ∀ w ∈ s.unit_stack, w < 2 * s.n_vars ∧ Forced s w

theorem MakeEffect.clause_lits {s : Solver} {u : Nat} {M : Solver}
    (me : MakeEffect s u M) :
    ∀ ci, (getClause M ci).lits = (getClause s ci).lits := by
  intro ci
  by_cases hp : ci ∈ (getLit s u).cont_clauses
  · by_cases hn : ci ∈ (getLit s (negate u)).cont_clauses
    · rw [me.c_b ci hp hn]
    · rw [me.c_p ci hp hn]
  · by_cases hn : ci ∈ (getLit s (negate u)).cont_clauses
    · rw [me.c_n ci hn hp]
    · rw [me.c_out ci hp hn]

theorem make_effect_gen (t t' : Solver) (u : Nat) (hWF : WF t)
    (hu : u < 2 * t.n_vars) (hEq : EqU t t') :
    MakeEffect t' u (make_assignment t' u) := by
  have hnu : negate u < 2 * t.n_vars := negate_lt u t.n_vars hu
  refine make_effect t' u ?_ ?_ ?_ ?_ ?_ ?_
  · rw [hEq.2.2.2.2.2.1, hWF.lits_len]
    exact hu
  · rw [hEq.2.2.2.2.2.1, hWF.lits_len]
    exact hnu
  · rw [(hEq.2.2.2.2.2.2 u).2.1]
    exact hWF.occ_nodup u hu
  · rw [(hEq.2.2.2.2.2.2 (negate u)).2.1]
    exact hWF.occ_nodup (negate u) hnu
  · rw [(hEq.2.2.2.2.2.2 u).2.1, congrArg List.length hEq.2.2.1, hWF.clauses_len]
    exact fun ci hci => (hWF.occ_sound u hu ci hci).1
  · rw [(hEq.2.2.2.2.2.2 (negate u)).2.1, congrArg List.length hEq.2.2.1, hWF.clauses_len]
    exact fun ci hci => (hWF.occ_sound (negate u) hnu ci hci).1

theorem make_SameF_gen {t t' : Solver} {u : Nat} (hWF : WF t)
    (hu : u < 2 * t.n_vars) (hEq : EqU t t') :
    SameF t (make_assignment t' u) := by
  have me := make_effect_gen t t' u hWF hu hEq
  refine ⟨me.nv.trans hEq.1, me.nc.trans hEq.2.1, fun ci => ?_⟩
  rw [me.clause_lits ci, getClause_congr hEq.2.2.1 ci]

theorem make_Fixes_gen {t t' : Solver} {u : Nat} (hWF : WF t)
    (hu : u < 2 * t.n_vars) (hfu : (getLit t u).fixed = false) (hEq : EqU t t') :
    Fixes t (make_assignment t' u) := by
  have me := make_effect_gen t t' u hWF hu hEq
  have hfn : (getLit t (negate u)).fixed = false := by
    rw [← hWF.pair_fixed u hu]
    exact hfu
  intro l hfx
  by_cases h1 : l = u
  · subst h1
    rw [hfu] at hfx
    cases hfx
  · by_cases h2 : l = negate u
    · subst h2
      rw [hfn] at hfx
      cases hfx
    · rw [me.lit_other l h1 h2]
      obtain ⟨hf, -, ha⟩ := hEq.2.2.2.2.2.2 l
      exact ⟨hf.trans hfx, ha hfx⟩

theorem make_agrees_gen {t t' : Solver} {u : Nat} {α : Nat → Bool} (hWF : WF t)
    (hu : u < 2 * t.n_vars) (hEq : EqU t t')
    (hA : AgreesFixed α t) (hsat : litSat α u = true) :
    AgreesFixed α (make_assignment t' u) := by
  have me := make_effect_gen t t' u hWF hu hEq
  intro l hl hf
  by_cases h1 : l = u
  · subst h1
    rw [me.lit_u]
    exact hsat
  · by_cases h2 : l = negate u
    · subst h2
      rw [me.lit_nu, litSat_negate, hsat]
      rfl
    · rw [me.lit_other l h1 h2]
      rw [me.lit_other l h1 h2] at hf
      obtain ⟨hfix, -, ha⟩ := hEq.2.2.2.2.2.2 l
      have hft : (getLit t l).fixed = true := hfix ▸ hf
      have hb : l < 2 * t.n_vars := by
        rw [← hEq.1, ← me.nv]
        exact hl
      rw [ha hft]
      exact hA l hb hft

theorem get_unit_mem (s : Solver) (ci : Nat)
    (h : 0 < (getClause s ci).lits.countP (litFree s)) :
    get_unit s ci ∈ (getClause s ci).lits ∧
    (getLit s (get_unit s ci)).fixed = false := by
  obtain ⟨x, hx, hpx⟩ := List.countP_pos_iff.mp h
  unfold litFree at hpx
  unfold get_unit
  cases hfind : (getClause s ci).lits.find? (fun lit => ! (getLit s lit).fixed) with
  | none =>
    exfalso
    exact (List.find?_eq_none.mp hfind x hx) hpx
  | some w =>
    have h1 := List.find?_some hfind
    have h2 := List.mem_of_find?_eq_some hfind
    simp only []
    constructor
    · exact h2
    · simp at h1
      exact h1

theorem make_StackForced_gen {t t' : Solver} {u : Nat} (hWF : WF t)
    (hu : u < 2 * t.n_vars) (hfu : (getLit t u).fixed = false)
    (hEq : EqU t t') (htr : t'.assigned = u :: t.assigned)
    (hsf : ∀ w ∈ t'.unit_stack, w < 2 * t.n_vars ∧ Forced t w) :
    StackForced (make_assignment t' u) := by
  have me := make_effect_gen t t' u hWF hu hEq
  have hWFM : WF (make_assignment t' u) := make_WF_gen t t' u hWF hu hfu hEq htr
  have hSameF : SameF t (make_assignment t' u) := make_SameF_gen hWF hu hEq
  have hFixes : Fixes t (make_assignment t' u) := make_Fixes_gen hWF hu hfu hEq
  have hnvM : (make_assignment t' u).n_vars = t.n_vars := me.nv.trans hEq.1
  intro w hw
  rw [me.stack] at hw
  rcases List.mem_append.mp hw with hpush | hold
  · obtain ⟨ci, hcimem, rfl⟩ := List.mem_map.mp hpush
    rw [List.mem_reverse] at hcimem
    obtain ⟨hciN, hcond⟩ := List.mem_filter.mp hcimem
    have hciP : ci ∉ (getLit t' u).cont_clauses := by
      intro hc
      rw [if_pos hc] at hcond
      cases hcond
    rw [if_neg hciP] at hcond
    simp only [Bool.and_eq_true, beq_iff_eq] at hcond
    obtain ⟨ht0, hf2⟩ := hcond
    have hciN_t : ci ∈ (getLit t (negate u)).cont_clauses := by
      rw [← (hEq.2.2.2.2.2.2 (negate u)).2.1]
      exact hciN
    have hciB : ci < t.n_clauses :=
      (hWF.occ_sound (negate u) (negate_lt u t.n_vars hu) ci hciN_t).1
    have hciBM : ci < (make_assignment t' u).n_clauses := by
      rw [me.nc, hEq.2.1]
      exact hciB
    have hMc := me.c_n ci hciN hciP
    have htrue0 : (getClause (make_assignment t' u) ci).n_assigned_true = 0 := by
      rw [hMc]
      exact ht0
    have hfree1 : (getClause (make_assignment t' u) ci).n_free_lits = 1 := by
      rw [hMc]
      show (getClause t' ci).n_free_lits - 1 = 1
      omega
    obtain ⟨ctM, cfM, crM⟩ := hWFM.counters ci hciBM
    have hposfree : 0 < (getClause (make_assignment t' u) ci).lits.countP
        (litFree (make_assignment t' u)) := by
      rw [← crM]
      omega
    obtain ⟨humem, hufix⟩ := get_unit_mem (make_assignment t' u) ci hposfree
    refine ⟨hWFM.lits_range ci hciBM _ humem, ?_⟩
    intro β hA hS
    obtain ⟨lit, hlmem, hlsat⟩ := hS ci hciBM
    have hallT : ∀ y ∈ (getClause (make_assignment t' u) ci).lits,
        litTrue (make_assignment t' u) y = false := by
      intro y hy
      have hz : (getClause (make_assignment t' u) ci).lits.countP
          (litTrue (make_assignment t' u)) = 0 := by
        rw [← ctM]
        exact htrue0
      have := List.countP_eq_zero.mp hz y hy
      rw [Bool.not_eq_true] at this
      exact this
    by_cases hlw : lit = get_unit (make_assignment t' u) ci
    · exact hlw ▸ hlsat
    · by_cases hlf : (getLit (make_assignment t' u) lit).fixed = true
      · have hTl := hallT lit hlmem
        have hassigned : (getLit (make_assignment t' u) lit).assigned = false := by
          unfold litTrue at hTl
          rw [hlf] at hTl
          simpa using hTl
        have hb : lit < 2 * (make_assignment t' u).n_vars :=
          hWFM.lits_range ci hciBM lit hlmem
        have hAl := hA lit hb hlf
        rw [hassigned] at hAl
        rw [hAl] at hlsat
        cases hlsat
      · have hlfix : (getLit (make_assignment t' u) lit).fixed = false := by
          revert hlf
          cases (getLit (make_assignment t' u) lit).fixed <;> simp
        have hlfree : litFree (make_assignment t' u) lit = true := by
          unfold litFree
          rw [hlfix]
          rfl
        have hwfree : litFree (make_assignment t' u) (get_unit (make_assignment t' u) ci)
            = true := by
          unfold litFree
          rw [hufix]
          rfl
        have h2 : 2 ≤ (getClause (make_assignment t' u) ci).lits.countP
            (litFree (make_assignment t' u)) :=
          countP_ge_two _ (litFree (make_assignment t' u)) lit
            (get_unit (make_assignment t' u) ci) hlmem humem hlw hlfree hwfree
        rw [← crM] at h2
        omega
  · obtain ⟨hb, hf⟩ := hsf w hold
    exact ⟨by rw [hnvM]; exact hb, Forced_mono hf hSameF hFixes⟩

theorem WF_set_stack (t : Solver) (X : List Nat) (h : WF t) :
    WF { t with unit_stack := X } :=
  ⟨h.lits_len, h.clauses_len, h.lits_range, h.lits_nodup, h.counters, h.sat_count,
   h.unsat_count, h.occ_sound, h.occ_complete, h.occ_nodup, h.pair_fixed,
   h.pair_assigned, h.trail_true⟩

/-- The grand unit-propagation lemma: propagation preserves well-formedness,
is a chain of forced assignments (so it can be unwound), empties the stack,
only extends the fixed assignment, and is sound: a conflict refutes every
agreeing satisfying assignment, and a conflict-free exit keeps agreeing
assignments agreeing. -/
theorem prop_loop_good : ∀ (fuel : Nat) (s0 : Solver) (ext : List Nat)
    (t t2 : Solver) (c : Bool),
    WF t → Unwind s0 ext t → StackForced t →
    prop_loop fuel t = some (t2, c) →
    (∃ ext2, Unwind s0 ext2 t2) ∧ WF t2 ∧ t2.unit_stack = [] ∧
    SameF t t2 ∧ Fixes t t2 ∧
    (c = true → ∀ α, AgreesFixed α t → SatAll α t → False) ∧
    (c = false → ∀ α, AgreesFixed α t → SatAll α t → AgreesFixed α t2) := by
  intro fuel
  induction fuel with
  | zero =>
    intro s0 ext t t2 c _ _ _ h
    exact absurd h (by simp [prop_loop])
  | succ fuel ih =>
    intro s0 ext t t2 c hWF hUn hSF hp
    rw [prop_loop] at hp
    split at hp
    · next heq =>
      rcases Option.some.inj hp with ⟨rfl, rfl⟩
      exact ⟨⟨ext, hUn⟩, hWF, heq, SameF_refl t, Fixes_refl t,
        fun hc => absurd hc Bool.false_ne_true, fun _ α h _ => h⟩
    · next unit rest heq =>
      simp only [] at hp
      have hmemu : unit ∈ t.unit_stack := by
        rw [heq]
        exact List.mem_cons_self _ _
      have hu : unit < 2 * t.n_vars := (hSF unit hmemu).1
      split at hp
      · next hfix =>
        have hfu : (getLit t unit).fixed = false := hfix
        have key := fun h1 h2 h3 => ih s0 (unit :: ext) _ t2 c h1 h2 h3 hp
        obtain ⟨hex2, hWF2, hst2, hSame2, hFix2, hcT, hcF⟩ :=
          key (make_WF_gen t _ unit hWF hu hfu (EqU_refl t) rfl)
            ⟨t, hUn, hWF, hu, hfu, by refine make_EqU ?_ unit; exact EqU_refl t,
              (make_assigned _ unit).trans rfl⟩
            (make_StackForced_gen hWF hu hfu (EqU_refl t) rfl
              (fun w hw => hSF w (by rw [heq]; exact List.mem_cons_of_mem _ hw)))
        refine ⟨hex2, hWF2, hst2, SameF_trans ?_ hSame2, Fixes_trans ?_ hFix2, ?_, ?_⟩
        · exact make_SameF_gen hWF hu (EqU_refl t)
        · exact make_Fixes_gen hWF hu hfu (EqU_refl t)
        · intro hc α hA hS
          have hsu : litSat α unit = true := (hSF unit hmemu).2 α hA hS
          exact hcT hc α (make_agrees_gen hWF hu (EqU_refl t) hA hsu)
            (SatAll_transport (make_SameF_gen hWF hu (EqU_refl t)) hS)
        · intro hc α hA hS
          have hsu : litSat α unit = true := (hSF unit hmemu).2 α hA hS
          exact hcF hc α (make_agrees_gen hWF hu (EqU_refl t) hA hsu)
            (SatAll_transport (make_SameF_gen hWF hu (EqU_refl t)) hS)
      · next hfix =>
        split at hp
        · next hass =>
          rcases Option.some.inj hp with ⟨rfl, rfl⟩
          refine ⟨⟨ext, Unwind_eqU_right hUn (EqU_refl t) rfl⟩,
            WF_set_stack _ _ hWF, rfl, SameF_refl t, Fixes_refl t, ?_, ?_⟩
          · intro _ α hA hS
            have hsu : litSat α unit = true := (hSF unit hmemu).2 α hA hS
            have hft : (getLit t unit).fixed = true := by
              have hfix' : ¬ ((getLit t unit).fixed = false) := hfix
              revert hfix'
              cases (getLit t unit).fixed <;> simp
            have hAu := hA unit hu hft
            have hass' : (getLit t unit).assigned = false := hass
            rw [hass'] at hAu
            rw [hAu] at hsu
            cases hsu
          · intro hc
            exact Bool.noConfusion hc
        · next hass =>
          obtain ⟨hex2, hWF2, hst2, hSame2, hFix2, hcT, hcF⟩ :=
            ih s0 ext _ t2 c (WF_set_stack t rest hWF)
              (Unwind_eqU_right hUn (EqU_refl t) rfl)
              (fun w hw => hSF w (by rw [heq]; exact List.mem_cons_of_mem _ hw))
              hp
          exact ⟨hex2, hWF2, hst2, hSame2, hFix2, hcT, hcF⟩


theorem AgreesFixed_EqU {α : Nat → Bool} {s t : Solver} (h : EqU s t)
    (hA : AgreesFixed α s) : AgreesFixed α t := by
  intro l hl hf
  obtain ⟨hfix, -, ha⟩ := h.2.2.2.2.2.2 l
  have hfs : (getLit s l).fixed = true := hfix ▸ hf
  rw [ha hfs]
  exact hA l (h.1 ▸ hl) hfs

/-- Induction statement for `search_assignments`: soundness of UNSATISFIABLE
answers (with full state restoration) and validity of SATISFIABLE answers. -/
def SearchGood (fuel : Nat) : Prop :=
  ∀ s res s', WF s → s.unit_stack = [] →
    search_assignments fuel s = some (res, s') →
    (res = SOLUTION_UNSATISFIABLE →
      EqU s s' ∧ s'.assigned = s.assigned ∧ s'.unit_stack = [] ∧
      (∀ α, AgreesFixed α s → SatAll α s → False)) ∧
    (res ≠ SOLUTION_UNSATISFIABLE →
      res = SOLUTION_SATISFIABLE ∧ WF s' ∧ s'.n_sat_clauses = s'.n_clauses ∧
      SameF s s' ∧ Fixes s s' ∧ ∃ ext, s'.assigned = ext ++ s.assigned)

/-- Companion statement for `try_assignment`. -/
def TryGood (fuel : Nat) : Prop :=
  ∀ s b res s', WF s → s.unit_stack = [] → b < 2 * s.n_vars →
    (getLit s b).fixed = false →
    try_assignment_gen (search_assignments fuel) fuel s b = some (res, s') →
    (res = SOLUTION_UNSATISFIABLE →
      EqU s s' ∧ s'.assigned = s.assigned ∧ s'.unit_stack = [] ∧
      (∀ α, AgreesFixed α s → SatAll α s → litSat α b = true → False)) ∧
    (res ≠ SOLUTION_UNSATISFIABLE →
      res = SOLUTION_SATISFIABLE ∧ WF s' ∧ s'.n_sat_clauses = s'.n_clauses ∧
      SameF s s' ∧ Fixes s s' ∧ ∃ ext, s'.assigned = ext ++ s.assigned)

theorem try_good (fuel : Nat) (hS : SearchGood fuel) : TryGood fuel := by
  intro s b res s' hWF hstk hb hfb htry
  simp only [try_assignment_gen] at htry
  have hUn1 : Unwind s ([] : List Nat) s := ⟨EqU_refl s, rfl⟩
  have hSameM : SameF s (make_assignment { s with t_branches := s.t_branches + 1, assigned := b :: s.assigned } b) := make_SameF_gen hWF hb (EqU_refl s)
  have hFixesM : Fixes s (make_assignment { s with t_branches := s.t_branches + 1, assigned := b :: s.assigned } b) := make_Fixes_gen hWF hb hfb (EqU_refl s)
  split at htry
  · exact Option.noConfusion htry
  · next s3 heq =>
    rcases Option.some.inj htry with ⟨rfl, rfl⟩
    have key := fun h1 h2 h3 => prop_loop_good fuel s [b] _ s3 true h1 h2 h3 heq
    obtain ⟨⟨ext2, hUn2⟩, hWF3, hst3, hSame3, hFix3, hcT, -⟩ :=
      key (make_WF_gen s _ b hWF hb hfb (EqU_refl s) rfl)
        ⟨s, hUn1, hWF, hb, hfb, by refine make_EqU ?_ b; exact EqU_refl s,
          (make_assigned _ b).trans rfl⟩
        (make_StackForced_gen hWF hb hfb (EqU_refl s) rfl
          (fun w hw => absurd (show w ∈ s.unit_stack from hw)
            (by rw [hstk]; exact List.not_mem_nil w)))
    have htrail : s3.assigned = ext2 ++ s.assigned := Unwind_trail hUn2
    have hcount : s3.assigned.length - s.assigned.length = ext2.length := by
      rw [htrail]
      simp
    rw [hcount]
    obtain ⟨hEqU, htr⟩ := popUndo_unwind hUn2
    refine ⟨fun _ => ⟨hEqU, htr, (popUndo_unit_stack _ _).trans hst3, ?_⟩,
      fun hne => absurd rfl hne⟩
    intro α hA hS' hbsat
    exact hcT rfl α (make_agrees_gen hWF hb (EqU_refl s) hA hbsat)
      (SatAll_transport hSameM hS')
  · next s3 heq =>
    have key := fun h1 h2 h3 => prop_loop_good fuel s [b] _ s3 false h1 h2 h3 heq
    obtain ⟨⟨ext2, hUn2⟩, hWF3, hst3, hSame3, hFix3, -, hcF⟩ :=
      key (make_WF_gen s _ b hWF hb hfb (EqU_refl s) rfl)
        ⟨s, hUn1, hWF, hb, hfb, by refine make_EqU ?_ b; exact EqU_refl s,
          (make_assigned _ b).trans rfl⟩
        (make_StackForced_gen hWF hb hfb (EqU_refl s) rfl
          (fun w hw => absurd (show w ∈ s.unit_stack from hw)
            (by rw [hstk]; exact List.not_mem_nil w)))
    have htrail : s3.assigned = ext2 ++ s.assigned := Unwind_trail hUn2
    split at htry
    · exact Option.noConfusion htry
    · next sol s4 heq2 =>
      obtain ⟨hIHU, hIHS⟩ := hS s3 sol s4 hWF3 hst3 heq2
      split at htry
      · next hsol =>
        rcases Option.some.inj htry with ⟨rfl, rfl⟩
        obtain ⟨hEq34, htr34, hst4, hsound3⟩ := hIHU hsol
        have hUn4 : Unwind s ext2 s4 := Unwind_eqU_right hUn2 hEq34 htr34
        have hcount : s4.assigned.length - s.assigned.length = ext2.length := by
          rw [htr34, htrail]
          simp
        rw [hcount]
        obtain ⟨hEqU, htr⟩ := popUndo_unwind hUn4
        refine ⟨fun _ => ⟨hEqU, htr, (popUndo_unit_stack _ _).trans hst4, ?_⟩,
          fun hne => absurd rfl hne⟩
        intro α hA hS' hbsat
        have hA3 : AgreesFixed α s3 :=
          hcF rfl α (make_agrees_gen hWF hb (EqU_refl s) hA hbsat)
            (SatAll_transport hSameM hS')
        have hS3 : SatAll α s3 :=
          SatAll_transport (SameF_trans hSameM hSame3) hS'
        exact hsound3 α hA3 hS3
      · next hsol =>
        rcases Option.some.inj htry with ⟨rfl, rfl⟩
        obtain ⟨hsat', hWF4, hns4, hSame34, hFix34, ext3, hext34⟩ := hIHS hsol
        refine ⟨fun hU => absurd hU hsol, fun _ => ⟨hsat', hWF4, hns4, ?_, ?_, ?_⟩⟩
        · exact SameF_trans (SameF_trans hSameM hSame3) hSame34
        · exact Fixes_trans (Fixes_trans hFixesM hFix3) hFix34
        · exact ⟨ext3 ++ ext2, by rw [hext34, htrail, List.append_assoc]⟩

theorem exists_not_of_countP_lt : ∀ (l : List ClauseState) (p : ClauseState → Bool),
    l.countP p < l.length →
    ∃ i, ∃ h : i < l.length, p (l.getD i default) = false := by
  intro l p
  induction l with
  | nil =>
    intro h
    simp at h
  | cons c t ih =>
    intro h
    rw [List.countP_cons] at h
    by_cases hp : p c = true
    · rw [hp, if_pos rfl] at h
      have h' : t.countP p < t.length := by
        simp only [List.length_cons] at h
        omega
      obtain ⟨i, hi, hpi⟩ := ih h'
      refine ⟨i + 1, by simpa using hi, ?_⟩
      simpa using hpi
    · have hpc : p c = false := by
        revert hp
        cases p c <;> simp
      exact ⟨0, by simp, by simpa using hpc⟩

theorem exists_unfixed_var (s : Solver) (hWF : WF s)
    (hcontra : ¬ any_contradiction s = true) (hallsat : ¬ all_satisfied s = true) :
    ∃ v, v < s.n_vars ∧ (getLit s (2 * v)).fixed = false := by
  have hunsat0 : s.n_unsat_clauses = 0 := by
    unfold any_contradiction at hcontra
    simp at hcontra
    omega
  have hnsat_ne : s.n_sat_clauses ≠ s.n_clauses := by
    unfold all_satisfied at hallsat
    simpa using hallsat
  have hle : s.clauses.countP clauseSatisfied ≤ s.clauses.length :=
    List.countP_le_length clauseSatisfied
  have hlt : s.clauses.countP clauseSatisfied < s.clauses.length := by
    have h1 := hWF.sat_count
    have h2 := hWF.clauses_len
    omega
  obtain ⟨i, hi, hnots⟩ := exists_not_of_countP_lt s.clauses clauseSatisfied hlt
  have hnots' : clauseSatisfied (getClause s i) = false := hnots
  have hi2 : i < s.n_clauses := hWF.clauses_len ▸ hi
  have htrue0 : (getClause s i).n_assigned_true = 0 := by
    unfold clauseSatisfied at hnots'
    simpa using hnots'
  have hmem : getClause s i ∈ s.clauses := by
    have h1 : getClause s i = s.clauses[i] :=
      List.getD_eq_getElem s.clauses default hi
    rw [h1]
    exact List.getElem_mem hi
  have hnotc : clauseContradicted (getClause s i) = false := by
    have hz : s.clauses.countP clauseContradicted = 0 := by
      rw [← hWF.unsat_count]
      exact hunsat0
    have := List.countP_eq_zero.mp hz _ hmem
    revert this
    cases clauseContradicted (getClause s i) <;> simp
  have hfreepos : 0 < (getClause s i).n_free_lits := by
    unfold clauseContradicted at hnotc
    simp [htrue0] at hnotc
    omega
  have hcnt := (hWF.counters i hi2).2.2
  have hfree : 0 < (getClause s i).lits.countP (litFree s) := by omega
  obtain ⟨lit, hlmem, hlfree⟩ := List.countP_pos_iff.mp hfree
  have hlfix : (getLit s lit).fixed = false := by
    unfold litFree at hlfree
    simpa using hlfree
  have hlb : lit < 2 * s.n_vars := hWF.lits_range i hi2 lit hlmem
  refine ⟨lit / 2, by omega, ?_⟩
  by_cases hp : lit % 2 = 0
  · have h2l : 2 * (lit / 2) = lit := by omega
    rw [h2l]
    exact hlfix
  · have hb2 : 2 * (lit / 2) + 1 = lit := by omega
    have hneg : negate (2 * (lit / 2)) = lit := by
      unfold negate
      rw [two_mul_xor_one]
      exact hb2
    have hbound : 2 * (lit / 2) < 2 * s.n_vars := by omega
    rw [hWF.pair_fixed (2 * (lit / 2)) hbound, hneg]
    exact hlfix

theorem branch_fixed_false (s : Solver) (hWF : WF s) {b : Nat}
    (h1 : (getLit s (2 * (b / 2))).fixed = false) (h2 : b < 2 * s.n_vars) :
    (getLit s b).fixed = false := by
  by_cases hp : b % 2 = 0
  · have hb2 : 2 * (b / 2) = b := by omega
    rw [← hb2]
    exact h1
  · have hb2 : 2 * (b / 2) + 1 = b := by omega
    have hneg : negate (2 * (b / 2)) = b := by
      unfold negate
      rw [two_mul_xor_one]
      exact hb2
    have hbound : 2 * (b / 2) < 2 * s.n_vars := by omega
    rw [← hneg, ← hWF.pair_fixed (2 * (b / 2)) hbound]
    exact h1

theorem update_scores_EqU (s : Solver) : EqU s (update_scores s) := by
  obtain ⟨h1, h2, h3, h4, h5, h6, h7, h8, h9, h10, h11⟩ := update_scores_nonLits s
  refine ⟨h1, h2, h3, h4, h5, h11, fun l => ?_⟩
  obtain ⟨hf, ha, hc⟩ := update_scores_flags s l
  exact ⟨hf, hc, fun _ => ha⟩

theorem update_scores_WF (s : Solver) (hWF : WF s) : WF (update_scores s) :=
  WF_of_EqU hWF (update_scores_EqU s) (update_scores_nonLits s).2.2.2.2.2.2.1

theorem search_good : ∀ fuel, SearchGood fuel := by
  intro fuel
  induction fuel with
  | zero =>
    intro s res s' _ _ h
    exact Option.noConfusion h
  | succ fuel ih =>
    have htry := try_good fuel ih
    intro s res s' hWF hstk hsearch
    rw [search_assignments] at hsearch
    split at hsearch
    · next hcontra =>
      rcases Option.some.inj hsearch with ⟨rfl, rfl⟩
      refine ⟨fun _ => ⟨EqU_refl s, rfl, hstk, ?_⟩, fun hne => absurd rfl hne⟩
      intro α hA hS'
      unfold any_contradiction at hcontra
      simp at hcontra
      have hpos : 0 < s.clauses.countP clauseContradicted := by
        rw [← hWF.unsat_count]
        omega
      obtain ⟨c, hcmem, hcp⟩ := List.countP_pos_iff.mp hpos
      obtain ⟨i, hilen, hieq⟩ := List.getElem_of_mem hcmem
      have hgc : getClause s i = c :=
        (List.getD_eq_getElem s.clauses default hilen).trans hieq
      have hcp' : clauseContradicted (getClause s i) = true := by
        rw [hgc]
        exact hcp
      have hi2 : i < s.n_clauses := hWF.clauses_len ▸ hilen
      obtain ⟨lit, hlmem, hlsat⟩ := hS' i hi2
      unfold clauseContradicted at hcp'
      simp only [Bool.and_eq_true, beq_iff_eq] at hcp'
      obtain ⟨ct0, cf0⟩ := hcp'
      obtain ⟨hct, -, hcr⟩ := hWF.counters i hi2
      have hzt : (getClause s i).lits.countP (litTrue s) = 0 := by omega
      have hzr : (getClause s i).lits.countP (litFree s) = 0 := by omega
      have hnt : litTrue s lit = false := by
        have := List.countP_eq_zero.mp hzt lit hlmem
        revert this
        cases litTrue s lit <;> simp
      have hnf : litFree s lit = false := by
        have := List.countP_eq_zero.mp hzr lit hlmem
        revert this
        cases litFree s lit <;> simp
      have hfx : (getLit s lit).fixed = true := by
        unfold litFree at hnf
        simpa using hnf
      have has : (getLit s lit).assigned = false := by
        unfold litTrue at hnt
        rw [hfx] at hnt
        simpa using hnt
      have hbd : lit < 2 * s.n_vars := hWF.lits_range i hi2 lit hlmem
      have hAl := hA lit hbd hfx
      rw [has] at hAl
      rw [hAl] at hlsat
      cases hlsat
    · next hcontra =>
      split at hsearch
      · next hallsat =>
        rcases Option.some.inj hsearch with ⟨rfl, rfl⟩
        refine ⟨fun hU => Solution.noConfusion hU, fun _ => ⟨rfl, hWF, ?_,
          SameF_refl s, Fixes_refl s, [], rfl⟩⟩
        unfold all_satisfied at hallsat
        simpa using hallsat
      · next hallsat =>
        simp only [] at hsearch
        obtain ⟨v, hv, hvfix⟩ := exists_unfixed_var s hWF hcontra hallsat
        have hcb := choose_branch_unassigned s ⟨v, hv, hvfix⟩
        have hfixb : (getLit s (choose_branch s).2).fixed = false :=
          branch_fixed_false s hWF hcb.1 hcb.2
        have hstkus : ((choose_branch s).1).unit_stack = [] := by
          have h6 : (update_scores s).unit_stack = s.unit_stack :=
            (update_scores_nonLits s).2.2.2.2.2.1
          exact h6.trans hstk
        have hWFus : WF ((choose_branch s).1) := update_scores_WF s hWF
        have hbus : (choose_branch s).2 < 2 * ((choose_branch s).1).n_vars := by
          have h1 : (update_scores s).n_vars = s.n_vars := (update_scores_nonLits s).1
          show (choose_branch s).2 < 2 * (update_scores s).n_vars
          rw [h1]
          exact hcb.2
        have hfbus : (getLit ((choose_branch s).1) (choose_branch s).2).fixed = false := by
          show (getLit (update_scores s) (choose_branch s).2).fixed = false
          rw [(update_scores_flags s (choose_branch s).2).1]
          exact hfixb
        split at hsearch
        · exact Option.noConfusion hsearch
        · next sol1 s1' heq1 =>
          obtain ⟨hT1U, hT1S⟩ :=
            htry ((choose_branch s).1) ((choose_branch s).2) sol1 s1'
              hWFus hstkus hbus hfbus heq1
          split at hsearch
          · next hne =>
            rcases Option.some.inj hsearch with ⟨rfl, rfl⟩
            obtain ⟨hsat', hWF4, hns4, hSame4, hFix4, ext4, hext4⟩ := hT1S hne
            refine ⟨fun hU => absurd hU hne,
              fun _ => ⟨hsat', hWF4, hns4, ?_, ?_, ext4, ?_⟩⟩
            · exact SameF_trans (SameF_of_EqU (update_scores_EqU s)) hSame4
            · exact Fixes_trans (Fixes_of_EqU (update_scores_EqU s)) hFix4
            · rw [hext4]
              show ext4 ++ (update_scores s).assigned = ext4 ++ s.assigned
              rw [(update_scores_nonLits s).2.2.2.2.2.2.1]
          · next hne =>
            have hsol1 : sol1 = SOLUTION_UNSATISFIABLE := Decidable.of_not_not hne
            obtain ⟨hEq1, htr1, hstk1, hsound1⟩ := hT1U hsol1
            have hEqs1 : EqU s s1' := EqU_trans (update_scores_EqU s) hEq1
            have htrs1 : s1'.assigned = s.assigned := by
              rw [htr1]
              exact (update_scores_nonLits s).2.2.2.2.2.2.1
            have hWF1 : WF s1' := WF_of_EqU hWF hEqs1 htrs1
            have hb2 : negate ((choose_branch s).2) < 2 * s1'.n_vars := by
              rw [hEqs1.1]
              exact negate_lt _ _ hcb.2
            have hf2 : (getLit s1' (negate ((choose_branch s).2))).fixed = false := by
              rw [(hEqs1.2.2.2.2.2.2 (negate ((choose_branch s).2))).1,
                ← hWF.pair_fixed _ hcb.2]
              exact hfixb
            split at hsearch
            · exact Option.noConfusion hsearch
            · next sol2 s2' heq2 =>
              obtain ⟨hT2U, hT2S⟩ :=
                htry s1' (negate ((choose_branch s).2)) sol2 s2'
                  hWF1 hstk1 hb2 hf2 heq2
              split at hsearch
              · next hne2 =>
                rcases Option.some.inj hsearch with ⟨rfl, rfl⟩
                obtain ⟨hsat', hWF4, hns4, hSame4, hFix4, ext4, hext4⟩ := hT2S hne2
                refine ⟨fun hU => absurd hU hne2,
                  fun _ => ⟨hsat', hWF4, hns4, ?_, ?_, ext4, ?_⟩⟩
                · exact SameF_trans (SameF_of_EqU hEqs1) hSame4
                · exact Fixes_trans (Fixes_of_EqU hEqs1) hFix4
                · rw [hext4, htrs1]
              · next hne2 =>
                have hsol2 : sol2 = SOLUTION_UNSATISFIABLE := Decidable.of_not_not hne2
                rcases Option.some.inj hsearch with ⟨rfl, rfl⟩
                obtain ⟨hEq2, htr2, hstk2, hsound2⟩ := hT2U hsol2
                refine ⟨fun _ => ⟨EqU_trans hEqs1 hEq2, htr2.trans htrs1, hstk2, ?_⟩,
                  fun hne => absurd rfl hne⟩
                intro α hA hS'
                by_cases hsb : litSat α ((choose_branch s).2) = true
                · exact hsound1 α (AgreesFixed_EqU (update_scores_EqU s) hA)
                    (SatAll_transport (SameF_of_EqU (update_scores_EqU s)) hS') hsb
                · have hsnb : litSat α (negate ((choose_branch s).2)) = true := by
                    rw [litSat_negate]
                    revert hsb
                    cases litSat α ((choose_branch s).2) <;> simp
                  exact hsound2 α (AgreesFixed_EqU hEqs1 hA)
                    (SatAll_transport (SameF_of_EqU hEqs1) hS') hsnb


theorem nodup_bounded_length (cs : List Nat) (n : Nat) (hnd : cs.Nodup)
    (hb : ∀ x ∈ cs, x < n) : cs.length ≤ n := by
  have h1 : cs.toFinset ⊆ Finset.range n := by
    intro x hx
    rw [Finset.mem_range]
    exact hb x (List.mem_toFinset.mp hx)
  have h2 := Finset.card_le_card h1
  rw [Finset.card_range] at h2
  rw [← List.toFinset_card_of_nodup hnd]
  exact h2

theorem alc_unit_stack (s : Solver) (ci l : Nat) :
    (add_literal_to_clause s ci l).unit_stack = s.unit_stack := by
  simp only [add_literal_to_clause, setClause, setLit]
  split <;> rfl

theorem loadSolver_unit_stack (nv : Nat) (cls : List (List Int)) :
    (loadSolver nv cls).unit_stack = [] := by
  unfold loadSolver
  rw [foldl_preserves (fun t => t.unit_stack) _
    (fun t p => foldl_preserves (fun t => t.unit_stack) _
      (fun t r => alc_unit_stack t p.1 (lit_from_int r)) p.2 t) cls.enum _]
  rfl

/-- Floyd-style stack invariant: the stack is covered by a duplicate-free set
of clauses that are currently unit or dead (`n_free_lits ≤ 1`). -/
def UnitInv (s : Solver) : Prop :=
  ∃ cs : List Nat, cs.Nodup ∧
    (∀ ci ∈ cs, ci < s.n_clauses ∧ (getClause s ci).n_free_lits ≤ 1) ∧
    s.unit_stack.length ≤ cs.length

/-- C8: the stack never outgrows `n_clauses` (≤ the allocated
`2*n_vars + n_clauses`): the bound follows from the invariant, which holds in
a freshly loaded solver and is preserved by the only pushing operation
`add_false_assignment` (a clause can only be pushed while leaving the
`n_free_lits = 2` state), by `add_true_assignment`, by popping a unit, and by
`undo_assignment`, which the search only calls with an empty stack. -/
theorem unit_stack_within_capacity :
    (∀ s, UnitInv s → s.unit_stack.length ≤ s.n_clauses ∧
      s.n_clauses ≤ 2 * s.n_vars + s.n_clauses) ∧
    (∀ nv cls, UnitInv (loadSolver nv cls)) ∧
    (∀ s ci, ci < s.clauses.length → s.clauses.length = s.n_clauses →
      UnitInv s → UnitInv (add_false_assignment s ci)) ∧
    (∀ s ci, ci < s.clauses.length → s.clauses.length = s.n_clauses →
      UnitInv s → UnitInv (add_true_assignment s ci)) ∧
    (∀ s u rest, s.unit_stack = u :: rest → UnitInv s →
      UnitInv { s with unit_stack := rest }) ∧
    (∀ s lit, s.unit_stack = [] → UnitInv (undo_assignment s lit)) := by
  refine ⟨?_, ?_, ?_, ?_, ?_, ?_⟩
  · intro s hU
    obtain ⟨cs, hnd, hmem, hlen⟩ := hU
    have := nodup_bounded_length cs s.n_clauses hnd (fun x hx => (hmem x hx).1)
    omega
  · intro nv cls
    refine ⟨[], List.nodup_nil, fun ci hci => absurd hci (List.not_mem_nil ci), ?_⟩
    rw [loadSolver_unit_stack]
  · intro s ci hci hnc hU
    obtain ⟨cs, hnd, hmem, hlen⟩ := hU
    have hstk := addF_unit_stack_eq s ci hci
    by_cases hc : (getClause s ci).n_assigned_true = 0 ∧ (getClause s ci).n_free_lits = 2
    · rw [if_pos hc] at hstk
      refine ⟨ci :: cs, ?_, ?_, ?_⟩
      · refine List.nodup_cons.mpr ⟨?_, hnd⟩
        intro hmm
        have := (hmem ci hmm).2
        omega
      · intro cj hcj
        rcases List.mem_cons.mp hcj with rfl | hcj'
        · refine ⟨?_, ?_⟩
          · rw [addF_n_clauses]
            omega
          · rw [addF_getClause_self s cj hci]
            show (getClause s cj).n_free_lits - 1 ≤ 1
            omega
        · obtain ⟨h1, h2⟩ := hmem cj hcj'
          refine ⟨by rw [addF_n_clauses]; exact h1, ?_⟩
          by_cases hne : cj = ci
          · subst hne
            rw [addF_getClause_self s cj hci]
            show (getClause s cj).n_free_lits - 1 ≤ 1
            omega
          · rw [addF_getClause_other s ci cj hne]
            exact h2
      · rw [hstk]
        simp only [List.length_cons]
        omega
    · rw [if_neg hc] at hstk
      refine ⟨cs, hnd, ?_, by rw [hstk]; exact hlen⟩
      intro cj hcj
      obtain ⟨h1, h2⟩ := hmem cj hcj
      refine ⟨by rw [addF_n_clauses]; exact h1, ?_⟩
      by_cases hne : cj = ci
      · subst hne
        rw [addF_getClause_self s cj hci]
        show (getClause s cj).n_free_lits - 1 ≤ 1
        omega
      · rw [addF_getClause_other s ci cj hne]
        exact h2
  · intro s ci hci hnc hU
    obtain ⟨cs, hnd, hmem, hlen⟩ := hU
    refine ⟨cs, hnd, ?_, by rw [addT_unit_stack]; exact hlen⟩
    intro cj hcj
    obtain ⟨h1, h2⟩ := hmem cj hcj
    refine ⟨by rw [addT_n_clauses]; exact h1, ?_⟩
    by_cases hne : cj = ci
    · subst hne
      rw [addT_getClause_self s cj hci]
      show (getClause s cj).n_free_lits - 1 ≤ 1
      omega
    · rw [addT_getClause_other s ci cj hne]
      exact h2
  · intro s u rest hstk hU
    obtain ⟨cs, hnd, hmem, hlen⟩ := hU
    refine ⟨cs, hnd, fun cj hcj => hmem cj hcj, ?_⟩
    show rest.length ≤ cs.length
    rw [hstk] at hlen
    simp only [List.length_cons] at hlen
    omega
  · intro s lit hstk
    refine ⟨[], List.nodup_nil, fun ci hci => absurd hci (List.not_mem_nil ci), ?_⟩
    rw [undoA_unit_stack, hstk]

/-- Witness for C8 at a concrete freshly loaded solver. -/
theorem unit_stack_within_capacity_witness :
    UnitInv (loadSolver 2 [[1, 2]]) ∧
    (loadSolver 2 [[1, 2]]).unit_stack.length ≤ (loadSolver 2 [[1, 2]]).n_clauses := by
  have hU : UnitInv (loadSolver 2 [[1, 2]]) := ⟨[], by decide, by decide, by decide⟩
  exact ⟨hU, (unit_stack_within_capacity.1 (loadSolver 2 [[1, 2]]) hU).1⟩

/-- C1: completeness of a SATISFIABLE answer — from any well-formed solver
state with an empty unit stack (in particular a freshly loaded CNF), if
`search_assignments` returns SATISFIABLE then every input clause contains a
literal that is `fixed ∧ assigned` in the returned state: the recovered
assignment satisfies every clause. -/
theorem search_sat_complete (fuel : Nat) (s s' : Solver)
    (hWF : WF s) (hstk : s.unit_stack = [])
    (h : search_assignments fuel s = some (SOLUTION_SATISFIABLE, s')) :
    ∀ ci, ci < s.n_clauses →
      ∃ l ∈ (getClause s ci).lits, litTrue s' l = true := by
  obtain ⟨-, hS⟩ := search_good fuel s SOLUTION_SATISFIABLE s' hWF hstk h
  obtain ⟨-, hWF', hns, hSame, -⟩ := hS (fun hc => Solution.noConfusion hc)
  intro ci hci
  have hci' : ci < s'.n_clauses := by
    rw [hSame.2.1]
    exact hci
  have hlen : ci < s'.clauses.length := by
    rw [hWF'.clauses_len]
    exact hci'
  have hmem : getClause s' ci ∈ s'.clauses := by
    have h1 : getClause s' ci = s'.clauses[ci] :=
      List.getD_eq_getElem s'.clauses default hlen
    rw [h1]
    exact List.getElem_mem hlen
  have hall : ∀ c ∈ s'.clauses, clauseSatisfied c = true := by
    refine List.countP_eq_length.mp ?_
    rw [← hWF'.sat_count, hns, hWF'.clauses_len]
  have hsatc := hall _ hmem
  unfold clauseSatisfied at hsatc
  have htp : 0 < (getClause s' ci).n_assigned_true := by
    simp at hsatc
    omega
  obtain ⟨ct, -, -⟩ := hWF'.counters ci hci'
  have hpos : 0 < (getClause s' ci).lits.countP (litTrue s') := by omega
  obtain ⟨l, hl, hlt⟩ := List.countP_pos_iff.mp hpos
  rw [hSame.2.2 ci] at hl
  exact ⟨l, hl, hlt⟩

/-- The state returned by the concrete satisfiable run used as witness. -/
def searchSatResult : Solver :=
  { n_vars := 1
    n_clauses := 1
    lits := [{ fixed := true, assigned := true, score := 1, cont_clauses := [0] },
             { fixed := true, assigned := false, score := 0, cont_clauses := [] }]
    clauses := [{ lits := [0], n_assigned_true := 1, n_assigned_false := 0, n_free_lits := 0 }]
    n_sat_clauses := 1
    n_unsat_clauses := 0
    unit_stack := []
    assigned := [0]
    solution := SOLUTION_UNKNOWN
    t_branches := 1
    t_unit_props := 0 }

theorem search_sat_complete_witness :
    WF (loadSolver 1 [[1]]) ∧ (loadSolver 1 [[1]]).unit_stack = [] ∧
    ∀ ci, ci < (loadSolver 1 [[1]]).n_clauses →
      ∃ l ∈ (getClause (loadSolver 1 [[1]]) ci).lits,
        litTrue searchSatResult l = true := by
  have hWF : WF (loadSolver 1 [[1]]) := by constructor <;> decide
  have h : search_assignments 3 (loadSolver 1 [[1]])
      = some (SOLUTION_SATISFIABLE, searchSatResult) := by decide
  exact ⟨hWF, rfl, search_sat_complete 3 _ _ hWF rfl h⟩

/-- C2: soundness of an UNSATISFIABLE answer — from any well-formed solver
state with an empty unit stack and no fixed literal (a freshly loaded CNF),
if `search_assignments` returns UNSATISFIABLE then no total assignment of the
variables satisfies every clause. -/
theorem search_unsat_sound (fuel : Nat) (s s' : Solver)
    (hWF : WF s) (hstk : s.unit_stack = [])
    (hfresh : ∀ l, l < 2 * s.n_vars → (getLit s l).fixed = false)
    (h : search_assignments fuel s = some (SOLUTION_UNSATISFIABLE, s')) :
    ¬ ∃ α : Nat → Bool, SatAll α s := by
  obtain ⟨hU, -⟩ := search_good fuel s SOLUTION_UNSATISFIABLE s' hWF hstk h
  obtain ⟨-, -, -, hsound⟩ := hU rfl
  rintro ⟨α, hS⟩
  refine hsound α ?_ hS
  intro l hl hf
  rw [hfresh l hl] at hf
  cases hf

/-- The state returned by the concrete unsatisfiable run used as witness. -/
def searchUnsatResult : Solver :=
  { n_vars := 1
    n_clauses := 2
    lits := [{ fixed := false, assigned := false, score := 1, cont_clauses := [0] },
             { fixed := false, assigned := true, score := 1, cont_clauses := [1] }]
    clauses := [{ lits := [0], n_assigned_true := 0, n_assigned_false := 0, n_free_lits := 1 },
                { lits := [1], n_assigned_true := 0, n_assigned_false := 0, n_free_lits := 1 }]
    n_sat_clauses := 0
    n_unsat_clauses := 0
    unit_stack := []
    assigned := []
    solution := SOLUTION_UNKNOWN
    t_branches := 2
    t_unit_props := 0 }

theorem search_unsat_sound_witness :
    WF (loadSolver 1 [[1], [-1]]) ∧
    (∀ l, l < 2 * (loadSolver 1 [[1], [-1]]).n_vars →
      (getLit (loadSolver 1 [[1], [-1]]) l).fixed = false) ∧
    ¬ ∃ α : Nat → Bool, SatAll α (loadSolver 1 [[1], [-1]]) := by
  have hWF : WF (loadSolver 1 [[1], [-1]]) := by constructor <;> decide
  have hfr : ∀ l, l < 2 * (loadSolver 1 [[1], [-1]]).n_vars →
      (getLit (loadSolver 1 [[1], [-1]]) l).fixed = false := by decide
  have h : search_assignments 4 (loadSolver 1 [[1], [-1]])
      = some (SOLUTION_UNSATISFIABLE, searchUnsatResult) := by decide
  exact ⟨hWF, hfr, search_unsat_sound 4 _ _ hWF rfl hfr h⟩

/-- C6 (amended): from a well-formed state with an empty unit stack, if
`try_assignment` fails (UNSATISFIABLE) it restores the trail, every clause
record — hence every `ClauseState` counter — every `fixed` flag, the
`assigned` bits of the literals that remain fixed, and the satisfied and
contradicted totals; the `assigned` bits of unfixed literals are *not*
restored (the call is atomic on failure only up to those stale bits).  On a
non-UNSATISFIABLE outcome the trail is not unwound: the literals assigned
during the call remain on the trail on top of the pre-call trail, every
literal on the trail is still fixed with its assignment making it true, and
every previously fixed literal keeps its assignment. -/
theorem try_assignment_restore (fuel : Nat) (s : Solver) (b : Nat)
    (res : Solution) (s' : Solver)
    (hWF : WF s) (hstk : s.unit_stack = []) (hb : b < 2 * s.n_vars)
    (hfb : (getLit s b).fixed = false)
    (h : try_assignment fuel s b = some (res, s')) :
    (res = SOLUTION_UNSATISFIABLE →
      s'.assigned = s.assigned ∧ s'.clauses = s.clauses ∧
      s'.n_sat_clauses = s.n_sat_clauses ∧
      s'.n_unsat_clauses = s.n_unsat_clauses ∧
      (∀ l, (getLit s' l).fixed = (getLit s l).fixed) ∧
      (∀ l, (getLit s l).fixed = true →
        (getLit s' l).assigned = (getLit s l).assigned)) ∧
    (res ≠ SOLUTION_UNSATISFIABLE →
      (∃ ext, s'.assigned = ext ++ s.assigned) ∧
      (∀ l ∈ s'.assigned, (getLit s' l).fixed = true ∧ litTrue s' l = true) ∧
      Fixes s s') := by
  obtain ⟨hU, hSAT⟩ := try_good fuel (search_good fuel) s b res s' hWF hstk hb hfb h
  refine ⟨fun hres => ?_, fun hres => ?_⟩
  · obtain ⟨hEq, htr, -, -⟩ := hU hres
    exact ⟨htr, hEq.2.2.1, hEq.2.2.2.1, hEq.2.2.2.2.1,
      fun l => (hEq.2.2.2.2.2.2 l).1, fun l hf => (hEq.2.2.2.2.2.2 l).2.2 hf⟩
  · obtain ⟨-, hWF', -, -, hFix', hext'⟩ := hSAT hres
    refine ⟨hext', fun l hl => ?_, hFix'⟩
    have ht := (hWF'.trail_true l hl).2
    refine ⟨?_, ht⟩
    unfold litTrue at ht
    revert ht
    cases (getLit s' l).fixed <;> simp

/-- The state returned by the concrete failing `try_assignment` run used as
witness (branch x1 = true against clauses x1 and ¬x1). -/
def tryRestoreResult : Solver :=
  { n_vars := 1
    n_clauses := 2
    lits := [{ fixed := false, assigned := true, score := 0, cont_clauses := [0] },
             { fixed := false, assigned := false, score := 0, cont_clauses := [1] }]
    clauses := [{ lits := [0], n_assigned_true := 0, n_assigned_false := 0, n_free_lits := 1 },
                { lits := [1], n_assigned_true := 0, n_assigned_false := 0, n_free_lits := 1 }]
    n_sat_clauses := 0
    n_unsat_clauses := 0
    unit_stack := []
    assigned := []
    solution := SOLUTION_UNKNOWN
    t_branches := 1
    t_unit_props := 0 }

theorem try_assignment_restore_witness :
    WF (loadSolver 1 [[1], [-1]]) ∧ 0 < 2 * (loadSolver 1 [[1], [-1]]).n_vars ∧
    (getLit (loadSolver 1 [[1], [-1]]) 0).fixed = false ∧
    (tryRestoreResult.assigned = (loadSolver 1 [[1], [-1]]).assigned ∧
      tryRestoreResult.clauses = (loadSolver 1 [[1], [-1]]).clauses ∧
      tryRestoreResult.n_sat_clauses = (loadSolver 1 [[1], [-1]]).n_sat_clauses ∧
      tryRestoreResult.n_unsat_clauses = (loadSolver 1 [[1], [-1]]).n_unsat_clauses ∧
      (∀ l, (getLit tryRestoreResult l).fixed
        = (getLit (loadSolver 1 [[1], [-1]]) l).fixed) ∧
      (∀ l, (getLit (loadSolver 1 [[1], [-1]]) l).fixed = true →
        (getLit tryRestoreResult l).assigned
          = (getLit (loadSolver 1 [[1], [-1]]) l).assigned)) := by
  have hWF : WF (loadSolver 1 [[1], [-1]]) := by constructor <;> decide
  have h : try_assignment 5 (loadSolver 1 [[1], [-1]]) 0
      = some (SOLUTION_UNSATISFIABLE, tryRestoreResult) := by decide
  refine ⟨hWF, by decide, by decide, ?_⟩
  exact (try_assignment_restore 5 _ 0 _ _ hWF rfl (by decide) (by decide) h).1 rfl

end SimpleSAT
